import Mathlib

/-!
# UUID_Gen: a verification development

Shallow embedding of `UUID_Gen/UUID_Gen.cpp`.

* C++ `std::string` values are lists of characters (`List Char`), one `Char` per C++ `char`.
* `uint16_t` values are natural numbers reduced `% 65536`; `int` values are integers, and
  a signed overflow is reported as undefined behaviour instead of being computed.
* The random engine is seen through the 16-bit distribution that reads it: a stream of
  draws and a read position.
* The standard library calls the program makes (`std::regex_match`, `std::stoi`,
  `sprintf_s` with `%04X`) follow the C++ standard: a backtracking matcher for the ECMAScript
  patterns of the source, `stoi` with its two exceptions, hexadecimal output padded to 4.
* Nothing in `main` catches an exception, so one thrown by `stoi` ends the run; the
  generation loop takes a bound on its rounds (`fuel`) and reports when it is exceeded.
* Output is what is written to `cout` and `cerr` and the text handed to `toClipboard`.
-/

namespace UUIDGen

/-! ## The random source -/

/-- The engine `mt19937_64` as `uniform_int_distribution<uint16_t>` sees it: the stream of
values it will hand out and the number of values handed out so far. -/
structure mt19937_64 where
  draw : Nat → Nat
  pos : Nat

/-- One call `dis16(gen)`: the next draw, stored into a `uint16_t`, and the advanced engine. -/
def dis16 (gen : mt19937_64) : Nat × mt19937_64 :=
  (gen.draw gen.pos % 65536, { gen with pos := gen.pos + 1 })

/-- The loop `for (i = 0; i < 8; ++i) uuid[i] = dis16(gen);` run for `n` rounds: the values
drawn, in index order, and the engine afterwards. -/
def fill : Nat → mt19937_64 → List Nat × mt19937_64
  | 0, gen => ([], gen)
  | n + 1, gen =>
    let r := dis16 gen
    let rest := fill n r.2
    (r.1 :: rest.1, rest.2)

/-! ## Hexadecimal formatting (`sprintf_s` with `%04x` / `%04X`) -/

/-- One hexadecimal digit, lower case for `%x` and upper case for `%X`. -/
def hexDigit (is_lower : Bool) (d : Nat) : Char :=
  match d with
  | 0 => '0' | 1 => '1' | 2 => '2' | 3 => '3' | 4 => '4'
  | 5 => '5' | 6 => '6' | 7 => '7' | 8 => '8' | 9 => '9'
  | 10 => if is_lower then 'a' else 'A'
  | 11 => if is_lower then 'b' else 'B'
  | 12 => if is_lower then 'c' else 'C'
  | 13 => if is_lower then 'd' else 'D'
  | 14 => if is_lower then 'e' else 'E'
  | _ => if is_lower then 'f' else 'F'

/-- The digits of `n` in base 16, most significant first, without leading zeros (at least
one digit); `fuel` bounds the number of digits produced. -/
def hexDigits (is_lower : Bool) : Nat → Nat → List Char → List Char
  | 0, _, acc => acc
  | fuel + 1, n, acc =>
    if n / 16 = 0 then hexDigit is_lower (n % 16) :: acc
    else hexDigits is_lower fuel (n / 16) (hexDigit is_lower (n % 16) :: acc)

/-- The conversion `%04x` (`%04X`) of `sprintf_s`: the argument is read as a 32-bit
`unsigned int` (at most 8 digits) and padded with zeros on the left to width 4. -/
def sprintf_04x (is_lower : Bool) (v : Nat) : List Char :=
  let ds := hexDigits is_lower 8 (v % 4294967296) []
  List.replicate (4 - ds.length) '0' ++ ds

/-! ## `gen_uuid` -/

/-- The function `gen_uuid(gen, is_guid, is_lower)`: the formatted identifier and the engine
after the eight draws. -/
def gen_uuid (gen : mt19937_64) (is_guid : Bool) (is_lower : Bool) : List Char × mt19937_64 :=
  -- generate the random sequence
  let drawn := fill 8 gen
  let uuid := drawn.1
  -- set the version: version-4
  let uuid := uuid.set 3 ((uuid.getD 3 0 &&& 0x0FFF) % 65536)
  let uuid := uuid.set 3 ((uuid.getD 3 0 ||| 0x4000) % 65536)
  -- set the variant
  let uuid :=
    if is_guid then
      let uuid := uuid.set 4 ((uuid.getD 4 0 &&& 0x1FFF) % 65536)
      uuid.set 4 ((uuid.getD 4 0 ||| 0xC000) % 65536)
    else
      let uuid := uuid.set 4 ((uuid.getD 4 0 &&& 0x3FFF) % 65536)
      uuid.set 4 ((uuid.getD 4 0 ||| 0x8000) % 65536)
  -- format as a hexadecimal string
  let f := fun i => sprintf_04x is_lower (uuid.getD i 0)
  (f 0 ++ f 1 ++ ['-'] ++ f 2 ++ ['-'] ++ f 3 ++ ['-'] ++ f 4 ++ ['-'] ++ f 5 ++ f 6 ++ f 7,
   drawn.2)

/-! ## Regular expressions (`std::regex`, ECMAScript grammar, backtracking)

Only the constructs the program's patterns use. A match attempt is the list of all ways to
match a prefix of the unread input, in the order a backtracking matcher tries them (greedy
alternatives first); each way is the input left unread and the sub-matches recorded so far.
-/

/-- Syntax of the patterns. A non-capturing group `(?:a)` is `a` itself. -/
inductive Regex where
  /-- Matches the empty text. -/
  | eps : Regex
  /-- The assertion `^`: at the start of the subject. -/
  | bol : Regex
  /-- The assertion `$`: at the end of the subject. (An implementation that also lets `$`
  hold before a line break changes nothing here: every pattern ends in `$` and is used with
  `regex_match`, which accepts only a match that reaches the end of the subject.) -/
  | eol : Regex
  /-- An ordinary (possibly escaped) character. -/
  | chr : Char → Regex
  /-- The pattern `.*`. -/
  | dotStar : Regex
  /-- The pattern `.+`. -/
  | dotPlus : Regex
  /-- Concatenation. -/
  | seq : Regex → Regex → Regex
  /-- Alternation `a|b`. -/
  | alt : Regex → Regex → Regex
  /-- The greedy option `a?`. -/
  | opt : Regex → Regex
  /-- A capturing group `(a)`. -/
  | group : Regex → Regex

/-- Concatenation of a list of patterns. -/
def Regex.cat : List Regex → Regex
  | [] => Regex.eps
  | a :: rest => Regex.seq a (Regex.cat rest)

/-- The sub-matches of a match, in the order of their groups. -/
abbrev smatch := List (List Char)

/-- Sub-match number `i` (`smMatch[i]` for `i ≥ 1`); empty when the group did not take part. -/
def smatch.sub (sm : smatch) (i : Nat) : List Char :=
  sm.getD (i - 1) []

/-- Characters `.` does not match: the line terminators. -/
def isLineTerminator (c : Char) : Bool :=
  c == '\n' || c == '\r'

/-- Comparison of a pattern character with an input character; with `regex::icase` both are
folded with `tolower`. -/
def sameChar (icase : Bool) (p c : Char) : Bool :=
  if icase then p.toLower == c.toLower else p == c

/-- All ways `.*` can match at the start of the input, longest first. -/
def dotStarFrom (caps : smatch) : List Char → List (List Char × smatch)
  | [] => [([], caps)]
  | c :: cs =>
    if isLineTerminator c then [(c :: cs, caps)]
    else dotStarFrom caps cs ++ [(c :: cs, caps)]

/-- All ways a pattern can match at the start of the unread input, in backtracking order.
`input` is the whole subject (for `^`). -/
def Regex.run (icase : Bool) (input : List Char) :
    Regex → List Char × smatch → List (List Char × smatch)
  | Regex.eps, st => [st]
  | Regex.bol, st => if st.1.length = input.length then [st] else []
  | Regex.eol, st => if st.1.isEmpty then [st] else []
  | Regex.chr p, st =>
    match st.1 with
    | [] => []
    | c :: cs => if sameChar icase p c then [(cs, st.2)] else []
  | Regex.dotStar, st => dotStarFrom st.2 st.1
  | Regex.dotPlus, st =>
    match st.1 with
    | [] => []
    | c :: cs => if isLineTerminator c then [] else dotStarFrom st.2 cs
  | Regex.seq a b, st => (Regex.run icase input a st).flatMap (fun st1 => Regex.run icase input b st1)
  | Regex.alt a b, st => Regex.run icase input a st ++ Regex.run icase input b st
  | Regex.opt a, st => Regex.run icase input a st ++ [st]
  | Regex.group a, st =>
    (Regex.run icase input a st).map
      (fun st1 => (st1.1, st1.2 ++ [st.1.take (st.1.length - st1.1.length)]))

/-- A compiled pattern: its syntax and whether `regex::icase` was given. -/
structure regex where
  re : Regex
  icase : Bool

/-- The call `regex_match(str, smMatch, re)`: the pattern must match the whole of `str`; the
result holds the sub-matches of the first match found. -/
def regex_match (str : List Char) (r : regex) : Option smatch :=
  ((r.re.run r.icase str (str, [])).find? (fun st => st.1.isEmpty)).map (fun st => st.2)

/-- The pattern `(-|\/)`. -/
def introducer : Regex := Regex.alt (Regex.chr '-') (Regex.chr '/')

/-- The pattern `(?:=|\:)`. -/
def separator : Regex := Regex.alt (Regex.chr '=') (Regex.chr ':')

/-- The pattern `^(-|\/)CL?I?P?$`, ignoring case. -/
def reClip : regex :=
  ⟨Regex.cat [Regex.bol, Regex.group introducer, Regex.chr 'C', Regex.opt (Regex.chr 'L'),
    Regex.opt (Regex.chr 'I'), Regex.opt (Regex.chr 'P'), Regex.eol], true⟩

/-- The pattern `^(-|\/)QU?I?E?T?$`, ignoring case. -/
def reQuiet : regex :=
  ⟨Regex.cat [Regex.bol, Regex.group introducer, Regex.chr 'Q', Regex.opt (Regex.chr 'U'),
    Regex.opt (Regex.chr 'I'), Regex.opt (Regex.chr 'E'), Regex.opt (Regex.chr 'T'),
    Regex.eol], true⟩

/-- The pattern `^(-|\/)L(C|OW?E?R?)?$`, ignoring case. -/
def reLower : regex :=
  ⟨Regex.cat [Regex.bol, Regex.group introducer, Regex.chr 'L',
    Regex.opt (Regex.group (Regex.alt (Regex.chr 'C')
      (Regex.cat [Regex.chr 'O', Regex.opt (Regex.chr 'W'), Regex.opt (Regex.chr 'E'),
        Regex.opt (Regex.chr 'R')]))),
    Regex.eol], true⟩

/-- The pattern `^(-|\/)U(C|PP?E?R?)?$`, ignoring case. -/
def reUpper : regex :=
  ⟨Regex.cat [Regex.bol, Regex.group introducer, Regex.chr 'U',
    Regex.opt (Regex.group (Regex.alt (Regex.chr 'C')
      (Regex.cat [Regex.chr 'P', Regex.opt (Regex.chr 'P'), Regex.opt (Regex.chr 'E'),
        Regex.opt (Regex.chr 'R')]))),
    Regex.eol], true⟩

/-- The pattern `^(-|\/)GU?I?D?$`, ignoring case. -/
def reGUID : regex :=
  ⟨Regex.cat [Regex.bol, Regex.group introducer, Regex.chr 'G', Regex.opt (Regex.chr 'U'),
    Regex.opt (Regex.chr 'I'), Regex.opt (Regex.chr 'D'), Regex.eol], true⟩

/-- The pattern `^(-|\/)(\?|HE?L?P?|USA?G?E?)$`, ignoring case. -/
def reHelp : regex :=
  ⟨Regex.cat [Regex.bol, Regex.group introducer,
    Regex.group (Regex.alt (Regex.chr '?')
      (Regex.alt
        (Regex.cat [Regex.chr 'H', Regex.opt (Regex.chr 'E'), Regex.opt (Regex.chr 'L'),
          Regex.opt (Regex.chr 'P')])
        (Regex.cat [Regex.chr 'U', Regex.chr 'S', Regex.opt (Regex.chr 'A'),
          Regex.opt (Regex.chr 'G'), Regex.opt (Regex.chr 'E')]))),
    Regex.eol], true⟩

/-- The pattern `^(?:-|\/)DE?L?I?M?(?:=|\:)(.*)$`, ignoring case. -/
def reDelim1 : regex :=
  ⟨Regex.cat [Regex.bol, introducer, Regex.chr 'D', Regex.opt (Regex.chr 'E'),
    Regex.opt (Regex.chr 'L'), Regex.opt (Regex.chr 'I'), Regex.opt (Regex.chr 'M'),
    separator, Regex.group Regex.dotStar, Regex.eol], true⟩

/-- The pattern `^(-|\/)DE?L?I?M?$`, ignoring case. -/
def reDelim2 : regex :=
  ⟨Regex.cat [Regex.bol, Regex.group introducer, Regex.chr 'D', Regex.opt (Regex.chr 'E'),
    Regex.opt (Regex.chr 'L'), Regex.opt (Regex.chr 'I'), Regex.opt (Regex.chr 'M'),
    Regex.eol], true⟩

/-- The pattern `^(.+),(.+)$` (case-sensitive). -/
def reDelimCS : regex :=
  ⟨Regex.cat [Regex.bol, Regex.group Regex.dotPlus, Regex.chr ',', Regex.group Regex.dotPlus,
    Regex.eol], false⟩

/-- The pattern `^(?:-|\/)NU?M?B?E?R?(?:=|\:)(.*)$`, ignoring case. -/
def reGenNumber : regex :=
  ⟨Regex.cat [Regex.bol, introducer, Regex.chr 'N', Regex.opt (Regex.chr 'U'),
    Regex.opt (Regex.chr 'M'), Regex.opt (Regex.chr 'B'), Regex.opt (Regex.chr 'E'),
    Regex.opt (Regex.chr 'R'), separator, Regex.group Regex.dotStar, Regex.eol], true⟩

/-! ## `std::stoi` -/

/-- The exceptions `std::stoi` throws. -/
inductive stoi_error where
  | invalid_argument
  | out_of_range
  deriving DecidableEq, Repr

/-- The white space `strtol` skips (`isspace` in the "C" locale). -/
def isspace (c : Char) : Bool :=
  c == ' ' || c == '\t' || c == '\n' || c == Char.ofNat 11 || c == Char.ofNat 12 || c == '\r'

/-- The value of a run of decimal digits. -/
def digitsValue (ds : List Char) : Nat :=
  ds.foldl (fun acc c => 10 * acc + (c.toNat - 48)) 0

/-- The call `std::stoi(str)` (base 10): leading white space, an optional sign, then the
longest run of decimal digits; what follows is ignored. No digit: `invalid_argument`; a
value outside `int`: `out_of_range`. -/
def stoi (str : List Char) : Except stoi_error Int :=
  let s := str.dropWhile isspace
  let negative := s.head? == some '-'
  let s := if s.head? == some '-' || s.head? == some '+' then s.drop 1 else s
  let ds := s.takeWhile Char.isDigit
  if ds.isEmpty then Except.error stoi_error.invalid_argument
  else
    let v : Int := if negative then -(digitsValue ds : Int) else (digitsValue ds : Int)
    if v < -2147483648 ∨ 2147483647 < v then Except.error stoi_error.out_of_range
    else Except.ok v

/-! ## `main` -/

/-- The local variables of `main` that argument parsing sets, and the text written to
`cerr` so far. -/
structure MainState where
  is_guid : Bool
  is_lower : Bool
  is_help : Bool
  is_error : Bool
  is_clipboard : Bool
  is_quiet : Bool
  is_delim : Bool
  genNumber : Int
  strLead : List Char
  strTail : List Char
  cerr : List Char
  deriving DecidableEq, Repr

deriving instance DecidableEq for Except

/-- The defaults loaded at the top of `main`. -/
def MainState.init : MainState :=
  { is_guid := false, is_lower := false, is_help := false, is_error := false,
    is_clipboard := false, is_quiet := false, is_delim := false, genNumber := 1,
    strLead := [], strTail := [], cerr := [] }

/-- The line `Invalid command-line argument: "str"` followed by `endl`. -/
def invalidMessage (str : List Char) : List Char :=
  "Invalid command-line argument: ".toList ++ [Char.ofNat 34] ++ str ++ [Char.ofNat 34] ++ ['\n']

/-- The body of the argument loop for one argument `str`; an exception of `stoi` leaves the
loop (and `main`: nothing catches it). -/
def parseArg (st : MainState) (str : List Char) : Except stoi_error MainState :=
  if (regex_match str reClip).isSome then
    -- copy UUID to clipboard
    Except.ok { st with is_clipboard := true }
  else if (regex_match str reQuiet).isSome then
    -- quiet mode, not output, automatically copy to clipboard
    Except.ok { st with is_quiet := true, is_clipboard := true }
  else if (regex_match str reLower).isSome then
    -- force lower case
    Except.ok { st with is_lower := true }
  else if (regex_match str reUpper).isSome then
    -- force upper case
    Except.ok { st with is_lower := false }
  else if (regex_match str reGUID).isSome then
    -- Microsoft GUID mode
    Except.ok { st with is_guid := true }
  else if (regex_match str reHelp).isSome then
    -- generate some help and exit
    Except.ok { st with is_help := true }
  else
    match regex_match str reDelim1 with
    | some smMatch =>
      -- delimiter specified
      let strDelim := smMatch.sub 1
      let nDelim := strDelim.length
      if nDelim = 0 then
        -- delimiter disabled (empty)
        Except.ok { st with is_delim := true, strLead := [], strTail := [] }
      else if nDelim = 1 then
        -- single char, use for both
        Except.ok { st with is_delim := true, strLead := strDelim, strTail := strDelim }
      else
        match regex_match strDelim reDelimCS with
        | some smMatch =>
          -- comma-separated notation
          Except.ok { st with is_delim := true, strLead := smMatch.sub 1,
                              strTail := smMatch.sub 2 }
        | none =>
          -- just take it half-and-half
          Except.ok { st with is_delim := true, strLead := strDelim.take (nDelim / 2),
                              strTail := strDelim.drop (nDelim / 2) }
    | none =>
      if (regex_match str reDelim2).isSome then
        -- delimiter disabled
        Except.ok { st with is_delim := true, strLead := [], strTail := [] }
      else
        match regex_match str reGenNumber with
        | some smMatch =>
          -- -Number=## specified
          let strDelim := smMatch.sub 1
          let nDelim := strDelim.length
          if nDelim = 0 then
            Except.ok { st with genNumber := 1 }
          else
            -- parse the number
            match stoi strDelim with
            | Except.ok n => Except.ok { st with genNumber := n }
            | Except.error e => Except.error e
        | none =>
          -- something unrecognized... generate an error
          Except.ok { st with cerr := st.cerr ++ invalidMessage str, is_error := true }

/-- The loop `for (a = 1; a < argc; ++a)` over the arguments `argv[1], argv[2], ...`. -/
def parseArgs : MainState → List (List Char) → Except stoi_error MainState
  | st, [] => Except.ok st
  | st, str :: rest =>
    match parseArg st str with
    | Except.ok st1 => parseArgs st1 rest
    | Except.error e => Except.error e

/-- The step `if (is_guid && !is_delim)`: add standard GUID delimiters if not overridden. -/
def addBraces (st : MainState) : MainState :=
  if st.is_guid && !st.is_delim then
    { st with strLead := [Char.ofNat 123], strTail := [Char.ofNat 125] }
  else st

/-- The usage text written to `cerr` (its last line break is the `endl`), `argv0` being
`argv[0]`. -/
def usage (argv0 : List Char) : List Char :=
  ['\n'] ++ argv0 ++
  (" -? -g -l -u -c -q -d=delim -n=#\n" ++
   "  -?   help\n" ++
   "  -g   GUID format (surround with curly braces)\n" ++
   "  -l   lower-case hex\n" ++
   "  -u   upper-case hex (default)\n" ++
   "  -c   copy UUID to clipboard\n" ++
   "  -q   quiet mode (just copy to clipboard, no output)\n" ++
   "  -d   disable GUID curly braces\n" ++
   "  -d=delim\n" ++
   "       delim=  to disable GUID curly braces\n" ++
   "       delim=x for single char x on both ends\n" ++
   "       delim=xy for x at head and y at tail\n" ++
   "       delim=xxx,yyy for xxx at head and y at tail\n" ++
   "  -n=#\n" ++
   "       Generate a number of GUIDs, one to a line\n" ++
   "\n" ++
   "  Version 1.2, 2023-06-16\n" ++
   "    KSM minor tweak to help\n" ++
   "  Version 1.1, 2022-09-08\n" ++
   "    David Smart, David@Smart-Family.net, added -n=# command, tweaked the help, shortened the name.\n" ++
   "  Version 1.0, 2020-08-04\n" ++
   "    Kerry S. Martin, martin@wild-wood.net, free for commercial and non-commercial use\n" ++
   "\n").toList

/-- How the loop `while (genNumber)` ends. -/
inductive LoopResult where
  /-- The loop was left with this `returnString`. -/
  | done (returnString : List Char)
  /-- The decrement `--genNumber` overflowed `int`: undefined behaviour. -/
  | overflow
  /-- More rounds than `fuel` allows. -/
  | unfinished
  deriving DecidableEq, Repr

/-- The loop `while (genNumber) { ... }` of `main`, at most `fuel` rounds. -/
def generate (strLead strTail : List Char) (is_guid is_lower : Bool) :
    Nat → Int → mt19937_64 → List Char → LoopResult
  | 0, genNumber, _, returnString =>
    if genNumber = 0 then LoopResult.done returnString else LoopResult.unfinished
  | fuel + 1, genNumber, gen, returnString =>
    if genNumber = 0 then LoopResult.done returnString
    else
      let r := gen_uuid gen is_guid is_lower
      let uuid := strLead ++ r.1 ++ strTail
      let returnString := returnString ++ uuid
      -- `--genNumber`
      if genNumber = -2147483648 then LoopResult.overflow
      else
        let genNumber := genNumber - 1
        let returnString := if genNumber ≠ 0 then returnString ++ ['\n'] else returnString
        generate strLead strTail is_guid is_lower fuel genNumber r.2 returnString

/-- What a run of the program does. -/
inductive Outcome where
  /-- The function `main` returned `retval`, having written `cout` and `cerr` and, when
  `clipboard` is `some s`, having put `s` on the clipboard. -/
  | exited (retval : Int) (cout : List Char) (cerr : List Char)
      (clipboard : Option (List Char))
  /-- An exception of `stoi` left `main`: the process is ended by `std::terminate`. -/
  | terminated (e : stoi_error)
  /-- The run reached undefined behaviour (signed overflow of `genNumber`). -/
  | undefined
  /-- The generation loop needs more rounds than `fuel`. -/
  | unfinished
  deriving DecidableEq, Repr

/-- The function `main`. `argv` is the argument vector (`argv[0]` the program name) and
`gen` the engine as seeded from `time(NULL)`; `fuel` bounds the rounds of the generation
loop. -/
def main (fuel : Nat) (gen : mt19937_64) (argv : List (List Char)) : Outcome :=
  match parseArgs MainState.init (argv.drop 1) with
  | Except.error e => Outcome.terminated e
  | Except.ok st =>
    let st := addBraces st
    if st.is_error then
      -- oops... something went wrong
      Outcome.exited 1 [] st.cerr none
    else if st.is_help then
      -- print usage to stderr
      Outcome.exited 0 [] (st.cerr ++ usage (argv.headD [])) none
    else
      -- generate the UUID
      match generate st.strLead st.strTail st.is_guid st.is_lower fuel st.genNumber gen [] with
      | LoopResult.done returnString =>
        Outcome.exited 0 (if !st.is_quiet then returnString else []) st.cerr
          (if st.is_clipboard then some returnString else none)
      | LoopResult.overflow => Outcome.undefined
      | LoopResult.unfinished => Outcome.unfinished

/-! ## Reading the argument loop as a classification -/

/-- The branch of the argument loop an argument takes. -/
inductive ArgKind where
  | clip
  | quiet
  | lower
  | upper
  | guid
  | help
  /-- The delimiter option with a value (the text captured by `reDelim1`). -/
  | delim (value : List Char)
  /-- The delimiter option without a value. -/
  | bareDelim
  /-- The count option (the text captured by `reGenNumber`). -/
  | number (value : List Char)
  /-- No pattern matches. -/
  | invalid
  deriving DecidableEq, Repr

/-- The branch the `if` / `else if` chain of the argument loop selects for `str`: the
patterns are tried in the order of the source. -/
def classify (str : List Char) : ArgKind :=
  if (regex_match str reClip).isSome then ArgKind.clip
  else if (regex_match str reQuiet).isSome then ArgKind.quiet
  else if (regex_match str reLower).isSome then ArgKind.lower
  else if (regex_match str reUpper).isSome then ArgKind.upper
  else if (regex_match str reGUID).isSome then ArgKind.guid
  else if (regex_match str reHelp).isSome then ArgKind.help
  else
    match regex_match str reDelim1 with
    | some smMatch => ArgKind.delim (smMatch.sub 1)
    | none =>
      if (regex_match str reDelim2).isSome then ArgKind.bareDelim
      else
        match regex_match str reGenNumber with
        | some smMatch => ArgKind.number (smMatch.sub 1)
        | none => ArgKind.invalid

/-- The pair `(strLead, strTail)` the delimiter branch computes from the captured value. -/
def splitDelim (strDelim : List Char) : List Char × List Char :=
  if strDelim.length = 0 then ([], [])
  else if strDelim.length = 1 then (strDelim, strDelim)
  else
    match regex_match strDelim reDelimCS with
    | some smMatch => (smMatch.sub 1, smMatch.sub 2)
    | none => (strDelim.take (strDelim.length / 2), strDelim.drop (strDelim.length / 2))

/-- The body of the branch `kind` of the argument loop, for the argument `str`. -/
def applyArg (st : MainState) (str : List Char) : ArgKind → Except stoi_error MainState
  | ArgKind.clip => Except.ok { st with is_clipboard := true }
  | ArgKind.quiet => Except.ok { st with is_quiet := true, is_clipboard := true }
  | ArgKind.lower => Except.ok { st with is_lower := true }
  | ArgKind.upper => Except.ok { st with is_lower := false }
  | ArgKind.guid => Except.ok { st with is_guid := true }
  | ArgKind.help => Except.ok { st with is_help := true }
  | ArgKind.delim value =>
    Except.ok { st with is_delim := true, strLead := (splitDelim value).1,
                        strTail := (splitDelim value).2 }
  | ArgKind.bareDelim => Except.ok { st with is_delim := true, strLead := [], strTail := [] }
  | ArgKind.number value =>
    if value.length = 0 then Except.ok { st with genNumber := 1 }
    else
      match stoi value with
      | Except.ok n => Except.ok { st with genNumber := n }
      | Except.error e => Except.error e
  | ArgKind.invalid =>
    Except.ok { st with cerr := st.cerr ++ invalidMessage str, is_error := true }

/-- The count an argument sets: a count option with an empty value sets 1, one whose value
`stoi` converts sets that integer; any other argument sets none. -/
def countSet (str : List Char) : Option Int :=
  match classify str with
  | ArgKind.number value =>
    if value.length = 0 then some 1
    else
      match stoi value with
      | Except.ok n => some n
      | Except.error _ => none
  | _ => none

/-- The delimiters an argument sets: those of a delimiter option, with or without a value;
any other argument sets none. -/
def delimSet (str : List Char) : Option (List Char × List Char) :=
  match classify str with
  | ArgKind.delim value => some (splitDelim value)
  | ArgKind.bareDelim => some ([], [])
  | _ => none

/-- Whether some pattern of the argument loop matches the argument. -/
def recognized (str : List Char) : Bool :=
  classify str != ArgKind.invalid

/-- The state with the error flag and the text written to `cerr` left out. -/
def MainState.config (st : MainState) : MainState :=
  { st with is_error := false, cerr := [] }

/-- Whether the argument is a count option (takes the branch of `reGenNumber`). -/
def isCountOption (str : List Char) : Bool :=
  match classify str with
  | ArgKind.number _ => true
  | _ => false

/-- The state with the quiet flag and the clipboard flag left out. -/
def MainState.plain (st : MainState) : MainState :=
  { st with is_quiet := false, is_clipboard := false }

/-- Whether the argument is anything but a quiet option. -/
def notQuiet (str : List Char) : Bool :=
  classify str != ArgKind.quiet

/-- All spellings of a word in which each letter is taken in lower or in upper case. -/
def caseVariants : List Char → List (List Char)
  | [] => [[]]
  | c :: cs => (caseVariants cs).flatMap (fun v => [c.toLower :: v, c.toUpper :: v])

/-- The non-empty prefixes of a word, shortest first. -/
def prefixes (w : List Char) : List (List Char) :=
  (List.range w.length).map (fun n => w.take (n + 1))

/-- The tokens that abbreviate a keyword: an introducer `-` or `/` followed by a non-empty
prefix of the keyword in any mix of letter cases. -/
def abbreviations (keyword : List Char) : List (List Char) :=
  ['-', '/'].flatMap
    (fun c => (prefixes keyword).flatMap (fun P => (caseVariants P).map (fun v => c :: v)))

/-! ## Reading `gen_uuid` as a formula -/

/-- The value `dis16` yields `i` draws after the engine's read position. -/
def drawn (gen : mt19937_64) (i : Nat) : Nat :=
  gen.draw (gen.pos + i) % 65536

/-- The eight 16-bit groups once the version and variant bits are written, as a formula in
the eight draws. -/
def stamped (gen : mt19937_64) (is_guid : Bool) : List Nat :=
  [drawn gen 0, drawn gen 1, drawn gen 2,
   (drawn gen 3 &&& 0x0FFF) ||| 0x4000,
   if is_guid then (drawn gen 4 &&& 0x1FFF) ||| 0xC000 else (drawn gen 4 &&& 0x3FFF) ||| 0x8000,
   drawn gen 5, drawn gen 6, drawn gen 7]

/-- The fifth group after the variant bits are written, in arithmetic form. -/
def variantWord (is_guid : Bool) (u : Nat) : Nat :=
  if is_guid then 49152 + u % 8192 else 32768 + u % 16384

/-- The text layout `%04X%04X-%04X-%04X-%04X-%04X%04X%04X` of a list of groups. -/
def layout (is_lower : Bool) (w : List Nat) : List Char :=
  let f := fun i => sprintf_04x is_lower (w.getD i 0)
  f 0 ++ f 1 ++ ['-'] ++ f 2 ++ ['-'] ++ f 3 ++ ['-'] ++ f 4 ++ ['-'] ++ f 5 ++ f 6 ++ f 7

/-- The characters `%x` (lower case) or `%X` (upper case) can print. -/
def hexChars (is_lower : Bool) : List Char :=
  if is_lower then "0123456789abcdef".toList else "0123456789ABCDEF".toList

/-- The items a run of the generation loop is expected to produce: `n` identifiers, each
built by `gen_uuid` from the engine the previous one left and wrapped in the delimiters. -/
def identifiers (strLead strTail : List Char) (is_guid is_lower : Bool) :
    Nat → mt19937_64 → List (List Char)
  | 0, _ => []
  | n + 1, gen =>
    (strLead ++ (gen_uuid gen is_guid is_lower).1 ++ strTail) ::
      identifiers strLead strTail is_guid is_lower n (gen_uuid gen is_guid is_lower).2

/-- The engine once `k` identifiers have been built from it: `8 * k` draws further on in
the same stream. -/
def advance (gen : mt19937_64) (k : Nat) : mt19937_64 :=
  { gen with pos := gen.pos + 8 * k }

/-! ## Reading an identifier back -/

/-- The value of a hexadecimal digit of either case (0 for any other character). -/
def hexValue (c : Char) : Nat :=
  if '0' ≤ c ∧ c ≤ '9' then c.toNat - 48
  else if 'a' ≤ c ∧ c ≤ 'f' then c.toNat - 87
  else if 'A' ≤ c ∧ c ≤ 'F' then c.toNat - 55
  else 0

/-- The number a run of hexadecimal digits denotes, most significant digit first. -/
def readHex (s : List Char) : Nat :=
  s.foldl (fun acc c => 16 * acc + hexValue c) 0

/-- A text cut into consecutive groups of four characters. -/
def groupsOfFour : List Char → List (List Char)
  | a :: b :: c :: d :: rest => [a, b, c, d] :: groupsOfFour rest
  | _ => []

/-- The groups read back from an identifier: its hyphens are dropped and every four digits
are read as one big-endian number. -/
def readBack (s : List Char) : List Nat :=
  (groupsOfFour (s.filter (fun c => c != '-'))).map readHex

/-! ## Spellings of a keyword -/

/-- The pattern fragment `A?B?C?...`: each letter optional, in order. -/
def optLetters (letters : List Char) : List Regex :=
  letters.map (fun c => Regex.opt (Regex.chr c))

/-- A word spells a keyword when, folded to lower case, it is the keyword's first letter
followed by an in-order subsequence of the keyword's remaining letters. -/
def spells (keyword word : List Char) : Prop :=
  ∃ s, word.map Char.toLower = keyword.headD (Char.ofNat 32) :: s ∧ List.Sublist s keyword.tail

/-- A token is an option spelled after a keyword: an introducer `-` or `/` followed by a
spelling of the keyword and nothing else. -/
def isOption (keyword str : List Char) : Prop :=
  ∃ i w, str = i :: w ∧ (i = '-' ∨ i = '/') ∧ spells keyword w

/-- A token is an option with a value: an introducer, a spelling of the keyword, a separator
`=` or `:` and the value, which holds no line terminator. -/
def isValued (keyword str value : List Char) : Prop :=
  ∃ i w sep, str = i :: (w ++ sep :: value) ∧ (i = '-' ∨ i = '/') ∧ (sep = '=' ∨ sep = ':') ∧
    spells keyword w ∧ ∀ c ∈ value, isLineTerminator c = false

/-! ## The patterns as a table -/

/-- The branches of the argument loop in the order of the source: each pattern with the
kind of argument it stands for (built from the sub-matches where a value is captured). -/
def branches : List (regex × (smatch → ArgKind)) :=
  [(reClip, fun _ => ArgKind.clip), (reQuiet, fun _ => ArgKind.quiet),
   (reLower, fun _ => ArgKind.lower), (reUpper, fun _ => ArgKind.upper),
   (reGUID, fun _ => ArgKind.guid), (reHelp, fun _ => ArgKind.help),
   (reDelim1, fun smMatch => ArgKind.delim (smMatch.sub 1)),
   (reDelim2, fun _ => ArgKind.bareDelim),
   (reGenNumber, fun smMatch => ArgKind.number (smMatch.sub 1))]

/-- The nine option patterns in the order of the source. -/
def patterns : List regex :=
  branches.map (fun b => b.1)

/-- Classification of an argument by trying the branches in a given order: the first
pattern that matches decides; none matching, the argument is invalid. -/
def classifyIn (order : List (regex × (smatch → ArgKind))) (str : List Char) : ArgKind :=
  (order.findSome? (fun b => (regex_match str b.1).map b.2)).getD ArgKind.invalid

/-- The character at a position of a token, folded to lower case. -/
def letterAt (str : List Char) (n : Nat) : Option Char :=
  (str.get? n).map Char.toLower

/-- Whether a token holds a separator `=` or `:`. -/
def hasSeparator (str : List Char) : Bool :=
  str.any (fun c => c == '=' || c == ':')

/-- The one pattern (by its position in `patterns`) a token can match, read off its second
and third characters and the presence of a separator; 9 when it can match none. -/
def slot (str : List Char) : Nat :=
  if letterAt str 1 = some 'c' then 0
  else if letterAt str 1 = some 'q' then 1
  else if letterAt str 1 = some 'l' then 2
  else if letterAt str 1 = some 'u' then (if letterAt str 2 = some 's' then 5 else 3)
  else if letterAt str 1 = some 'g' then 4
  else if letterAt str 1 = some '?' ∨ letterAt str 1 = some 'h' then 5
  else if letterAt str 1 = some 'd' then (if hasSeparator str then 6 else 7)
  else if letterAt str 1 = some 'n' then 8
  else 9

/-- The spellings of the keyword `clip` the pattern `CL?I?P?` admits, in lower case. -/
def clipSpellings : List (List Char) :=
  ["c", "cl", "ci", "cp", "cli", "clp", "cip", "clip"].map String.toList

/-! ## Facts about the formatting -/

theorem and_0FFF (u : Nat) : u &&& 0x0FFF = u % 4096 :=
  Nat.and_pow_two_sub_one_eq_mod u 12

theorem and_1FFF (u : Nat) : u &&& 0x1FFF = u % 8192 :=
  Nat.and_pow_two_sub_one_eq_mod u 13

theorem and_3FFF (u : Nat) : u &&& 0x3FFF = u % 16384 :=
  Nat.and_pow_two_sub_one_eq_mod u 14

theorem or_4000 (b : Nat) (h : b < 4096) : b ||| 0x4000 = 16384 + b := by
  have h1 : b < 2 ^ 12 := by omega
  have h2 := Nat.mul_add_lt_is_or h1 4
  norm_num at h2
  rw [Nat.lor_comm, ← h2]

theorem or_8000 (b : Nat) (h : b < 16384) : b ||| 0x8000 = 32768 + b := by
  have h1 : b < 2 ^ 14 := by omega
  have h2 := Nat.mul_add_lt_is_or h1 2
  norm_num at h2
  rw [Nat.lor_comm, ← h2]

theorem or_C000 (b : Nat) (h : b < 8192) : b ||| 0xC000 = 49152 + b := by
  have h1 : b < 2 ^ 13 := by omega
  have h2 := Nat.mul_add_lt_is_or h1 6
  norm_num at h2
  rw [Nat.lor_comm, ← h2]

theorem hexDigit_zero (is_lower : Bool) : hexDigit is_lower 0 = '0' := rfl

theorem sprintf_04x_eq (is_lower : Bool) (v : Nat) (h : v < 65536) :
    sprintf_04x is_lower v =
      [hexDigit is_lower (v / 4096), hexDigit is_lower (v / 256 % 16),
       hexDigit is_lower (v / 16 % 16), hexDigit is_lower (v % 16)] := by
  have hm : v % 4294967296 = v := Nat.mod_eq_of_lt (by omega)
  have e4 : v / (16 * 16 * 16 * 16) = 0 := by omega
  have e5 : v / (16 * 16 * 16) % 16 = v / 4096 := by omega
  have e6 : v / (16 * 16) = v / 256 := rfl
  have e7 : v / (16 * 16 * 16) = v / 4096 := rfl
  simp only [sprintf_04x, hm, hexDigits, Nat.div_div_eq_div_mul, e4, e5, e6, e7, if_true]
  by_cases h1 : v / 16 = 0
  · have e1 : v / 4096 = 0 := by omega
    have e2 : v / 256 = 0 := by omega
    simp [h1, e1, e2, hexDigit_zero]
  · by_cases h2 : v / 256 = 0
    · have e1 : v / 4096 = 0 := by omega
      simp [h1, h2, e1, hexDigit_zero]
    · by_cases h3 : v / 4096 = 0
      · simp [h1, h2, h3, hexDigit_zero]
      · simp [h1, h2, h3]

/-- The value drawn `i` places after the engine's read position, as a `uint16_t`. -/
theorem fill_eight (gen : mt19937_64) :
    fill 8 gen =
      ([gen.draw gen.pos % 65536, gen.draw (gen.pos + 1) % 65536,
        gen.draw (gen.pos + 2) % 65536, gen.draw (gen.pos + 3) % 65536,
        gen.draw (gen.pos + 4) % 65536, gen.draw (gen.pos + 5) % 65536,
        gen.draw (gen.pos + 6) % 65536, gen.draw (gen.pos + 7) % 65536],
       { gen with pos := gen.pos + 8 }) := by
  simp [fill, dis16, Nat.add_assoc]

theorem drawn_lt (gen : mt19937_64) (i : Nat) : drawn gen i < 65536 :=
  Nat.mod_lt _ (by decide)

theorem version_word (u : Nat) : (u &&& 0x0FFF) ||| 0x4000 = 16384 + u % 4096 := by
  rw [and_0FFF, or_4000 _ (Nat.mod_lt _ (by decide))]

theorem variant_word_uuid (u : Nat) : (u &&& 0x3FFF) ||| 0x8000 = 32768 + u % 16384 := by
  rw [and_3FFF, or_8000 _ (Nat.mod_lt _ (by decide))]

theorem variant_word_guid (u : Nat) : (u &&& 0x1FFF) ||| 0xC000 = 49152 + u % 8192 := by
  rw [and_1FFF, or_C000 _ (Nat.mod_lt _ (by decide))]

theorem gen_uuid_eq (gen : mt19937_64) (is_guid is_lower : Bool) :
    gen_uuid gen is_guid is_lower =
      (layout is_lower (stamped gen is_guid), { gen with pos := gen.pos + 8 }) := by
  have m3 : (gen.draw (gen.pos + 3) % 65536 % 4096) % 65536
      = gen.draw (gen.pos + 3) % 65536 % 4096 := by omega
  have m3b : (16384 + gen.draw (gen.pos + 3) % 65536 % 4096) % 65536
      = 16384 + gen.draw (gen.pos + 3) % 65536 % 4096 := by omega
  have m4 : (gen.draw (gen.pos + 4) % 65536 % 16384) % 65536
      = gen.draw (gen.pos + 4) % 65536 % 16384 := by omega
  have m4b : (32768 + gen.draw (gen.pos + 4) % 65536 % 16384) % 65536
      = 32768 + gen.draw (gen.pos + 4) % 65536 % 16384 := by omega
  have m5 : (gen.draw (gen.pos + 4) % 65536 % 8192) % 65536
      = gen.draw (gen.pos + 4) % 65536 % 8192 := by omega
  have m5b : (49152 + gen.draw (gen.pos + 4) % 65536 % 8192) % 65536
      = 49152 + gen.draw (gen.pos + 4) % 65536 % 8192 := by omega
  cases is_guid <;>
    simp only [gen_uuid, fill_eight, layout, stamped, drawn, List.getD_cons_zero,
      List.getD_cons_succ, List.set_cons_succ, List.set_cons_zero, and_0FFF, and_1FFF,
      and_3FFF, m3, m4, m5, m3b, m4b, m5b,
      or_4000 _ (Nat.mod_lt (gen.draw (gen.pos + 3) % 65536) (by decide : 0 < 4096)),
      or_8000 _ (Nat.mod_lt (gen.draw (gen.pos + 4) % 65536) (by decide : 0 < 16384)),
      or_C000 _ (Nat.mod_lt (gen.draw (gen.pos + 4) % 65536) (by decide : 0 < 8192)),
      Nat.add_zero, if_true, if_false, Bool.false_eq_true]

theorem layout_eq (is_lower : Bool) (w0 w1 w2 w3 w4 w5 w6 w7 : Nat)
    (h0 : w0 < 65536) (h1 : w1 < 65536) (h2 : w2 < 65536) (h3 : w3 < 65536)
    (h4 : w4 < 65536) (h5 : w5 < 65536) (h6 : w6 < 65536) (h7 : w7 < 65536) :
    layout is_lower [w0, w1, w2, w3, w4, w5, w6, w7] =
      [hexDigit is_lower (w0 / 4096), hexDigit is_lower (w0 / 256 % 16),
       hexDigit is_lower (w0 / 16 % 16), hexDigit is_lower (w0 % 16),
       hexDigit is_lower (w1 / 4096), hexDigit is_lower (w1 / 256 % 16),
       hexDigit is_lower (w1 / 16 % 16), hexDigit is_lower (w1 % 16),
       '-',
       hexDigit is_lower (w2 / 4096), hexDigit is_lower (w2 / 256 % 16),
       hexDigit is_lower (w2 / 16 % 16), hexDigit is_lower (w2 % 16),
       '-',
       hexDigit is_lower (w3 / 4096), hexDigit is_lower (w3 / 256 % 16),
       hexDigit is_lower (w3 / 16 % 16), hexDigit is_lower (w3 % 16),
       '-',
       hexDigit is_lower (w4 / 4096), hexDigit is_lower (w4 / 256 % 16),
       hexDigit is_lower (w4 / 16 % 16), hexDigit is_lower (w4 % 16),
       '-',
       hexDigit is_lower (w5 / 4096), hexDigit is_lower (w5 / 256 % 16),
       hexDigit is_lower (w5 / 16 % 16), hexDigit is_lower (w5 % 16),
       hexDigit is_lower (w6 / 4096), hexDigit is_lower (w6 / 256 % 16),
       hexDigit is_lower (w6 / 16 % 16), hexDigit is_lower (w6 % 16),
       hexDigit is_lower (w7 / 4096), hexDigit is_lower (w7 / 256 % 16),
       hexDigit is_lower (w7 / 16 % 16), hexDigit is_lower (w7 % 16)] := by
  simp only [layout, List.getD_cons_zero, List.getD_cons_succ, sprintf_04x_eq _ _ h0,
    sprintf_04x_eq _ _ h1, sprintf_04x_eq _ _ h2, sprintf_04x_eq _ _ h3, sprintf_04x_eq _ _ h4,
    sprintf_04x_eq _ _ h5, sprintf_04x_eq _ _ h6, sprintf_04x_eq _ _ h7, List.cons_append,
    List.nil_append]

theorem hexDigit_mem (is_lower : Bool) (d : Nat) : hexDigit is_lower d ∈ hexChars is_lower := by
  cases is_lower <;> (unfold hexDigit; split <;> decide)

theorem variantWord_eq (is_guid : Bool) (u : Nat) :
    (if is_guid then (u &&& 0x1FFF) ||| 0xC000 else (u &&& 0x3FFF) ||| 0x8000) =
      variantWord is_guid u := by
  cases is_guid
  · simp only [Bool.false_eq_true, if_false, variant_word_uuid, variantWord]
  · simp only [if_true, variant_word_guid, variantWord]

theorem variantWord_lt (is_guid : Bool) (u : Nat) : variantWord is_guid u < 65536 := by
  cases is_guid <;> simp only [variantWord, Bool.false_eq_true, if_false, if_true] <;> omega

theorem stamped_eq (gen : mt19937_64) (is_guid : Bool) :
    stamped gen is_guid =
      [drawn gen 0, drawn gen 1, drawn gen 2, 16384 + drawn gen 3 % 4096,
       variantWord is_guid (drawn gen 4), drawn gen 5, drawn gen 6, drawn gen 7] := by
  simp only [stamped, version_word, variantWord_eq]

/-- The 36 characters of the identifier, digit by digit. -/
theorem gen_uuid_text (gen : mt19937_64) (is_guid is_lower : Bool) :
    (gen_uuid gen is_guid is_lower).1 =
      [hexDigit is_lower (drawn gen 0 / 4096), hexDigit is_lower (drawn gen 0 / 256 % 16),
       hexDigit is_lower (drawn gen 0 / 16 % 16), hexDigit is_lower (drawn gen 0 % 16),
       hexDigit is_lower (drawn gen 1 / 4096), hexDigit is_lower (drawn gen 1 / 256 % 16),
       hexDigit is_lower (drawn gen 1 / 16 % 16), hexDigit is_lower (drawn gen 1 % 16),
       '-',
       hexDigit is_lower (drawn gen 2 / 4096), hexDigit is_lower (drawn gen 2 / 256 % 16),
       hexDigit is_lower (drawn gen 2 / 16 % 16), hexDigit is_lower (drawn gen 2 % 16),
       '-',
       hexDigit is_lower ((16384 + drawn gen 3 % 4096) / 4096), hexDigit is_lower ((16384 + drawn gen 3 % 4096) / 256 % 16),
       hexDigit is_lower ((16384 + drawn gen 3 % 4096) / 16 % 16), hexDigit is_lower ((16384 + drawn gen 3 % 4096) % 16),
       '-',
       hexDigit is_lower (variantWord is_guid (drawn gen 4) / 4096), hexDigit is_lower (variantWord is_guid (drawn gen 4) / 256 % 16),
       hexDigit is_lower (variantWord is_guid (drawn gen 4) / 16 % 16), hexDigit is_lower (variantWord is_guid (drawn gen 4) % 16),
       '-',
       hexDigit is_lower (drawn gen 5 / 4096), hexDigit is_lower (drawn gen 5 / 256 % 16),
       hexDigit is_lower (drawn gen 5 / 16 % 16), hexDigit is_lower (drawn gen 5 % 16),
       hexDigit is_lower (drawn gen 6 / 4096), hexDigit is_lower (drawn gen 6 / 256 % 16),
       hexDigit is_lower (drawn gen 6 / 16 % 16), hexDigit is_lower (drawn gen 6 % 16),
       hexDigit is_lower (drawn gen 7 / 4096), hexDigit is_lower (drawn gen 7 / 256 % 16),
       hexDigit is_lower (drawn gen 7 / 16 % 16), hexDigit is_lower (drawn gen 7 % 16)] := by
  rw [gen_uuid_eq, stamped_eq]
  exact layout_eq is_lower _ _ _ _ _ _ _ _ (drawn_lt _ _) (drawn_lt _ _) (drawn_lt _ _)
    (by omega) (variantWord_lt _ _) (drawn_lt _ _) (drawn_lt _ _) (drawn_lt _ _)

theorem gen_uuid_length (gen : mt19937_64) (is_guid is_lower : Bool) :
    (gen_uuid gen is_guid is_lower).1.length = 36 := by
  rw [gen_uuid_text]
  rfl

theorem version_digit (is_lower : Bool) (u : Nat) :
    hexDigit is_lower ((16384 + u % 4096) / 4096) = '4' := by
  have h : (16384 + u % 4096) / 4096 = 4 := by omega
  rw [h]; rfl

theorem hexDigit_ne_hyphen (is_lower : Bool) (d : Nat) :
    (hexDigit is_lower d == '-') = false := by
  cases is_lower <;> (unfold hexDigit; split <;> decide)

/-- The hyphen-separated groups of the identifier: five of them, of 8, 4, 4, 4 and 12
digits, holding `uuid[0..1]`, `uuid[2]`, `uuid[3]`, `uuid[4]` and `uuid[5..7]`. -/
theorem gen_uuid_splitOn (gen : mt19937_64) (is_guid is_lower : Bool) :
    (gen_uuid gen is_guid is_lower).1.splitOn '-' =
      [sprintf_04x is_lower (drawn gen 0) ++ sprintf_04x is_lower (drawn gen 1),
       sprintf_04x is_lower (drawn gen 2),
       sprintf_04x is_lower (16384 + drawn gen 3 % 4096),
       sprintf_04x is_lower (variantWord is_guid (drawn gen 4)),
       sprintf_04x is_lower (drawn gen 5) ++ sprintf_04x is_lower (drawn gen 6) ++
         sprintf_04x is_lower (drawn gen 7)] := by
  rw [gen_uuid_text, sprintf_04x_eq _ _ (drawn_lt gen 0), sprintf_04x_eq _ _ (drawn_lt gen 1),
    sprintf_04x_eq _ _ (drawn_lt gen 2), sprintf_04x_eq _ _ (drawn_lt gen 5),
    sprintf_04x_eq _ _ (drawn_lt gen 6), sprintf_04x_eq _ _ (drawn_lt gen 7),
    sprintf_04x_eq _ _ (variantWord_lt is_guid (drawn gen 4)),
    sprintf_04x_eq _ _ (show 16384 + drawn gen 3 % 4096 < 65536 by omega)]
  simp [List.splitOn, List.splitOnP, List.splitOnP.go, hexDigit_ne_hyphen]

/-- C1, the claim as stated fails: in the identifier `000D1EFC-3DEB-4CDA-BBC9-9AB8B9A7D896`
the fourth hyphen-separated group is `BBC9`; its first character is the variant digit `B`,
not `4`. The `4` at index 14 opens the third hyphen-separated group, `4CDA`. -/
theorem version_digit_group_counterexample :
    (gen_uuid ⟨fun i => i * 7919 + 13, 0⟩ false false).1 =
      "000D1EFC-3DEB-4CDA-BBC9-9AB8B9A7D896".toList ∧
    ((gen_uuid ⟨fun i => i * 7919 + 13, 0⟩ false false).1.splitOn '-').getD 3 [] =
      "BBC9".toList ∧
    (((gen_uuid ⟨fun i => i * 7919 + 13, 0⟩ false false).1.splitOn '-').getD 3 []).head? =
      some 'B' ∧
    ((gen_uuid ⟨fun i => i * 7919 + 13, 0⟩ false false).1.splitOn '-').getD 2 [] =
      "4CDA".toList := by
  refine ⟨by decide, by decide, by decide, by decide⟩

/-- C1 as amended: for every state of the engine (so for every eight draws), both variants
and both cases, the text `gen_uuid` returns has the character `4` at 0-based index 14, that
is, as the first character of the third of its five hyphen-separated groups, the one that
holds the four digits of `uuid[3]` (the fourth 16-bit group). -/
theorem gen_uuid_version_digit (gen : mt19937_64) (is_guid is_lower : Bool) :
    (gen_uuid gen is_guid is_lower).1[14]? = some '4' ∧
    ((gen_uuid gen is_guid is_lower).1.splitOn '-').length = 5 ∧
    (((gen_uuid gen is_guid is_lower).1.splitOn '-').getD 2 []).head? = some '4' ∧
    ((gen_uuid gen is_guid is_lower).1.splitOn '-').getD 2 [] =
      sprintf_04x is_lower ((stamped gen is_guid).getD 3 0) ∧
    ((gen_uuid gen is_guid is_lower).1.drop 14).take 4 =
      sprintf_04x is_lower ((stamped gen is_guid).getD 3 0) := by
  have h3 : 16384 + drawn gen 3 % 4096 < 65536 := by omega
  refine ⟨?_, ?_, ?_, ?_, ?_⟩
  · rw [gen_uuid_text]
    simp [version_digit]
  · rw [gen_uuid_splitOn]
    rfl
  · rw [gen_uuid_splitOn]
    simp [sprintf_04x_eq _ _ h3, version_digit]
  · rw [gen_uuid_splitOn, stamped_eq]
    rfl
  · rw [gen_uuid_text, stamped_eq]
    simp [sprintf_04x_eq _ _ h3]

theorem variant_digit_uuid (is_lower : Bool) (u : Nat) :
    hexDigit is_lower (variantWord false u / 4096) ∈
      (if is_lower then ['8', '9', 'a', 'b'] else ['8', '9', 'A', 'B']) := by
  have h : (32768 + u % 16384) / 4096 = 8 ∨ (32768 + u % 16384) / 4096 = 9 ∨
      (32768 + u % 16384) / 4096 = 10 ∨ (32768 + u % 16384) / 4096 = 11 := by omega
  simp only [variantWord, Bool.false_eq_true, if_false]
  rcases h with h | h | h | h <;> rw [h] <;> cases is_lower <;> simp [hexDigit]

theorem variant_digit_guid (is_lower : Bool) (u : Nat) :
    hexDigit is_lower (variantWord true u / 4096) ∈
      (if is_lower then ['c', 'd', 'e', 'f'] else ['C', 'D', 'E', 'F']) := by
  have h : (49152 + u % 8192) / 4096 = 12 ∨ (49152 + u % 8192) / 4096 = 13 := by omega
  simp only [variantWord, if_true]
  rcases h with h | h <;> rw [h] <;> cases is_lower <;> simp [hexDigit]

/-- C2: for every state of the engine and both cases, the character at 0-based index 19 of
the text `gen_uuid` returns is one of `8`, `9`, `A`, `B` (`a`, `b` in lower case) when
`is_guid` is false, and one of `C`, `D`, `E`, `F` (`c`, `d`, `e`, `f` in lower case) when
`is_guid` is true; index 19 is where the four digits of `uuid[4]`, the fifth 16-bit group,
start. -/
theorem gen_uuid_variant_digit (gen : mt19937_64) (is_lower : Bool) :
    (∃ c, (gen_uuid gen false is_lower).1[19]? = some c ∧
      c ∈ (if is_lower then ['8', '9', 'a', 'b'] else ['8', '9', 'A', 'B'])) ∧
    (∃ c, (gen_uuid gen true is_lower).1[19]? = some c ∧
      c ∈ (if is_lower then ['c', 'd', 'e', 'f'] else ['C', 'D', 'E', 'F'])) ∧
    (∀ is_guid : Bool, ((gen_uuid gen is_guid is_lower).1.drop 19).take 4 =
      sprintf_04x is_lower ((stamped gen is_guid).getD 4 0)) := by
  refine ⟨?_, ?_, ?_⟩
  · refine ⟨hexDigit is_lower (variantWord false (drawn gen 4) / 4096), ?_,
      variant_digit_uuid _ _⟩
    rw [gen_uuid_text]; rfl
  · refine ⟨hexDigit is_lower (variantWord true (drawn gen 4) / 4096), ?_,
      variant_digit_guid _ _⟩
    rw [gen_uuid_text]; rfl
  · intro is_guid
    rw [gen_uuid_text, stamped_eq]
    simp [sprintf_04x_eq _ _ (variantWord_lt is_guid (drawn gen 4))]

/-- C3: for every state of the engine and both variants, `gen_uuid` returns exactly 36
characters, with `-` at the 0-based indices 8, 13, 18 and 23 and, at every other index, a
hexadecimal digit whose letters are `A`-`F` when `is_lower` is false and `a`-`f` when it is
true (the layout 8-4-4-4-12). -/
theorem gen_uuid_layout (gen : mt19937_64) (is_guid is_lower : Bool) :
    (gen_uuid gen is_guid is_lower).1.length = 36 ∧
    (gen_uuid gen is_guid is_lower).1[8]? = some '-' ∧
    (gen_uuid gen is_guid is_lower).1[13]? = some '-' ∧
    (gen_uuid gen is_guid is_lower).1[18]? = some '-' ∧
    (gen_uuid gen is_guid is_lower).1[23]? = some '-' ∧
    ∀ i, i < 36 → i ≠ 8 → i ≠ 13 → i ≠ 18 → i ≠ 23 →
      ∃ c, (gen_uuid gen is_guid is_lower).1[i]? = some c ∧ c ∈ hexChars is_lower := by
  rw [gen_uuid_text]
  refine ⟨rfl, rfl, rfl, rfl, rfl, ?_⟩
  intro i hi h8 h13 h18 h23
  interval_cases i <;> first
    | exact absurd rfl h8
    | exact absurd rfl h13
    | exact absurd rfl h18
    | exact absurd rfl h23
    | exact ⟨_, rfl, hexDigit_mem _ _⟩

/-! ## The generation loop -/

theorem identifiers_length (strLead strTail : List Char) (is_guid is_lower : Bool) (n : Nat)
    (gen : mt19937_64) : (identifiers strLead strTail is_guid is_lower n gen).length = n := by
  induction n generalizing gen with
  | zero => rfl
  | succ n ih => simp [identifiers, ih]

theorem identifiers_shape (strLead strTail : List Char) (is_guid is_lower : Bool) (n : Nat)
    (gen : mt19937_64) :
    ∀ item ∈ identifiers strLead strTail is_guid is_lower n gen,
      ∃ id : List Char, id.length = 36 ∧ item = strLead ++ id ++ strTail := by
  induction n generalizing gen with
  | zero => intro item h; simp [identifiers] at h
  | succ n ih =>
    intro item h
    simp only [identifiers, List.mem_cons] at h
    rcases h with h | h
    · exact ⟨_, gen_uuid_length gen is_guid is_lower, h⟩
    · exact ih _ item h

/-- The joined text has the size of `n` items and `n - 1` one-character separators. -/
theorem joined_length (strLead strTail : List Char) (is_guid is_lower : Bool) (n : Nat)
    (gen : mt19937_64) :
    (List.intercalate ['\n'] (identifiers strLead strTail is_guid is_lower n gen)).length =
      n * (strLead.length + 36 + strTail.length) + (n - 1) := by
  induction n generalizing gen with
  | zero => simp [identifiers, List.intercalate]
  | succ n ih =>
    cases n with
    | zero =>
      simp [identifiers, List.intercalate, gen_uuid_length]
      omega
    | succ m =>
      have h := ih (gen_uuid gen is_guid is_lower).2
      simp only [identifiers, List.intercalate, List.intersperse_cons₂, List.flatten_cons,
        List.length_append, gen_uuid_length, List.length_cons, List.length_nil] at h ⊢
      rw [h]
      ring_nf
      omega

theorem generate_nat (strLead strTail : List Char) (is_guid is_lower : Bool) (n : Nat) :
    ∀ (fuel : Nat) (gen : mt19937_64) (returnString : List Char), n ≤ fuel →
      generate strLead strTail is_guid is_lower fuel (n : Int) gen returnString =
        LoopResult.done (returnString ++
          List.intercalate ['\n'] (identifiers strLead strTail is_guid is_lower n gen)) := by
  induction n with
  | zero =>
    intro fuel gen returnString _
    cases fuel <;> simp [generate, identifiers, List.intercalate]
  | succ n ih =>
    intro fuel gen returnString hf
    obtain ⟨f, rfl⟩ : ∃ f, fuel = f + 1 := ⟨fuel - 1, by omega⟩
    have h0 : ((n + 1 : Nat) : Int) ≠ 0 := by omega
    have h1 : ((n + 1 : Nat) : Int) ≠ -2147483648 := by omega
    have h2 : ((n + 1 : Nat) : Int) - 1 = (n : Int) := by omega
    simp only [generate, h0, h1, h2, if_false]
    rw [ih f _ _ (by omega)]
    cases n with
    | zero => simp [identifiers, List.intercalate]
    | succ m =>
      have h3 : ¬ ((m : Int) + 1 = 0) := by omega
      simp [identifiers, List.intercalate, h3]

theorem addBraces_fields (st : MainState) :
    (addBraces st).is_error = st.is_error ∧ (addBraces st).is_help = st.is_help ∧
    (addBraces st).is_guid = st.is_guid ∧ (addBraces st).is_lower = st.is_lower ∧
    (addBraces st).is_quiet = st.is_quiet ∧ (addBraces st).is_clipboard = st.is_clipboard ∧
    (addBraces st).genNumber = st.genNumber ∧ (addBraces st).cerr = st.cerr ∧
    (addBraces st).is_delim = st.is_delim := by
  unfold addBraces
  split <;> simp

/-- What `main` does once the arguments are parsed into `st` without an exception. -/
theorem main_of_parse (fuel : Nat) (gen : mt19937_64) (argv : List (List Char))
    (st : MainState) (hparse : parseArgs MainState.init (argv.drop 1) = Except.ok st) :
    main fuel gen argv =
      if st.is_error then Outcome.exited 1 [] st.cerr none
      else if st.is_help then Outcome.exited 0 [] (st.cerr ++ usage (argv.headD [])) none
      else
        match generate (addBraces st).strLead (addBraces st).strTail st.is_guid st.is_lower
            fuel st.genNumber gen [] with
        | LoopResult.done returnString =>
          Outcome.exited 0 (if !st.is_quiet then returnString else []) st.cerr
            (if st.is_clipboard then some returnString else none)
        | LoopResult.overflow => Outcome.undefined
        | LoopResult.unfinished => Outcome.unfinished := by
  obtain ⟨h1, h2, h3, h4, h5, h6, h7, h8, -⟩ := addBraces_fields st
  simp only [main, hparse, h1, h2, h3, h4, h5, h6, h7, h8]

/-- C4: for every count `n` (so for every `n ≥ 1`), every pair of delimiters, both variants
and cases, and enough fuel, the generation loop leaves exactly `n` items joined by single
line breaks (none after the last, `n - 1` separators in all), each item being the lead
delimiter, a 36-character identifier and the tail delimiter; when parsing ended in a state `st` with no error, no help request and count `n`,
`main` exits with 0 and that text is what it prints (unless quiet) and what it copies (when
asked to); and `-n=5` alone yields 5 identifiers. -/
theorem generated_result (n fuel : Nat) (gen : mt19937_64) (hf : n ≤ fuel) :
    (∀ (strLead strTail : List Char) (is_guid is_lower : Bool),
      generate strLead strTail is_guid is_lower fuel (n : Int) gen [] =
        LoopResult.done
          (List.intercalate ['\n'] (identifiers strLead strTail is_guid is_lower n gen)) ∧
      (identifiers strLead strTail is_guid is_lower n gen).length = n ∧
      (∀ item ∈ identifiers strLead strTail is_guid is_lower n gen,
        ∃ id : List Char, id.length = 36 ∧ item = strLead ++ id ++ strTail) ∧
      (List.intercalate ['\n'] (identifiers strLead strTail is_guid is_lower n gen)).length =
        n * (strLead.length + 36 + strTail.length) + (n - 1)) ∧
    (∀ (argv : List (List Char)) (st : MainState),
      parseArgs MainState.init (argv.drop 1) = Except.ok st →
      st.is_error = false → st.is_help = false → st.genNumber = (n : Int) →
      main fuel gen argv =
        Outcome.exited 0
          (if st.is_quiet then []
            else List.intercalate ['\n'] (identifiers (addBraces st).strLead
              (addBraces st).strTail st.is_guid st.is_lower n gen))
          st.cerr
          (if st.is_clipboard then
            some (List.intercalate ['\n'] (identifiers (addBraces st).strLead
              (addBraces st).strTail st.is_guid st.is_lower n gen))
            else none)) ∧
    (∀ (argv0 : List Char) (fuel5 : Nat), 5 ≤ fuel5 →
      main fuel5 gen [argv0, ['-', 'n', '=', '5']] =
        Outcome.exited 0 (List.intercalate ['\n'] (identifiers [] [] false false 5 gen)) []
          none) := by
  refine ⟨?_, ?_, ?_⟩
  · intro strLead strTail is_guid is_lower
    refine ⟨?_, identifiers_length _ _ _ _ _ _, identifiers_shape _ _ _ _ _ _,
      joined_length _ _ _ _ _ _⟩
    simpa using generate_nat strLead strTail is_guid is_lower n fuel gen [] hf
  · intro argv st hparse herr hhelp hn
    rw [main_of_parse fuel gen argv st hparse, hn, generate_nat _ _ _ _ n fuel gen [] hf]
    cases hq : st.is_quiet <;> simp [herr, hhelp]
  · intro argv0 fuel5 h5
    have hp : parseArgs MainState.init [['-', 'n', '=', '5']] =
        Except.ok { MainState.init with genNumber := 5 } := by decide
    have hparse : parseArgs MainState.init (List.drop 1 [argv0, ['-', 'n', '=', '5']]) =
        Except.ok { MainState.init with genNumber := 5 } := hp
    rw [main_of_parse fuel5 gen _ _ hparse]
    have hg := generate_nat [] [] false false 5 fuel5 gen [] h5
    simp only [Nat.cast_ofNat] at hg
    simp [MainState.init, addBraces, hg]

theorem generated_result_witness :
    generate ['<'] ['>'] true true 2 (2 : Nat) ⟨fun i => i * 7919 + 13, 0⟩ [] =
      LoopResult.done
        (List.intercalate ['\n']
          (identifiers ['<'] ['>'] true true 2 ⟨fun i => i * 7919 + 13, 0⟩)) ∧
    List.intercalate ['\n'] (identifiers ['<'] ['>'] true true 2 ⟨fun i => i * 7919 + 13, 0⟩) =
      "<000d1efc-3deb-4cda-dbc9-9ab8b9a7d896>\n<f7851674-3563-4452-d341-9230b11fd00e>".toList :=
  ⟨((generated_result 2 2 ⟨fun i => i * 7919 + 13, 0⟩ (by decide)).1
      ['<'] ['>'] true true).1, by decide⟩

/-! ## The argument loop -/

/-- The argument loop's body is the classification followed by the branch's body. -/
theorem parseArg_eq (st : MainState) (str : List Char) :
    parseArg st str = applyArg st str (classify str) := by
  unfold parseArg classify
  generalize regex_match str reClip = m1
  generalize regex_match str reQuiet = m2
  generalize regex_match str reLower = m3
  generalize regex_match str reUpper = m4
  generalize regex_match str reGUID = m5
  generalize regex_match str reHelp = m6
  generalize regex_match str reDelim1 = m7
  generalize regex_match str reDelim2 = m8
  generalize regex_match str reGenNumber = m9
  cases m1 with
  | some _ => rfl
  | none =>
  cases m2 with
  | some _ => rfl
  | none =>
  cases m3 with
  | some _ => rfl
  | none =>
  cases m4 with
  | some _ => rfl
  | none =>
  cases m5 with
  | some _ => rfl
  | none =>
  cases m6 with
  | some _ => rfl
  | none =>
  cases m7 with
  | some sm =>
    simp only [Option.isSome_none, Bool.false_eq_true, if_false, applyArg, splitDelim]
    split_ifs <;> try rfl
    cases regex_match (sm.sub 1) reDelimCS <;> rfl
  | none =>
  cases m8 with
  | some _ => rfl
  | none =>
  cases m9 with
  | some sm =>
    simp only [Option.isSome_none, Bool.false_eq_true, if_false, applyArg]
  | none => rfl

/-! ## Facts about the patterns -/

theorem dotStarFrom_mem (caps : smatch) (s : List Char) (r : List Char × smatch)
    (h : r ∈ dotStarFrom caps s) : r.1 <:+ s ∧ r.2 = caps := by
  induction s with
  | nil =>
    simp only [dotStarFrom, List.mem_singleton] at h
    subst h
    exact ⟨List.suffix_refl _, rfl⟩
  | cons c cs ih =>
    simp only [dotStarFrom] at h
    split_ifs at h
    · simp only [List.mem_singleton] at h
      subst h
      exact ⟨List.suffix_refl _, rfl⟩
    · rcases List.mem_append.1 h with h | h
      · exact ⟨(ih h).1.trans (List.suffix_cons c cs), (ih h).2⟩
      · simp only [List.mem_singleton] at h
        subst h
        exact ⟨List.suffix_refl _, rfl⟩

/-- When no character of `s` is a line terminator, the first (greedy) way `.*` matches
takes all of `s`. -/
theorem dotStarFrom_head (caps : smatch) (s : List Char)
    (h : ∀ c ∈ s, isLineTerminator c = false) :
    ∃ rest, dotStarFrom caps s = ([], caps) :: rest := by
  induction s with
  | nil => exact ⟨[], rfl⟩
  | cons c cs ih =>
    obtain ⟨rest, hr⟩ := ih (fun x hx => h x (List.mem_cons_of_mem _ hx))
    refine ⟨rest ++ [(c :: cs, caps)], ?_⟩
    simp [dotStarFrom, h c (List.mem_cons_self _ _), hr]

/-- Every value without a line terminator is captured from the argument `-d=VALUE`. -/
theorem classify_d_eq (v : List Char) (h : ∀ c ∈ v, isLineTerminator c = false) :
    classify ('-' :: 'd' :: '=' :: v) = ArgKind.delim v := by
  obtain ⟨rest, hr⟩ := dotStarFrom_head [] v h
  simp [classify, regex_match, reClip, reQuiet, reLower, reUpper, reGUID, reHelp, reDelim1,
    Regex.cat, Regex.run, introducer, separator, sameChar, hr, smatch.sub]

/-- Every value without a line terminator is captured from the argument `-d:VALUE`. -/
theorem classify_d_colon (v : List Char) (h : ∀ c ∈ v, isLineTerminator c = false) :
    classify ('-' :: 'd' :: ':' :: v) = ArgKind.delim v := by
  obtain ⟨rest, hr⟩ := dotStarFrom_head [] v h
  simp [classify, regex_match, reClip, reQuiet, reLower, reUpper, reGUID, reHelp, reDelim1,
    Regex.cat, Regex.run, introducer, separator, sameChar, hr, smatch.sub]

theorem parseArgs_cons (st : MainState) (str : List Char) (rest : List (List Char)) :
    parseArgs st (str :: rest) =
      match applyArg st str (classify str) with
      | Except.ok st1 => parseArgs st1 rest
      | Except.error e => Except.error e := by
  simp only [parseArgs, parseArg_eq]

/-- One round of the argument loop that completes: what it does to the count. -/
theorem applyArg_genNumber (st st1 : MainState) (str : List Char)
    (h : applyArg st str (classify str) = Except.ok st1) :
    st1.genNumber = (countSet str).getD st.genNumber ∧
    ((∀ value, classify str = ArgKind.number value → (countSet str).isSome)) := by
  unfold countSet
  cases hk : classify str <;> rw [hk] at h <;> simp only [applyArg] at h
  case number value =>
    by_cases hv : value.length = 0
    · simp only [hv, if_true, Except.ok.injEq] at h
      subst h
      simp [hv]
    · simp only [hv, if_false] at h
      cases hs : stoi value with
      | ok n =>
        simp only [hs, Except.ok.injEq] at h
        subst h
        simp [hv, hs]
      | error e => simp [hs] at h
  all_goals
    simp only [Except.ok.injEq] at h
    subst h
    simp

theorem parseArgs_genNumber (toks : List (List Char)) :
    ∀ st0 st : MainState, parseArgs st0 toks = Except.ok st →
      st.genNumber = ((toks.filterMap countSet).getLast?).getD st0.genNumber := by
  induction toks with
  | nil =>
    intro st0 st h
    simp only [parseArgs, Except.ok.injEq] at h
    subst h
    rfl
  | cons t ts ih =>
    intro st0 st h
    rw [parseArgs_cons] at h
    cases h1 : applyArg st0 t (classify t) with
    | error e => simp [h1] at h
    | ok st1 =>
      simp only [h1] at h
      rw [ih st1 st h, (applyArg_genNumber st0 st1 t h1).1]
      cases hc : countSet t with
      | none => simp [List.filterMap_cons_none hc]
      | some n =>
        rw [List.filterMap_cons_some hc, List.getLast?_cons]
        simp

/-- In a parse that completes, every count option sets a count. -/
theorem parseArgs_countSet (toks : List (List Char)) :
    ∀ st0 st : MainState, parseArgs st0 toks = Except.ok st →
      ∀ t ∈ toks, ∀ value, classify t = ArgKind.number value → (countSet t).isSome := by
  induction toks with
  | nil =>
    intro st0 st _ t ht
    simp at ht
  | cons t0 ts ih =>
    intro st0 st h t ht value hv
    rw [parseArgs_cons] at h
    cases h1 : applyArg st0 t0 (classify t0) with
    | error e => simp [h1] at h
    | ok st1 =>
      simp only [h1] at h
      rcases List.mem_cons.1 ht with rfl | hts
      · exact (applyArg_genNumber st0 st1 t h1).2 value hv
      · exact ih st1 st h t hts value hv

/-- C5, the claim as stated fails: the count option `-n=0` leaves the count at 0, which is
not `≥ 1`, and the run then prints nothing at all. -/
theorem count_zero_counterexample :
    parseArgs MainState.init [['-', 'n', '=', '0']] =
      Except.ok { MainState.init with genNumber := 0 } ∧
    decide (1 ≤ ({ MainState.init with genNumber := 0 } : MainState).genNumber) = false ∧
    main 1 ⟨fun i => i, 0⟩ [['u', 'u', 'i', 'd'], ['-', 'n', '=', '0']] =
      Outcome.exited 0 [] [] none := by
  refine ⟨by decide, by decide, by decide⟩

/-- C5 as amended: for every token sequence on which parsing completes, the count held
afterwards is the one set by the last count option (1 for an empty value, otherwise the
integer its value converts to; every count option of a completed parse sets one), and the
default 1 when there is no count option; so it is `≥ 1` exactly when that integer is. -/
theorem count_after_parsing (toks : List (List Char)) (st : MainState)
    (h : parseArgs MainState.init toks = Except.ok st) :
    st.genNumber = ((toks.filterMap countSet).getLast?).getD 1 ∧
    (1 ≤ st.genNumber ↔ 1 ≤ ((toks.filterMap countSet).getLast?).getD 1) ∧
    (∀ t ∈ toks, ∀ value, classify t = ArgKind.number value → (countSet t).isSome) ∧
    ((∀ t ∈ toks, countSet t = none) → st.genNumber = 1) := by
  have hg := parseArgs_genNumber toks MainState.init st h
  refine ⟨hg, by rw [hg]; rfl, parseArgs_countSet toks MainState.init st h, ?_⟩
  intro hnone
  have hnil : toks.filterMap countSet = [] := by
    rw [List.filterMap_eq_nil_iff]
    exact hnone
  rw [hg, hnil]
  rfl

theorem count_after_parsing_witness :
    parseArgs MainState.init [['-', 'n', '=', '7'], ['-', 'g'], ['/', 'N', 'u', 'm', ':', '3']] =
      Except.ok { MainState.init with is_guid := true, genNumber := 3 } ∧
    ({ MainState.init with is_guid := true, genNumber := 3 } : MainState).genNumber =
      (([['-', 'n', '=', '7'], ['-', 'g'], ['/', 'N', 'u', 'm', ':', '3']].filterMap
        countSet).getLast?).getD 1 :=
  ⟨by decide,
   (count_after_parsing [['-', 'n', '=', '7'], ['-', 'g'], ['/', 'N', 'u', 'm', ':', '3']]
      { MainState.init with is_guid := true, genNumber := 3 } (by decide)).1⟩

/-- C6, the code at the failing input: the count option `-n=abc` makes `stoi` throw
`invalid_argument`; nothing catches it, so parsing does not complete, the count is never
set to 1 and no identifier is generated. The sibling case of an empty value does fall back
to 1. -/
theorem nonnumeric_count_terminates :
    stoi ['a', 'b', 'c'] = Except.error stoi_error.invalid_argument ∧
    classify ['-', 'n', '=', 'a', 'b', 'c'] = ArgKind.number ['a', 'b', 'c'] ∧
    parseArgs MainState.init [['-', 'n', '=', 'a', 'b', 'c']] =
      Except.error stoi_error.invalid_argument ∧
    main 1 ⟨fun i => i, 0⟩ [['u', 'u', 'i', 'd'], ['-', 'n', '=', 'a', 'b', 'c']] =
      Outcome.terminated stoi_error.invalid_argument ∧
    parseArgs MainState.init [['-', 'n', '=']] = Except.ok MainState.init := by
  refine ⟨by decide, by decide, by decide, by decide, by decide⟩

/-- One round of the argument loop that completes: what it does to the error flag and to
`cerr`. -/
theorem applyArg_error (st st1 : MainState) (str : List Char)
    (h : applyArg st str (classify str) = Except.ok st1) :
    st1.is_error = (st.is_error || !recognized str) ∧
    st1.cerr = st.cerr ++ (if recognized str then [] else invalidMessage str) := by
  unfold recognized
  cases hk : classify str <;> rw [hk] at h <;> simp only [applyArg] at h
  case number value =>
    by_cases hv : value.length = 0
    · simp only [hv, if_true, Except.ok.injEq] at h
      subst h
      simp
    · simp only [hv, if_false] at h
      cases hs : stoi value with
      | ok n =>
        simp only [hs, Except.ok.injEq] at h
        subst h
        simp
      | error e => simp [hs] at h
  all_goals
    simp only [Except.ok.injEq] at h
    subst h
    simp

theorem parseArgs_error (toks : List (List Char)) :
    ∀ st0 st : MainState, parseArgs st0 toks = Except.ok st →
      st.is_error = (st0.is_error || toks.any (fun t => !recognized t)) ∧
      st.cerr = st0.cerr ++
        (toks.filter (fun t => !recognized t)).flatMap invalidMessage := by
  induction toks with
  | nil =>
    intro st0 st h
    simp only [parseArgs, Except.ok.injEq] at h
    subst h
    simp
  | cons t ts ih =>
    intro st0 st h
    rw [parseArgs_cons] at h
    cases h1 : applyArg st0 t (classify t) with
    | error e => simp [h1] at h
    | ok st1 =>
      simp only [h1] at h
      obtain ⟨e1, e2⟩ := applyArg_error st0 st1 t h1
      obtain ⟨i1, i2⟩ := ih st1 st h
      rw [i1, i2, e1, e2]
      cases hr : recognized t <;> simp [hr, List.filter_cons, Bool.or_assoc]

theorem config_eq_iff (a b : MainState) :
    a.config = b.config ↔
      a.is_guid = b.is_guid ∧ a.is_lower = b.is_lower ∧ a.is_help = b.is_help ∧
      a.is_clipboard = b.is_clipboard ∧ a.is_quiet = b.is_quiet ∧ a.is_delim = b.is_delim ∧
      a.genNumber = b.genNumber ∧ a.strLead = b.strLead ∧ a.strTail = b.strTail := by
  cases a; cases b
  simp only [MainState.config, MainState.mk.injEq]
  tauto

/-- A round of the loop on an unrecognized argument changes only the error flag and
`cerr`. -/
theorem applyArg_invalid_config (st : MainState) (str : List Char) :
    ∃ st1, applyArg st str ArgKind.invalid = Except.ok st1 ∧ st1.config = st.config :=
  ⟨_, rfl, rfl⟩

/-- A round of the loop on a recognized argument acts alike on two states that differ only
in the error flag and `cerr`. -/
theorem applyArg_config (a b : MainState) (str : List Char) (k : ArgKind)
    (hk : k ≠ ArgKind.invalid) (hab : a.config = b.config) :
    (∃ e, applyArg a str k = Except.error e ∧ applyArg b str k = Except.error e) ∨
    (∃ a1 b1, applyArg a str k = Except.ok a1 ∧ applyArg b str k = Except.ok b1 ∧
      a1.config = b1.config) := by
  obtain ⟨h1, h2, h3, h4, h5, h6, h7, h8, h9⟩ := (config_eq_iff a b).1 hab
  cases k with
  | invalid => exact absurd rfl hk
  | number value =>
    simp only [applyArg]
    by_cases hv : value.length = 0
    · rw [if_pos hv, if_pos hv]
      right
      refine ⟨_, _, rfl, rfl, ?_⟩
      rw [config_eq_iff]
      exact ⟨h1, h2, h3, h4, h5, h6, rfl, h8, h9⟩
    · rw [if_neg hv, if_neg hv]
      cases stoi value with
      | ok n =>
        right
        refine ⟨_, _, rfl, rfl, ?_⟩
        rw [config_eq_iff]
        exact ⟨h1, h2, h3, h4, h5, h6, rfl, h8, h9⟩
      | error e =>
        left
        exact ⟨e, rfl, rfl⟩
  | _ =>
    right
    refine ⟨_, _, rfl, rfl, ?_⟩
    rw [config_eq_iff]
    simp [h1, h2, h3, h4, h5, h6, h7, h8, h9]

theorem parseArgs_config (toks : List (List Char)) :
    ∀ a b : MainState, a.config = b.config →
      (parseArgs a toks).map MainState.config =
        (parseArgs b (toks.filter recognized)).map MainState.config := by
  induction toks with
  | nil =>
    intro a b hab
    simp [parseArgs, Except.map, hab]
  | cons t ts ih =>
    intro a b hab
    by_cases hr : recognized t = true
    · have hk : classify t ≠ ArgKind.invalid := by
        simpa [recognized] using hr
      rw [List.filter_cons_of_pos hr, parseArgs_cons, parseArgs_cons]
      rcases applyArg_config a b t (classify t) hk hab with ⟨e, h1, h2⟩ | ⟨a1, b1, h1, h2, h3⟩
      · simp [h1, h2, Except.map]
      · simp only [h1, h2]
        exact ih a1 b1 h3
    · have hk : classify t = ArgKind.invalid := by
        simpa [recognized] using hr
      rw [List.filter_cons_of_neg hr, parseArgs_cons, hk]
      obtain ⟨a1, h1, h2⟩ := applyArg_invalid_config a t
      simp only [h1]
      exact ih a1 b (h2.trans hab)

/-- A negative count never lets the loop finish: it runs out of fuel or reaches the signed
overflow of `--genNumber`. -/
theorem generate_negative (strLead strTail : List Char) (is_guid is_lower : Bool)
    (fuel : Nat) :
    ∀ (genNumber : Int) (gen : mt19937_64) (returnString : List Char), genNumber < 0 →
      generate strLead strTail is_guid is_lower fuel genNumber gen returnString =
          LoopResult.unfinished ∨
      generate strLead strTail is_guid is_lower fuel genNumber gen returnString =
          LoopResult.overflow := by
  induction fuel with
  | zero =>
    intro genNumber gen returnString hneg
    left
    have h0 : genNumber ≠ 0 := by omega
    simp [generate, h0]
  | succ fuel ih =>
    intro genNumber gen returnString hneg
    have h0 : genNumber ≠ 0 := by omega
    by_cases hmin : genNumber = -2147483648
    · right
      simp [generate, hmin]
    · simp only [generate, h0, hmin, if_false]
      exact ih _ _ _ (by omega)

/-- The error flag after a completed parse: set exactly when some argument is
unrecognized. -/
theorem parseArgs_is_error (toks : List (List Char)) (st : MainState)
    (h : parseArgs MainState.init toks = Except.ok st) :
    st.is_error = true ↔ ∃ t ∈ toks, recognized t = false := by
  rw [(parseArgs_error toks MainState.init st h).1]
  simp [MainState.init]

/-- C7, the code at the failing inputs. With the unrecognized token `-z` followed by the
count option `-n=abc`, `stoi` throws and the run is ended by `std::terminate` instead of
returning 1. With `-n=-1`, a recognized token, `stoi` yields -1 and `while (genNumber)` counts
away from 0: the run never returns 0, for after any number of rounds the loop is still
running (a real run ends when memory runs out) or `--genNumber` has overflowed. -/
theorem exit_code_defect :
    main 1 ⟨fun i => i, 0⟩ [['u', 'u', 'i', 'd'], ['-', 'z'], ['-', 'n', '=', 'a', 'b', 'c']] =
      Outcome.terminated stoi_error.invalid_argument ∧
    recognized ['-', 'z'] = false ∧
    recognized ['-', 'n', '=', '-', '1'] = true ∧
    parseArgs MainState.init [['-', 'n', '=', '-', '1']] =
      Except.ok { MainState.init with genNumber := -1 } ∧
    ∀ fuel : Nat,
      main fuel ⟨fun i => i, 0⟩ [['u', 'u', 'i', 'd'], ['-', 'n', '=', '-', '1']] =
          Outcome.unfinished ∨
      main fuel ⟨fun i => i, 0⟩ [['u', 'u', 'i', 'd'], ['-', 'n', '=', '-', '1']] =
          Outcome.undefined := by
  refine ⟨by decide, by decide, by decide, by decide, ?_⟩
  intro fuel
  have hp : parseArgs MainState.init
      (List.drop 1 [['u', 'u', 'i', 'd'], ['-', 'n', '=', '-', '1']]) =
      Except.ok { MainState.init with genNumber := -1 } := by decide
  rw [main_of_parse fuel _ _ _ hp]
  rcases generate_negative [] [] false false fuel (-1) ⟨fun i => i, 0⟩ [] (by decide)
    with h | h
  · left
    simp [MainState.init, addBraces, h]
  · right
    simp [MainState.init, addBraces, h]

/-- The exit code of the runs the two defects (the exception of `stoi`, the loop on a
negative count) do not touch: when parsing completes and some token is unrecognized, `main`
returns 1 and writes nothing to `cout` and nothing to the clipboard, whatever the other
tokens are; when every token is recognized and either help is requested or the count is not
negative (with fuel for the count), `main` returns 0. -/
theorem exit_code (fuel : Nat) (gen : mt19937_64) (argv : List (List Char)) (st : MainState)
    (h : parseArgs MainState.init (argv.drop 1) = Except.ok st) :
    ((∃ t ∈ argv.drop 1, recognized t = false) →
      main fuel gen argv = Outcome.exited 1 [] st.cerr none) ∧
    ((∀ t ∈ argv.drop 1, recognized t = true) →
      (st.is_help = true ∨ (0 ≤ st.genNumber ∧ st.genNumber.toNat ≤ fuel)) →
      ∃ cout cerr clipboard, main fuel gen argv = Outcome.exited 0 cout cerr clipboard) := by
  have herr := parseArgs_is_error (argv.drop 1) st h
  rw [main_of_parse fuel gen argv st h]
  constructor
  · intro hbad
    rw [if_pos (herr.2 hbad)]
  · intro hall hrun
    have hne : ¬ st.is_error = true := by
      intro he
      obtain ⟨t, ht, hr⟩ := herr.1 he
      rw [hall t ht] at hr
      exact absurd hr (by decide)
    rw [if_neg hne]
    by_cases hh : st.is_help = true
    · rw [if_pos hh]
      exact ⟨_, _, _, rfl⟩
    · rw [if_neg hh]
      rcases hrun with hrun | ⟨h0, hf⟩
      · exact absurd hrun hh
      · have hn : st.genNumber = ((st.genNumber.toNat : Nat) : Int) := by omega
        rw [hn, generate_nat _ _ _ _ st.genNumber.toNat fuel gen [] hf]
        exact ⟨_, _, _, rfl⟩

theorem exit_code_witness :
    main 3 ⟨fun i => i, 0⟩ [['u', 'u', 'i', 'd'], ['-', 'n', '=', '3'], ['-', 'z'], ['-', '?'],
        ['-', 'c'], ['-', 'q']] =
      Outcome.exited 1 []
        (invalidMessage ['-', 'z']) none :=
  (exit_code 3 ⟨fun i => i, 0⟩
      [['u', 'u', 'i', 'd'], ['-', 'n', '=', '3'], ['-', 'z'], ['-', '?'], ['-', 'c'], ['-', 'q']]
      { MainState.init with genNumber := 3, is_error := true, is_help := true,
                            is_clipboard := true, is_quiet := true,
                            cerr := invalidMessage ['-', 'z'] }
      (by decide)).1 ⟨['-', 'z'], by decide, by decide⟩

/-- An unrecognized token by itself does not stop the argument loop. For every token
sequence, parsing it and parsing it with the unrecognized tokens removed end alike (the same
exception, or states equal in every field but the error flag and the text on `cerr`); and
when parsing completes, the error flag is set exactly when a token was removed, and `cerr`
holds one line `Invalid command-line argument: "token"` per unrecognized token, in token
order. -/
theorem unrecognized_do_not_short_circuit (toks : List (List Char)) :
    (parseArgs MainState.init toks).map MainState.config =
      (parseArgs MainState.init (toks.filter recognized)).map MainState.config ∧
    ∀ st, parseArgs MainState.init toks = Except.ok st →
      (st.is_error = true ↔ ∃ t ∈ toks, recognized t = false) ∧
      (st.is_error = true ↔ (toks.filter recognized).length < toks.length) ∧
      st.cerr = (toks.filter (fun t => !recognized t)).flatMap
        (fun t => "Invalid command-line argument: ".toList ++ [Char.ofNat 34] ++ t ++
          [Char.ofNat 34] ++ ['\n']) := by
  refine ⟨parseArgs_config toks _ _ rfl, ?_⟩
  intro st h
  have herr := parseArgs_is_error toks st h
  refine ⟨herr, ?_, ?_⟩
  · rw [herr]
    constructor
    · rintro ⟨t, ht, hr⟩
      by_contra hlen
      have hle := List.length_filter_le recognized toks
      have heq : toks.filter recognized = toks :=
        (List.filter_sublist toks).eq_of_length_le (by omega)
      have := (List.filter_eq_self.1 heq) t ht
      rw [hr] at this
      exact absurd this (by decide)
    · intro hlen
      by_contra hno
      have hall : ∀ t ∈ toks, recognized t = true := by
        intro t ht
        by_contra hr
        exact hno ⟨t, ht, by simpa using hr⟩
      rw [List.filter_eq_self.2 hall] at hlen
      exact absurd hlen (lt_irrefl _)
  · have hc := (parseArgs_error toks MainState.init st h).2
    simp only [MainState.init, List.nil_append] at hc
    exact hc

theorem unrecognized_do_not_short_circuit_witness :
    parseArgs MainState.init [['-', 'z'], ['-', 'g'], ['b', 'a', 'd'], ['-', 'n', '=', '2']] =
      Except.ok { MainState.init with
                    is_guid := true, genNumber := 2, is_error := true,
                    cerr := "Invalid command-line argument: ".toList ++ [Char.ofNat 34] ++
                      "-z".toList ++ [Char.ofNat 34, '\n'] ++
                      "Invalid command-line argument: ".toList ++ [Char.ofNat 34] ++
                      "bad".toList ++ [Char.ofNat 34, '\n'] } ∧
    [['-', 'z'], ['-', 'g'], ['b', 'a', 'd'], ['-', 'n', '=', '2']].filter recognized =
      [['-', 'g'], ['-', 'n', '=', '2']] ∧
    (parseArgs MainState.init
        [['-', 'z'], ['-', 'g'], ['b', 'a', 'd'], ['-', 'n', '=', '2']]).map MainState.config =
      (parseArgs MainState.init
        ([['-', 'z'], ['-', 'g'], ['b', 'a', 'd'], ['-', 'n', '=', '2']].filter
          recognized)).map MainState.config :=
  ⟨by decide, by decide,
   (unrecognized_do_not_short_circuit
      [['-', 'z'], ['-', 'g'], ['b', 'a', 'd'], ['-', 'n', '=', '2']]).1⟩

/-- C8, the code at the failing input `-z -n=abc -y`. The tokens `-z` and `-y` are
unrecognized and `-n=abc` is a count option. The loop reports `-z` with one line on `cerr`;
then `stoi` throws on `abc` and nothing catches the exception, so the run is ended there:
no configuration is parsed, whatever follows `-n=abc` is never examined and `-y` gets no
message. Parsing the sequence without its unrecognized tokens is ended the same way. -/
theorem unrecognized_then_nonnumeric :
    recognized "-z".toList = false ∧ recognized "-y".toList = false ∧
    recognized "-n=abc".toList = true ∧
    parseArgs MainState.init ["-z".toList] =
      Except.ok { MainState.init with
                    is_error := true,
                    cerr := "Invalid command-line argument: ".toList ++ [Char.ofNat 34] ++
                      "-z".toList ++ [Char.ofNat 34, '\n'] } ∧
    parseArg { MainState.init with
                 is_error := true,
                 cerr := "Invalid command-line argument: ".toList ++ [Char.ofNat 34] ++
                   "-z".toList ++ [Char.ofNat 34, '\n'] } "-n=abc".toList =
      Except.error stoi_error.invalid_argument ∧
    (∀ rest : List (List Char),
      parseArgs MainState.init ("-z".toList :: "-n=abc".toList :: rest) =
        Except.error stoi_error.invalid_argument) ∧
    main 1 ⟨fun i => i, 0⟩ ["uuid".toList, "-z".toList, "-n=abc".toList, "-y".toList] =
      Outcome.terminated stoi_error.invalid_argument ∧
    parseArgs MainState.init (["-z".toList, "-n=abc".toList, "-y".toList].filter recognized) =
      Except.error stoi_error.invalid_argument := by
  refine ⟨by decide, by decide, by decide, by decide, by decide, ?_, by decide, by decide⟩
  intro rest
  have h1 : parseArg MainState.init "-z".toList =
      Except.ok { MainState.init with
                    is_error := true,
                    cerr := "Invalid command-line argument: ".toList ++ [Char.ofNat 34] ++
                      "-z".toList ++ [Char.ofNat 34, '\n'] } := by decide
  have h2 : parseArg { MainState.init with
                 is_error := true,
                 cerr := "Invalid command-line argument: ".toList ++ [Char.ofNat 34] ++
                   "-z".toList ++ [Char.ofNat 34, '\n'] } "-n=abc".toList =
      Except.error stoi_error.invalid_argument := by decide
  simp only [parseArgs, h1, h2]

/-- One round of the argument loop that completes: what it does to the delimiters, to the
mark that they were set explicitly, and to the variant. -/
theorem applyArg_delims (st st1 : MainState) (str : List Char)
    (h : applyArg st str (classify str) = Except.ok st1) :
    (st1.strLead, st1.strTail) = (delimSet str).getD (st.strLead, st.strTail) ∧
    st1.is_delim = (st.is_delim || (delimSet str).isSome) ∧
    st1.is_guid = (st.is_guid || decide (classify str = ArgKind.guid)) := by
  unfold delimSet
  cases hk : classify str <;> rw [hk] at h <;> simp only [applyArg] at h
  case number value =>
    by_cases hv : value.length = 0
    · simp only [hv, if_true, Except.ok.injEq] at h
      subst h
      simp
    · simp only [hv, if_false] at h
      cases hs : stoi value with
      | ok n =>
        simp only [hs, Except.ok.injEq] at h
        subst h
        simp
      | error e => simp [hs] at h
  all_goals
    simp only [Except.ok.injEq] at h
    subst h
    simp

theorem parseArgs_delims (toks : List (List Char)) :
    ∀ st0 st : MainState, parseArgs st0 toks = Except.ok st →
      (st.strLead, st.strTail) =
        ((toks.filterMap delimSet).getLast?).getD (st0.strLead, st0.strTail) ∧
      st.is_delim = (st0.is_delim || ((toks.filterMap delimSet).getLast?).isSome) ∧
      st.is_guid = (st0.is_guid || toks.any (fun t => decide (classify t = ArgKind.guid))) := by
  induction toks with
  | nil =>
    intro st0 st h
    simp only [parseArgs, Except.ok.injEq] at h
    subst h
    simp
  | cons t ts ih =>
    intro st0 st h
    rw [parseArgs_cons] at h
    cases h1 : applyArg st0 t (classify t) with
    | error e => simp [h1] at h
    | ok st1 =>
      simp only [h1] at h
      obtain ⟨e1, e2, e3⟩ := applyArg_delims st0 st1 t h1
      obtain ⟨i1, i2, i3⟩ := ih st1 st h
      rw [i1, i2, i3, e1, e2, e3]
      cases hc : delimSet t with
      | none => simp [List.filterMap_cons_none hc, Bool.or_assoc]
      | some d =>
        rw [List.filterMap_cons_some hc, List.getLast?_cons]
        cases hl : (ts.filterMap delimSet).getLast? <;> simp [Bool.or_assoc]

/-- C9, the claim as stated fails: after the single token `-d=` followed by an opening and a
closing brace, the final delimiters are the two braces although no GUID option is present
and a delimiter option occurs; so braces as final delimiters do not imply a GUID option
without delimiter option. -/
theorem braces_without_guid_counterexample :
    (addBraces <$> parseArgs MainState.init [['-', 'd', '=', Char.ofNat 123, Char.ofNat 125]]) =
      Except.ok { MainState.init with is_delim := true, strLead := [Char.ofNat 123],
                                      strTail := [Char.ofNat 125] } ∧
    classify ['-', 'd', '=', Char.ofNat 123, Char.ofNat 125] =
      ArgKind.delim [Char.ofNat 123, Char.ofNat 125] ∧
    delimSet ['-', 'd', '=', Char.ofNat 123, Char.ofNat 125] =
      some ([Char.ofNat 123], [Char.ofNat 125]) := by
  refine ⟨by decide, by decide, by decide⟩

/-- C9 as amended: for every token sequence on which parsing completes, the final delimiters
are those set by the last delimiter option (with or without a value) when there is one;
otherwise they are the braces when a GUID option is present and both empty when none is.
So the default braces are applied exactly when a GUID option is present and no delimiter
option occurs anywhere, whatever the order; `-d=` with `-g`, in either order, gives empty
delimiters. -/
theorem final_delimiters (toks : List (List Char)) (st : MainState)
    (h : parseArgs MainState.init toks = Except.ok st) :
    ((addBraces st).strLead, (addBraces st).strTail) =
      (match (toks.filterMap delimSet).getLast? with
       | some d => d
       | none =>
         if toks.any (fun t => decide (classify t = ArgKind.guid)) then
           ([Char.ofNat 123], [Char.ofNat 125])
         else ([], [])) ∧
    (((∃ t ∈ toks, classify t = ArgKind.guid) ∧ (∀ t ∈ toks, delimSet t = none)) →
      (addBraces st).strLead = [Char.ofNat 123] ∧ (addBraces st).strTail = [Char.ofNat 125]) ∧
    ((∀ t ∈ toks, classify t ≠ ArgKind.guid) → (∀ t ∈ toks, delimSet t = none) →
      (addBraces st).strLead = [] ∧ (addBraces st).strTail = []) ∧
    ((∀ t ∈ toks, delimSet t = none) →
      (((addBraces st).strLead = [Char.ofNat 123] ∧ (addBraces st).strTail = [Char.ofNat 125]) ↔
        ∃ t ∈ toks, classify t = ArgKind.guid)) ∧
    (addBraces <$> parseArgs MainState.init [['-', 'd', '='], ['-', 'g']]) =
      Except.ok { MainState.init with is_guid := true, is_delim := true } ∧
    (addBraces <$> parseArgs MainState.init [['-', 'g'], ['-', 'd', '=']]) =
      Except.ok { MainState.init with is_guid := true, is_delim := true } := by
  obtain ⟨e1, e2, e3⟩ := parseArgs_delims toks MainState.init st h
  have key : ((addBraces st).strLead, (addBraces st).strTail) =
      (match (toks.filterMap delimSet).getLast? with
       | some d => d
       | none =>
         if toks.any (fun t => decide (classify t = ArgKind.guid)) then
           ([Char.ofNat 123], [Char.ofNat 125])
         else ([], [])) := by
    unfold addBraces
    rw [e2, e3]
    cases hl : (toks.filterMap delimSet).getLast? with
    | none =>
      rw [hl] at e1
      simp only [MainState.init, Option.getD_none, Prod.mk.injEq] at e1
      cases hg : toks.any (fun t => decide (classify t = ArgKind.guid)) <;>
        simp [MainState.init, e1.1, e1.2]
    | some d =>
      rw [hl] at e1
      simp only [Option.getD_some] at e1
      simp [MainState.init, e1]
  have hguid : (∀ t ∈ toks, delimSet t = none) → (∃ t ∈ toks, classify t = ArgKind.guid) →
      (addBraces st).strLead = [Char.ofNat 123] ∧
        (addBraces st).strTail = [Char.ofNat 125] := by
    intro hnone hex
    obtain ⟨t, ht, hg⟩ := hex
    have hnil : toks.filterMap delimSet = [] := List.filterMap_eq_nil_iff.2 hnone
    have hany : toks.any (fun t => decide (classify t = ArgKind.guid)) = true :=
      List.any_eq_true.2 ⟨t, ht, by simp [hg]⟩
    rw [hnil, List.getLast?_nil] at key
    simp only [hany, if_true, Prod.mk.injEq] at key
    exact key
  have hplain : (∀ t ∈ toks, classify t ≠ ArgKind.guid) → (∀ t ∈ toks, delimSet t = none) →
      (addBraces st).strLead = [] ∧ (addBraces st).strTail = [] := by
    intro hng hnone
    have hnil : toks.filterMap delimSet = [] := List.filterMap_eq_nil_iff.2 hnone
    have hany : toks.any (fun t => decide (classify t = ArgKind.guid)) = false := by
      rw [Bool.eq_false_iff]
      intro ha
      obtain ⟨t, ht, hg⟩ := List.any_eq_true.1 ha
      exact hng t ht (by simpa using hg)
    rw [hnil, List.getLast?_nil] at key
    simp only [hany, Bool.false_eq_true, if_false, Prod.mk.injEq] at key
    exact key
  refine ⟨key, fun h => hguid h.2 h.1, hplain, ?_, by decide, by decide⟩
  intro hnone
  constructor
  · intro hb
    by_contra hno
    have hng : ∀ t ∈ toks, classify t ≠ ArgKind.guid := fun t ht hg => hno ⟨t, ht, hg⟩
    have he := (hplain hng hnone).1
    rw [hb.1] at he
    exact absurd he (by decide)
  · exact hguid hnone

theorem final_delimiters_witness :
    parseArgs MainState.init [['-', 'd', '=', '<', '>'], ['-', 'g'], ['-', 'd', '=', '[', ',', ']']] =
      Except.ok { MainState.init with is_guid := true, is_delim := true,
                                      strLead := ['['], strTail := [']'] } ∧
    [['-', 'd', '=', '<', '>'], ['-', 'g'], ['-', 'd', '=', '[', ',', ']']].filterMap delimSet =
      [(['<'], ['>']), (['['], [']'])] ∧
    ((addBraces { MainState.init with is_guid := true, is_delim := true,
                                      strLead := ['['], strTail := [']'] }).strLead,
     (addBraces { MainState.init with is_guid := true, is_delim := true,
                                      strLead := ['['], strTail := [']'] }).strTail) =
      (['['], [']']) :=
  ⟨by decide, by decide,
   (final_delimiters [['-', 'd', '=', '<', '>'], ['-', 'g'], ['-', 'd', '=', '[', ',', ']']]
      { MainState.init with is_guid := true, is_delim := true,
                            strLead := ['['], strTail := [']'] } (by decide)).1.trans
      (by decide)⟩

theorem dotPlus_mem (icase : Bool) (input : List Char) (st r : List Char × smatch)
    (h : r ∈ Regex.run icase input Regex.dotPlus st) : r.1 <:+ st.1 := by
  obtain ⟨s, caps⟩ := st
  cases s with
  | nil => simp [Regex.run] at h
  | cons c cs =>
    simp only [Regex.run] at h
    split_ifs at h
    · simp at h
    · exact ((dotStarFrom_mem caps cs r h).1).trans (List.suffix_cons c cs)

theorem run_seq_mem (icase : Bool) (input : List Char) (a b : Regex)
    (st r : List Char × smatch) :
    r ∈ Regex.run icase input (Regex.seq a b) st ↔
      ∃ m, m ∈ Regex.run icase input a st ∧ r ∈ Regex.run icase input b m := by
  simp only [Regex.run, List.mem_flatMap]

theorem run_group_mem (icase : Bool) (input : List Char) (a : Regex)
    (st r : List Char × smatch) (h : r ∈ Regex.run icase input (Regex.group a) st) :
    ∃ m, m ∈ Regex.run icase input a st ∧ r.1 = m.1 := by
  simp only [Regex.run, List.mem_map] at h
  obtain ⟨m, hm, rfl⟩ := h
  exact ⟨m, hm, rfl⟩

theorem run_chr_mem (icase : Bool) (input : List Char) (p : Char)
    (st r : List Char × smatch) (h : r ∈ Regex.run icase input (Regex.chr p) st) :
    ∃ c, st.1 = c :: r.1 ∧ sameChar icase p c = true := by
  obtain ⟨s, caps⟩ := st
  cases s with
  | nil => simp [Regex.run] at h
  | cons c cs =>
    simp only [Regex.run] at h
    split_ifs at h with hs
    · simp only [List.mem_singleton] at h
      subst h
      exact ⟨c, rfl, hs⟩
    · simp at h

theorem run_bol_mem (icase : Bool) (input : List Char) (st r : List Char × smatch)
    (h : r ∈ Regex.run icase input Regex.bol st) : r = st := by
  simp only [Regex.run] at h
  split_ifs at h
  · simpa using h
  · simp at h

/-- Without a comma in it, a text does not match `^(.+),(.+)$`. -/
theorem reDelimCS_none (value : List Char) (hc : ',' ∉ value) :
    regex_match value reDelimCS = none := by
  have hempty : Regex.run false value reDelimCS.re (value, []) = [] := by
    rw [List.eq_nil_iff_forall_not_mem]
    intro r hr
    simp only [reDelimCS, Regex.cat] at hr
    rw [run_seq_mem] at hr
    obtain ⟨m1, hm1, hr⟩ := hr
    rw [run_seq_mem] at hr
    obtain ⟨m2, hm2, hr⟩ := hr
    rw [run_seq_mem] at hr
    obtain ⟨m3, hm3, -⟩ := hr
    have e1 := run_bol_mem _ _ _ _ hm1
    subst e1
    obtain ⟨m, hm, e2⟩ := run_group_mem _ _ _ _ _ hm2
    have hsuf : m2.1 <:+ value := by
      rw [e2]
      exact dotPlus_mem _ _ _ _ hm
    obtain ⟨c, e3, hsame⟩ := run_chr_mem _ _ _ _ _ hm3
    have hcc : c = ',' := by
      simp only [sameChar, Bool.false_eq_true, if_false, beq_iff_eq] at hsame
      exact hsame.symm
    have hmem : ',' ∈ m2.1 := by
      rw [e3, hcc]
      exact List.mem_cons_self _ _
    exact hc (hsuf.subset hmem)
  have hicase : reDelimCS.icase = false := rfl
  simp [regex_match, hicase, hempty]

/-- C10: for every value the delimiter-with-value pattern captures (the `VALUE` of
`-d=VALUE` or `-d:VALUE`) that contains no comma, the round of the argument loop completes
and marks the delimiters as set; an empty value clears both, a one-character value is used
for both, and a value of length `n ≥ 2` is cut so that the lead is its first `n / 2`
characters and the tail the remaining `(n + 1) / 2`, the odd middle character going to the
tail. -/
theorem delimiter_without_comma (st : MainState) (str value : List Char)
    (hk : classify str = ArgKind.delim value) (hc : ',' ∉ value) :
    ∃ st1, parseArg st str = Except.ok st1 ∧
      st1 = { st with is_delim := true, strLead := st1.strLead, strTail := st1.strTail } ∧
      (value = [] → st1.strLead = [] ∧ st1.strTail = []) ∧
      (value.length = 1 → st1.strLead = value ∧ st1.strTail = value) ∧
      (2 ≤ value.length →
        st1.strLead = value.take (value.length / 2) ∧
        st1.strTail = value.drop (value.length / 2) ∧
        st1.strLead ++ st1.strTail = value ∧
        st1.strLead.length = value.length / 2 ∧
        st1.strTail.length = (value.length + 1) / 2) := by
  refine ⟨_, by rw [parseArg_eq, hk]; rfl, rfl, ?_, ?_, ?_⟩
  · intro hv
    subst hv
    simp [splitDelim]
  · intro hv
    simp [splitDelim, hv]
  · intro hv
    have h0 : ¬ value.length = 0 := by omega
    have h1 : ¬ value.length = 1 := by omega
    simp only [splitDelim, h0, h1, if_false, reDelimCS_none value hc, List.take_append_drop,
      List.length_take, List.length_drop, true_and]
    omega

theorem delimiter_without_comma_witness :
    classify ['-', 'd', '=', 'a', 'b', 'c'] = ArgKind.delim ['a', 'b', 'c'] ∧
    parseArg MainState.init ['-', 'd', '=', 'a', 'b', 'c'] =
      Except.ok { MainState.init with is_delim := true, strLead := ['a'],
                                      strTail := ['b', 'c'] } ∧
    parseArg MainState.init ['-', 'd', '=', 'x', 'y'] =
      Except.ok { MainState.init with is_delim := true, strLead := ['x'], strTail := ['y'] } ∧
    parseArg MainState.init ['/', 'D', 'e', 'l', ':', 'a', 'b', 'c', 'd'] =
      Except.ok { MainState.init with is_delim := true, strLead := ['a', 'b'],
                                      strTail := ['c', 'd'] } ∧
    ∃ st1, parseArg MainState.init ['-', 'd', '=', 'a', 'b', 'c'] = Except.ok st1 ∧
      st1.strLead ++ st1.strTail = ['a', 'b', 'c'] ∧ st1.strTail.length = 2 := by
  refine ⟨by decide, by decide, by decide, by decide, ?_⟩
  obtain ⟨st1, h1, -, -, -, h4⟩ :=
    delimiter_without_comma MainState.init ['-', 'd', '=', 'a', 'b', 'c'] ['a', 'b', 'c']
      (by decide) (by decide)
  exact ⟨st1, h1, (h4 (by decide)).2.2.1, (h4 (by decide)).2.2.2.2⟩

/-! ## Round trip between the draws and the text -/

theorem hexValue_hexDigit (is_lower : Bool) (d : Nat) (h : d < 16) :
    hexValue (hexDigit is_lower d) = d := by
  interval_cases d <;> cases is_lower <;> decide

theorem readHex_digits (is_lower : Bool) (w : Nat) (h : w < 65536) :
    readHex [hexDigit is_lower (w / 4096), hexDigit is_lower (w / 256 % 16),
      hexDigit is_lower (w / 16 % 16), hexDigit is_lower (w % 16)] = w := by
  simp only [readHex, List.foldl_cons, List.foldl_nil,
    hexValue_hexDigit _ _ (show w / 4096 < 16 by omega),
    hexValue_hexDigit _ _ (show w / 256 % 16 < 16 by omega),
    hexValue_hexDigit _ _ (show w / 16 % 16 < 16 by omega),
    hexValue_hexDigit _ _ (show w % 16 < 16 by omega)]
  omega

theorem hexDigit_filter (is_lower : Bool) (d : Nat) : (hexDigit is_lower d != '-') = true := by
  simp [bne, hexDigit_ne_hyphen]

theorem readBack_gen_uuid (gen : mt19937_64) (is_guid is_lower : Bool) :
    readBack (gen_uuid gen is_guid is_lower).1 = stamped gen is_guid := by
  rw [gen_uuid_text, stamped_eq]
  simp only [readBack, List.filter_cons, hexDigit_filter, if_true, List.filter_nil,
    groupsOfFour, List.map_cons, List.map_nil,
    readHex_digits _ _ (drawn_lt gen 0), readHex_digits _ _ (drawn_lt gen 1),
    readHex_digits _ _ (drawn_lt gen 2), readHex_digits _ _ (drawn_lt gen 5),
    readHex_digits _ _ (drawn_lt gen 6), readHex_digits _ _ (drawn_lt gen 7),
    readHex_digits _ _ (variantWord_lt is_guid (drawn gen 4)),
    readHex_digits _ _ (show 16384 + drawn gen 3 % 4096 < 65536 by omega)]

theorem sprintf_04x_length (is_lower : Bool) (v : Nat) (h : v < 65536) :
    (sprintf_04x is_lower v).length = 4 := by
  rw [sprintf_04x_eq _ _ h]
  rfl

theorem stamped_lt (gen : mt19937_64) (is_guid : Bool) :
    ∀ w ∈ stamped gen is_guid, w < 65536 := by
  intro w hw
  rw [stamped_eq] at hw
  simp only [List.mem_cons, List.mem_singleton, List.not_mem_nil, or_false] at hw
  have h0 := drawn_lt gen 0
  have h1 := drawn_lt gen 1
  have h2 := drawn_lt gen 2
  have h4 := variantWord_lt is_guid (drawn gen 4)
  have h5 := drawn_lt gen 5
  have h6 := drawn_lt gen 6
  have h7 := drawn_lt gen 7
  rcases hw with h | h | h | h | h | h | h | h <;> omega

/-- C16: for every state of the engine (so for every eight drawn 16-bit values `r0 .. r7`,
`ri` being `drawn gen i`), both variants and both cases, reading the 32 digits of the text
`gen_uuid` returns back as eight big-endian groups of four yields `r0`, `r1`, `r2`,
`(r3 AND 0x0FFF) OR 0x4000`, `g4`, `r5`, `r6`, `r7`, with `g4 = (r4 AND 0x3FFF) OR 0x8000`
for the standard variant and `(r4 AND 0x1FFF) OR 0xC000` for the GUID variant. The low 12
bits of `r3` and the low 14 (standard) or 13 (GUID) bits of `r4` are kept, the bits above
them are 4, 2 (binary 10) and 6 (binary 110); every group is printed with exactly four
digits. -/
theorem round_trip (gen : mt19937_64) (is_guid is_lower : Bool) :
    readBack (gen_uuid gen is_guid is_lower).1 =
      [drawn gen 0, drawn gen 1, drawn gen 2,
       (drawn gen 3 &&& 0x0FFF) ||| 0x4000,
       if is_guid then (drawn gen 4 &&& 0x1FFF) ||| 0xC000
         else (drawn gen 4 &&& 0x3FFF) ||| 0x8000,
       drawn gen 5, drawn gen 6, drawn gen 7] ∧
    (((drawn gen 3 &&& 0x0FFF) ||| 0x4000) % 4096 = drawn gen 3 % 4096 ∧
      ((drawn gen 3 &&& 0x0FFF) ||| 0x4000) / 4096 = 4) ∧
    (((drawn gen 4 &&& 0x3FFF) ||| 0x8000) % 16384 = drawn gen 4 % 16384 ∧
      ((drawn gen 4 &&& 0x3FFF) ||| 0x8000) / 16384 = 2) ∧
    (((drawn gen 4 &&& 0x1FFF) ||| 0xC000) % 8192 = drawn gen 4 % 8192 ∧
      ((drawn gen 4 &&& 0x1FFF) ||| 0xC000) / 8192 = 6) ∧
    (gen_uuid gen is_guid is_lower).1 = layout is_lower (stamped gen is_guid) ∧
    (∀ w ∈ stamped gen is_guid, (sprintf_04x is_lower w).length = 4) ∧
    (∀ i, drawn gen i = gen.draw (gen.pos + i) % 65536) := by
  refine ⟨readBack_gen_uuid gen is_guid is_lower, ?_, ?_, ?_, ?_, ?_, fun _ => rfl⟩
  · rw [version_word]
    omega
  · rw [variant_word_uuid]
    omega
  · rw [variant_word_guid]
    omega
  · rw [gen_uuid_eq]
  · intro w hw
    exact sprintf_04x_length _ _ (stamped_lt gen is_guid w hw)

/-! ## The draws behind each identifier -/

theorem advance_zero (gen : mt19937_64) : advance gen 0 = gen := by
  cases gen
  rfl

theorem advance_advance (gen : mt19937_64) (k : Nat) :
    advance (advance gen 1) k = advance gen (k + 1) := by
  cases gen
  simp only [advance, mt19937_64.mk.injEq, true_and]
  omega

theorem gen_uuid_engine (gen : mt19937_64) (is_guid is_lower : Bool) :
    (gen_uuid gen is_guid is_lower).2 = advance gen 1 := by
  rw [gen_uuid_eq]
  rfl

theorem identifiers_eq_map (strLead strTail : List Char) (is_guid is_lower : Bool) (n : Nat) :
    ∀ gen : mt19937_64,
      identifiers strLead strTail is_guid is_lower n gen =
        (List.range n).map
          (fun k => strLead ++ (gen_uuid (advance gen k) is_guid is_lower).1 ++ strTail) := by
  induction n with
  | zero => intro gen; rfl
  | succ n ih =>
    intro gen
    rw [List.range_succ_eq_map]
    simp only [identifiers, List.map_cons, List.map_map, advance_zero, gen_uuid_engine, ih,
      List.cons.injEq, true_and]
    apply List.map_congr_left
    intro k _
    simp only [Function.comp, advance_advance]

/-- The text of an identifier depends on the engine only through the eight values drawn. -/
theorem gen_uuid_congr (gen gen1 : mt19937_64) (is_guid is_lower : Bool)
    (h : ∀ i, i < 8 → drawn gen1 i = drawn gen i) :
    (gen_uuid gen1 is_guid is_lower).1 = (gen_uuid gen is_guid is_lower).1 := by
  rw [gen_uuid_eq, gen_uuid_eq]
  simp only [stamped, h 0 (by decide), h 1 (by decide), h 2 (by decide), h 3 (by decide),
    h 4 (by decide), h 5 (by decide), h 6 (by decide), h 7 (by decide)]

/-- C17: the engine is threaded through the generation loop and never reseeded. For every
count `n` (so for every `n ≥ 1`) and enough fuel, the loop's result is the join of `n`
items, the `k`-th of which (0-based) is built by `gen_uuid` from the engine `8 * k` draws
further on in the one stream the loop was started with: it reads the draws numbered
`8 * k .. 8 * k + 7` from the start position and depends on no other draw, and the engine
it leaves is the one the next identifier starts from. -/
theorem draws_threaded (strLead strTail : List Char) (is_guid is_lower : Bool)
    (n fuel : Nat) (gen : mt19937_64) (hf : n ≤ fuel) :
    generate strLead strTail is_guid is_lower fuel (n : Int) gen [] =
      LoopResult.done (List.intercalate ['\n']
        ((List.range n).map
          (fun k => strLead ++ (gen_uuid (advance gen k) is_guid is_lower).1 ++ strTail))) ∧
    (∀ k, k < n →
      (identifiers strLead strTail is_guid is_lower n gen)[k]? =
        some (strLead ++ (gen_uuid (advance gen k) is_guid is_lower).1 ++ strTail)) ∧
    (∀ k i, drawn (advance gen k) i = gen.draw (gen.pos + (8 * k + i)) % 65536) ∧
    (∀ k, readBack (gen_uuid (advance gen k) is_guid is_lower).1 =
      stamped (advance gen k) is_guid) ∧
    (∀ k (gen1 : mt19937_64),
      (∀ i, i < 8 → gen1.draw (gen1.pos + (8 * k + i)) = gen.draw (gen.pos + (8 * k + i))) →
      (gen_uuid (advance gen1 k) is_guid is_lower).1 =
        (gen_uuid (advance gen k) is_guid is_lower).1) ∧
    (∀ k, (gen_uuid (advance gen k) is_guid is_lower).2 = advance gen (k + 1)) ∧
    (∀ k, (advance gen k).draw = gen.draw ∧ (advance gen k).pos = gen.pos + 8 * k) := by
  refine ⟨?_, ?_, ?_, ?_, ?_, ?_, ?_⟩
  · have h := generate_nat strLead strTail is_guid is_lower n fuel gen [] hf
    rw [identifiers_eq_map] at h
    simpa using h
  · intro k hk
    rw [identifiers_eq_map]
    simp [hk]
  · intro k i
    simp only [drawn, advance, Nat.add_assoc]
  · intro k
    exact readBack_gen_uuid _ _ _
  · intro k gen1 h
    apply gen_uuid_congr
    intro i hi
    simp only [drawn, advance, Nat.add_assoc, h i hi]
  · intro k
    rw [gen_uuid_engine]
    cases gen
    simp only [advance, mt19937_64.mk.injEq, true_and]
    omega
  · intro k
    exact ⟨rfl, rfl⟩

theorem draws_threaded_witness :
    generate [] [] false false 2 (2 : Nat) ⟨fun i => i * 7919 + 13, 0⟩ [] =
      LoopResult.done (List.intercalate ['\n']
        ((List.range 2).map
          (fun k => [] ++ (gen_uuid (advance ⟨fun i => i * 7919 + 13, 0⟩ k) false false).1
            ++ []))) ∧
    (gen_uuid (advance ⟨fun i => i * 7919 + 13, 0⟩ 1) false false).1 =
      "F7851674-3563-4452-B341-9230B11FD00E".toList ∧
    readBack "F7851674-3563-4452-B341-9230B11FD00E".toList =
      [8 * 7919 + 13, (9 * 7919 + 13) % 65536, (10 * 7919 + 13) % 65536,
       0x4452, 0xB341, (13 * 7919 + 13) % 65536, (14 * 7919 + 13) % 65536,
       (15 * 7919 + 13) % 65536] :=
  ⟨(draws_threaded [] [] false false 2 2 ⟨fun i => i * 7919 + 13, 0⟩ (by decide)).1,
   by decide, by decide⟩

/-! ## Inserting a count option with an empty value -/

theorem parseArgs_append (a b : List (List Char)) :
    ∀ st : MainState, parseArgs st (a ++ b) =
      match parseArgs st a with
      | Except.ok st1 => parseArgs st1 b
      | Except.error e => Except.error e := by
  induction a with
  | nil => intro st; rfl
  | cons t ts ih =>
    intro st
    rw [List.cons_append, parseArgs_cons, parseArgs_cons]
    cases applyArg st t (classify t) with
    | error e => rfl
    | ok st1 => exact ih st1

/-- Without a count option the argument loop always completes and keeps the count. -/
theorem parseArgs_no_count (toks : List (List Char)) :
    ∀ st : MainState, (∀ t ∈ toks, isCountOption t = false) →
      ∃ st1, parseArgs st toks = Except.ok st1 ∧ st1.genNumber = st.genNumber := by
  induction toks with
  | nil => intro st _; exact ⟨st, rfl, rfl⟩
  | cons t ts ih =>
    intro st h
    have ht := h t (List.mem_cons_self _ _)
    have hts : ∀ t ∈ ts, isCountOption t = false :=
      fun x hx => h x (List.mem_cons_of_mem _ hx)
    rw [parseArgs_cons]
    unfold isCountOption at ht
    cases hk : classify t with
    | number v => simp [hk] at ht
    | _ =>
      simp only [applyArg]
      obtain ⟨st1, h1, h2⟩ := ih _ hts
      exact ⟨st1, h1, h2⟩

/-- C15: for every token sequence without a count option, parsing completes with count 1,
and inserting a count option with an empty value (`-n=`, `-n:`) at any position gives the
very same state: every configuration field, the count 1, the error flag and the text on
`cerr` are unchanged. -/
theorem empty_count_insertion (front back : List (List Char)) (tok : List Char)
    (hnone : ∀ t ∈ front ++ back, isCountOption t = false)
    (htok : classify tok = ArgKind.number []) :
    (∃ st, parseArgs MainState.init (front ++ back) = Except.ok st ∧
      parseArgs MainState.init (front ++ tok :: back) = Except.ok st ∧
      st.genNumber = 1) ∧
    classify ['-', 'n', '='] = ArgKind.number [] ∧
    classify ['-', 'n', ':'] = ArgKind.number [] := by
  refine ⟨?_, by decide, by decide⟩
  have hfront : ∀ t ∈ front, isCountOption t = false :=
    fun t ht => hnone t (List.mem_append_left _ ht)
  have hback : ∀ t ∈ back, isCountOption t = false :=
    fun t ht => hnone t (List.mem_append_right _ ht)
  obtain ⟨st1, h1, g1⟩ := parseArgs_no_count front MainState.init hfront
  obtain ⟨st2, h2, g2⟩ := parseArgs_no_count back st1 hback
  have hst1 : ({ st1 with genNumber := 1 } : MainState) = st1 := by
    cases st1
    simp only [MainState.init] at g1
    simp only [MainState.mk.injEq, true_and, and_true]
    exact g1.symm
  refine ⟨st2, ?_, ?_, ?_⟩
  · rw [parseArgs_append, h1]
    exact h2
  · rw [parseArgs_append, h1]
    simp only [parseArgs_cons, htok, applyArg, List.length_nil, if_true, hst1]
    exact h2
  · rw [g2, g1]
    rfl

theorem empty_count_insertion_witness :
    parseArgs MainState.init [['-', 'g'], ['-', 'z'], ['-', 'l']] =
      parseArgs MainState.init [['-', 'g'], ['-', 'n', '='], ['-', 'z'], ['-', 'l']] ∧
    ∃ st, parseArgs MainState.init ([['-', 'g']] ++ [['-', 'z'], ['-', 'l']]) = Except.ok st ∧
      parseArgs MainState.init ([['-', 'g']] ++ ['-', 'n', '='] :: [['-', 'z'], ['-', 'l']]) =
        Except.ok st ∧
      st.genNumber = 1 :=
  ⟨by decide,
   (empty_count_insertion [['-', 'g']] [['-', 'z'], ['-', 'l']] ['-', 'n', '=']
      (by decide) (by decide)).1⟩

/-! ## Termination of the generation loop -/

/-- C18, the code at the failing input `-n=-1`: the token is recognized, help is not
requested and the parser yields the count -1. The loop `while (genNumber)` then counts down
from -1, away from 0, appending an identifier each round: after no number of rounds has it
finished. (A real run ends when memory runs out; with memory unbounded, as here, the
decrement `--genNumber` at last overflows.) -/
theorem negative_count_defect :
    recognized ['-', 'n', '=', '-', '1'] = true ∧
    parseArgs MainState.init [['-', 'n', '=', '-', '1']] =
      Except.ok { MainState.init with genNumber := -1 } ∧
    (∀ fuel : Nat,
      generate [] [] false false fuel (-1) ⟨fun i => i, 0⟩ [] = LoopResult.unfinished ∨
      generate [] [] false false fuel (-1) ⟨fun i => i, 0⟩ [] = LoopResult.overflow) ∧
    generate [] [] false false 3 (-1) ⟨fun i => i, 0⟩ [] = LoopResult.unfinished :=
  ⟨by decide, by decide,
   fun fuel => generate_negative [] [] false false fuel (-1) ⟨fun i => i, 0⟩ [] (by decide),
   by decide⟩

/-- The generation loop on the runs whose parsing completes, with all tokens recognized and
help not requested: for a count that is not negative it terminates (any fuel of at least the
count is enough) having generated exactly `count` identifiers, and `main` returns 0; for a
negative count `main` never returns. -/
theorem generation_terminates (gen : mt19937_64) (argv : List (List Char)) (st : MainState)
    (hparse : parseArgs MainState.init (argv.drop 1) = Except.ok st)
    (hall : ∀ t ∈ argv.drop 1, recognized t = true) (hhelp : st.is_help = false) :
    (0 ≤ st.genNumber → ∀ fuel, st.genNumber.toNat ≤ fuel →
      generate (addBraces st).strLead (addBraces st).strTail st.is_guid st.is_lower fuel
          st.genNumber gen [] =
        LoopResult.done (List.intercalate ['\n']
          (identifiers (addBraces st).strLead (addBraces st).strTail st.is_guid st.is_lower
            st.genNumber.toNat gen)) ∧
      ((identifiers (addBraces st).strLead (addBraces st).strTail st.is_guid st.is_lower
          st.genNumber.toNat gen).length : Int) = st.genNumber ∧
      ∃ cout clipboard, main fuel gen argv = Outcome.exited 0 cout st.cerr clipboard) ∧
    (st.genNumber < 0 → ∀ fuel,
      main fuel gen argv = Outcome.unfinished ∨ main fuel gen argv = Outcome.undefined) := by
  have hne : ¬ st.is_error = true := by
    intro he
    obtain ⟨t, ht, hr⟩ := (parseArgs_is_error (argv.drop 1) st hparse).1 he
    rw [hall t ht] at hr
    exact absurd hr (by decide)
  have hnh : ¬ st.is_help = true := by simp [hhelp]
  constructor
  · intro h0 fuel hf
    have hn : st.genNumber = ((st.genNumber.toNat : Nat) : Int) := by omega
    have hg := generate_nat (addBraces st).strLead (addBraces st).strTail st.is_guid
      st.is_lower st.genNumber.toNat fuel gen [] hf
    rw [← hn] at hg
    refine ⟨by simpa using hg, ?_, ?_⟩
    · rw [identifiers_length]
      exact hn.symm
    · rw [main_of_parse fuel gen argv st hparse, if_neg hne, if_neg hnh, hg]
      exact ⟨_, _, rfl⟩
  · intro hneg fuel
    rw [main_of_parse fuel gen argv st hparse, if_neg hne, if_neg hnh]
    rcases generate_negative (addBraces st).strLead (addBraces st).strTail st.is_guid
      st.is_lower fuel st.genNumber gen [] hneg with h | h
    · left; rw [h]
    · right; rw [h]

theorem generation_terminates_witness :
    parseArgs MainState.init [['-', 'n', '=', '2'], ['-', 'l']] =
      Except.ok { MainState.init with genNumber := 2, is_lower := true } ∧
    generate [] [] false true 2 2 ⟨fun i => i * 7919 + 13, 0⟩ [] =
      LoopResult.done
        "000d1efc-3deb-4cda-bbc9-9ab8b9a7d896\nf7851674-3563-4452-b341-9230b11fd00e".toList ∧
    ∃ cout clipboard,
      main 2 ⟨fun i => i * 7919 + 13, 0⟩
        [['u', 'u', 'i', 'd'], ['-', 'n', '=', '2'], ['-', 'l']] =
        Outcome.exited 0 cout [] clipboard :=
  ⟨by decide, by decide,
   ((generation_terminates ⟨fun i => i * 7919 + 13, 0⟩
      [['u', 'u', 'i', 'd'], ['-', 'n', '=', '2'], ['-', 'l']]
      { MainState.init with genNumber := 2, is_lower := true }
      (by decide) (by decide) (by decide)).1 (by decide) 2 (by decide)).2.2⟩

/-! ## Quiet mode -/

/-- One round of the argument loop that completes: what it does to the quiet flag and to
the clipboard flag. -/
theorem applyArg_quiet (st st1 : MainState) (str : List Char)
    (h : applyArg st str (classify str) = Except.ok st1) :
    st1.is_quiet = (st.is_quiet || !notQuiet str) ∧
    ((!notQuiet str) = true → st1.is_clipboard = true) ∧
    (st.is_clipboard = true → st1.is_clipboard = true) := by
  unfold notQuiet
  cases hk : classify str <;> rw [hk] at h <;> simp only [applyArg] at h
  case number value =>
    by_cases hv : value.length = 0
    · simp only [hv, if_true, Except.ok.injEq] at h
      subst h
      simp
    · simp only [hv, if_false] at h
      cases hs : stoi value with
      | ok n =>
        simp only [hs, Except.ok.injEq] at h
        subst h
        simp
      | error e => simp [hs] at h
  all_goals
    simp only [Except.ok.injEq] at h
    subst h
    simp

theorem parseArgs_quiet (toks : List (List Char)) :
    ∀ st0 st : MainState, parseArgs st0 toks = Except.ok st →
      st.is_quiet = (st0.is_quiet || toks.any (fun t => !notQuiet t)) ∧
      (toks.any (fun t => !notQuiet t) = true → st.is_clipboard = true) ∧
      (st0.is_clipboard = true → st.is_clipboard = true) := by
  induction toks with
  | nil =>
    intro st0 st h
    simp only [parseArgs, Except.ok.injEq] at h
    subst h
    simp
  | cons t ts ih =>
    intro st0 st h
    rw [parseArgs_cons] at h
    cases h1 : applyArg st0 t (classify t) with
    | error e => simp [h1] at h
    | ok st1 =>
      simp only [h1] at h
      obtain ⟨e1, e2, e3⟩ := applyArg_quiet st0 st1 t h1
      obtain ⟨i1, i2, i3⟩ := ih st1 st h
      refine ⟨?_, ?_, fun hc => i3 (e3 hc)⟩
      · rw [i1, e1, List.any_cons, Bool.or_assoc]
      · intro hany
        rw [List.any_cons, Bool.or_eq_true] at hany
        rcases hany with hq | hq
        · exact i3 (e2 hq)
        · exact i2 hq

theorem plain_eq_iff (a b : MainState) :
    a.plain = b.plain ↔
      a.is_guid = b.is_guid ∧ a.is_lower = b.is_lower ∧ a.is_help = b.is_help ∧
      a.is_error = b.is_error ∧ a.is_delim = b.is_delim ∧ a.genNumber = b.genNumber ∧
      a.strLead = b.strLead ∧ a.strTail = b.strTail ∧ a.cerr = b.cerr := by
  cases a; cases b
  simp only [MainState.plain, MainState.mk.injEq]
  tauto

/-- A round of the loop acts alike on two states that differ only in the quiet flag and the
clipboard flag. -/
theorem applyArg_plain (a b : MainState) (str : List Char) (k : ArgKind)
    (hab : a.plain = b.plain) :
    (∃ e, applyArg a str k = Except.error e ∧ applyArg b str k = Except.error e) ∨
    (∃ a1 b1, applyArg a str k = Except.ok a1 ∧ applyArg b str k = Except.ok b1 ∧
      a1.plain = b1.plain) := by
  obtain ⟨h1, h2, h3, h4, h5, h6, h7, h8, h9⟩ := (plain_eq_iff a b).1 hab
  cases k with
  | number value =>
    simp only [applyArg]
    by_cases hv : value.length = 0
    · rw [if_pos hv, if_pos hv]
      right
      refine ⟨_, _, rfl, rfl, ?_⟩
      rw [plain_eq_iff]
      exact ⟨h1, h2, h3, h4, h5, rfl, h7, h8, h9⟩
    · rw [if_neg hv, if_neg hv]
      cases stoi value with
      | ok n =>
        right
        refine ⟨_, _, rfl, rfl, ?_⟩
        rw [plain_eq_iff]
        exact ⟨h1, h2, h3, h4, h5, rfl, h7, h8, h9⟩
      | error e =>
        left
        exact ⟨e, rfl, rfl⟩
  | _ =>
    right
    refine ⟨_, _, rfl, rfl, ?_⟩
    rw [plain_eq_iff]
    simp [h1, h2, h3, h4, h5, h6, h7, h8, h9]

/-- Removing the quiet options changes nothing but the quiet flag and the clipboard flag. -/
theorem parseArgs_plain (toks : List (List Char)) :
    ∀ a b : MainState, a.plain = b.plain →
      (parseArgs a toks).map MainState.plain =
        (parseArgs b (toks.filter notQuiet)).map MainState.plain := by
  induction toks with
  | nil =>
    intro a b hab
    simp [parseArgs, Except.map, hab]
  | cons t ts ih =>
    intro a b hab
    by_cases hr : notQuiet t = true
    · rw [List.filter_cons_of_pos hr, parseArgs_cons, parseArgs_cons]
      rcases applyArg_plain a b t (classify t) hab with ⟨e, h1, h2⟩ | ⟨a1, b1, h1, h2, h3⟩
      · simp [h1, h2, Except.map]
      · simp only [h1, h2]
        exact ih a1 b1 h3
    · have hk : classify t = ArgKind.quiet := by
        simpa [notQuiet] using hr
      rw [List.filter_cons_of_neg hr, parseArgs_cons, hk]
      simp only [applyArg]
      exact ih _ b (by rw [← hab]; rfl)

theorem addBraces_congr (a b : MainState) (h1 : a.is_guid = b.is_guid)
    (h2 : a.is_delim = b.is_delim) (h3 : a.strLead = b.strLead) (h4 : a.strTail = b.strTail) :
    (addBraces a).strLead = (addBraces b).strLead ∧
    (addBraces a).strTail = (addBraces b).strTail := by
  unfold addBraces
  rw [h1, h2]
  split <;> simp [h3, h4]

/-- C14, the code at the failing inputs. In `-q -n=-1` every token is recognized, help is
not requested and a quiet option occurs, yet the clipboard receives nothing: the count -1
makes `while (genNumber)` count away from 0, so the copy to the clipboard after the loop is
never reached. In `-q -n=abc` the exception of `stoi` ends the run before anything is
generated. -/
theorem quiet_defect :
    recognized ['-', 'q'] = true ∧ recognized ['-', 'n', '=', '-', '1'] = true ∧
    classify ['-', 'q'] = ArgKind.quiet ∧
    parseArgs MainState.init [['-', 'q'], ['-', 'n', '=', '-', '1']] =
      Except.ok { MainState.init with is_quiet := true, is_clipboard := true,
                                      genNumber := -1 } ∧
    (∀ fuel : Nat,
      main fuel ⟨fun i => i, 0⟩ [['u', 'u', 'i', 'd'], ['-', 'q'], ['-', 'n', '=', '-', '1']] =
          Outcome.unfinished ∨
      main fuel ⟨fun i => i, 0⟩ [['u', 'u', 'i', 'd'], ['-', 'q'], ['-', 'n', '=', '-', '1']] =
          Outcome.undefined) ∧
    main 1 ⟨fun i => i, 0⟩ [['u', 'u', 'i', 'd'], ['-', 'q'], ['-', 'n', '=', 'a', 'b', 'c']] =
      Outcome.terminated stoi_error.invalid_argument := by
  refine ⟨by decide, by decide, by decide, by decide, ?_, by decide⟩
  intro fuel
  have hp : parseArgs MainState.init
      (List.drop 1 [['u', 'u', 'i', 'd'], ['-', 'q'], ['-', 'n', '=', '-', '1']]) =
      Except.ok { MainState.init with is_quiet := true, is_clipboard := true,
                                      genNumber := -1 } := by decide
  rw [main_of_parse fuel _ _ _ hp]
  rcases generate_negative [] [] false false fuel (-1) ⟨fun i => i, 0⟩ [] (by decide)
    with h | h
  · left
    simp [MainState.init, addBraces, h]
  · right
    simp [MainState.init, addBraces, h]

/-- Quiet mode on the runs the two defects (the exception of `stoi`, the loop on a negative
count) do not touch: when parsing completes with a count that is not negative, all tokens
are recognized, help is not requested and a quiet option occurs (with or without a clipboard
option), `main` writes nothing to `cout` and puts on the clipboard exactly the joined
identifier text, the same text the run prints when the quiet options are taken out of the
sequence. -/
theorem quiet_copies (fuel : Nat) (gen : mt19937_64) (argv : List (List Char))
    (st : MainState) (hparse : parseArgs MainState.init (argv.drop 1) = Except.ok st)
    (hall : ∀ t ∈ argv.drop 1, recognized t = true) (hhelp : st.is_help = false)
    (hq : ∃ t ∈ argv.drop 1, classify t = ArgKind.quiet)
    (h0 : 0 ≤ st.genNumber) (hf : st.genNumber.toNat ≤ fuel) :
    main fuel gen argv =
      Outcome.exited 0 [] st.cerr
        (some (List.intercalate ['\n']
          (identifiers (addBraces st).strLead (addBraces st).strTail st.is_guid st.is_lower
            st.genNumber.toNat gen))) ∧
    ∃ cerr1 clipboard1,
      main fuel gen (argv.headD [] :: (argv.drop 1).filter notQuiet) =
        Outcome.exited 0
          (List.intercalate ['\n']
            (identifiers (addBraces st).strLead (addBraces st).strTail st.is_guid st.is_lower
              st.genNumber.toNat gen))
          cerr1 clipboard1 := by
  have hne : ¬ st.is_error = true := by
    intro he
    obtain ⟨t, ht, hr⟩ := (parseArgs_is_error (argv.drop 1) st hparse).1 he
    rw [hall t ht] at hr
    exact absurd hr (by decide)
  have hnh : ¬ st.is_help = true := by simp [hhelp]
  obtain ⟨n, hn⟩ := Int.eq_ofNat_of_zero_le h0
  rw [hn, Int.toNat_ofNat] at hf
  rw [hn, Int.toNat_ofNat]
  have hany : (argv.drop 1).any (fun t => !notQuiet t) = true := by
    obtain ⟨t, ht, hk⟩ := hq
    exact List.any_eq_true.2 ⟨t, ht, by simp [notQuiet, hk]⟩
  obtain ⟨q1, q2, -⟩ := parseArgs_quiet (argv.drop 1) MainState.init st hparse
  have hquiet : st.is_quiet = true := by
    rw [q1, hany]
    rfl
  have hclip : st.is_clipboard = true := q2 hany
  constructor
  · rw [main_of_parse fuel gen argv st hparse, if_neg hne, if_neg hnh, hn,
      generate_nat _ _ _ _ n fuel gen [] hf]
    simp [hquiet, hclip]
  · have hmap := parseArgs_plain (argv.drop 1) MainState.init MainState.init rfl
    rw [hparse] at hmap
    cases hp1 : parseArgs MainState.init ((argv.drop 1).filter notQuiet) with
    | error e =>
      rw [hp1] at hmap
      simp [Except.map] at hmap
    | ok st1 =>
      rw [hp1] at hmap
      simp only [Except.map, Except.ok.injEq] at hmap
      obtain ⟨f1, f2, f3, f4, f5, f6, f7, f8, -⟩ := (plain_eq_iff st st1).1 hmap
      obtain ⟨r1, -, -⟩ :=
        parseArgs_quiet ((argv.drop 1).filter notQuiet) MainState.init st1 hp1
      have hnoq : ((argv.drop 1).filter notQuiet).any (fun t => !notQuiet t) = false := by
        rw [Bool.eq_false_iff]
        intro ha
        obtain ⟨t, ht, hb⟩ := List.any_eq_true.1 ha
        have := (List.mem_filter.1 ht).2
        simp [this] at hb
      have hq1 : st1.is_quiet = false := by
        rw [r1, hnoq]
        rfl
      obtain ⟨b1, b2⟩ := addBraces_congr st st1 f1 f5 f7 f8
      have hp2 : parseArgs MainState.init
          ((argv.headD [] :: (argv.drop 1).filter notQuiet).drop 1) = Except.ok st1 := hp1
      rw [main_of_parse fuel gen _ st1 hp2, ← f4, ← f3, if_neg hne, if_neg hnh, ← b1, ← b2,
        ← f1, ← f2, ← f6, hn, generate_nat _ _ _ _ n fuel gen [] hf]
      simp only [hq1, Bool.not_false, if_true]
      exact ⟨_, _, rfl⟩

theorem quiet_copies_witness :
    main 2 ⟨fun i => i * 7919 + 13, 0⟩
        [['u', 'u', 'i', 'd'], ['-', 'q'], ['-', 'n', '=', '2']] =
      Outcome.exited 0 [] []
        (some "000D1EFC-3DEB-4CDA-BBC9-9AB8B9A7D896\nF7851674-3563-4452-B341-9230B11FD00E".toList) ∧
    main 2 ⟨fun i => i * 7919 + 13, 0⟩ [['u', 'u', 'i', 'd'], ['-', 'n', '=', '2']] =
      Outcome.exited 0
        "000D1EFC-3DEB-4CDA-BBC9-9AB8B9A7D896\nF7851674-3563-4452-B341-9230B11FD00E".toList []
        none :=
  ⟨((quiet_copies 2 ⟨fun i => i * 7919 + 13, 0⟩
      [['u', 'u', 'i', 'd'], ['-', 'q'], ['-', 'n', '=', '2']]
      { MainState.init with is_quiet := true, is_clipboard := true, genNumber := 2 }
      (by decide) (by decide) (by decide) ⟨['-', 'q'], by decide, by decide⟩
      (by decide) (by decide)).1).trans (by decide),
   by decide⟩

/-! ## Abbreviated keywords -/

theorem abbreviations_clip :
    ∀ tok ∈ abbreviations "clip".toList, classify tok = ArgKind.clip := by decide

set_option maxRecDepth 100000 in
theorem abbreviations_quiet :
    ∀ tok ∈ abbreviations "quiet".toList, classify tok = ArgKind.quiet := by decide

set_option maxRecDepth 100000 in
theorem abbreviations_lower :
    ∀ tok ∈ abbreviations "lower".toList, classify tok = ArgKind.lower := by decide

set_option maxRecDepth 100000 in
theorem abbreviations_upper :
    ∀ tok ∈ abbreviations "upper".toList, classify tok = ArgKind.upper := by decide

theorem abbreviations_guid :
    ∀ tok ∈ abbreviations "guid".toList, classify tok = ArgKind.guid := by decide

theorem abbreviations_help :
    ∀ tok ∈ abbreviations "help".toList, classify tok = ArgKind.help := by decide

set_option maxRecDepth 100000 in
theorem abbreviations_usage :
    ∀ tok ∈ abbreviations "usage".toList,
      (3 ≤ tok.length → classify tok = ArgKind.help) ∧
      (tok.length = 2 → classify tok = ArgKind.upper) := by decide

theorem recognized_of_classify (str : List Char) (k : ArgKind) (h : classify str = k)
    (hk : k ≠ ArgKind.invalid) : recognized str = true := by
  simp [recognized, h, hk]

set_option maxRecDepth 100000 in
/-- C12: for each of the keywords clip, quiet, lower, upper, guid and help, every token made
of an introducer `-` or `/` followed by a non-empty prefix of the keyword in any mix of
letter cases is recognized, and the round of the argument loop has the keyword's effect:
the clipboard flag; the quiet flag and the clipboard flag; lower case; upper case; the GUID
variant; the help flag. -/
theorem keyword_prefixes (st : MainState) :
    (∀ tok ∈ abbreviations "clip".toList, recognized tok = true ∧
      parseArg st tok = Except.ok { st with is_clipboard := true }) ∧
    (∀ tok ∈ abbreviations "quiet".toList, recognized tok = true ∧
      parseArg st tok = Except.ok { st with is_quiet := true, is_clipboard := true }) ∧
    (∀ tok ∈ abbreviations "lower".toList, recognized tok = true ∧
      parseArg st tok = Except.ok { st with is_lower := true }) ∧
    (∀ tok ∈ abbreviations "upper".toList, recognized tok = true ∧
      parseArg st tok = Except.ok { st with is_lower := false }) ∧
    (∀ tok ∈ abbreviations "guid".toList, recognized tok = true ∧
      parseArg st tok = Except.ok { st with is_guid := true }) ∧
    (∀ tok ∈ abbreviations "help".toList, recognized tok = true ∧
      parseArg st tok = Except.ok { st with is_help := true }) ∧
    prefixes "lower".toList =
      ["l".toList, "lo".toList, "low".toList, "lowe".toList, "lower".toList] ∧
    caseVariants "up".toList = ["up".toList, "Up".toList, "uP".toList, "UP".toList] ∧
    abbreviations "c".toList = ["-c".toList, "-C".toList, "/c".toList, "/C".toList] ∧
    (abbreviations "clip".toList).length = 60 ∧
    (abbreviations "quiet".toList).length = 124 := by
  refine ⟨?_, ?_, ?_, ?_, ?_, ?_, by decide, by decide, by decide, by decide, by decide⟩
  · intro tok h
    have hk := abbreviations_clip tok h
    exact ⟨recognized_of_classify tok _ hk (by decide), by rw [parseArg_eq, hk]; rfl⟩
  · intro tok h
    have hk := abbreviations_quiet tok h
    exact ⟨recognized_of_classify tok _ hk (by decide), by rw [parseArg_eq, hk]; rfl⟩
  · intro tok h
    have hk := abbreviations_lower tok h
    exact ⟨recognized_of_classify tok _ hk (by decide), by rw [parseArg_eq, hk]; rfl⟩
  · intro tok h
    have hk := abbreviations_upper tok h
    exact ⟨recognized_of_classify tok _ hk (by decide), by rw [parseArg_eq, hk]; rfl⟩
  · intro tok h
    have hk := abbreviations_guid tok h
    exact ⟨recognized_of_classify tok _ hk (by decide), by rw [parseArg_eq, hk]; rfl⟩
  · intro tok h
    have hk := abbreviations_help tok h
    exact ⟨recognized_of_classify tok _ hk (by decide), by rw [parseArg_eq, hk]; rfl⟩

set_option maxRecDepth 100000 in
/-- C13, the claim as stated fails: the one-letter prefix of `usage` gives the tokens `-u`
and `/U`, which the upper-case pattern takes; they are the upper-case option and leave the
help flag unset. -/
theorem usage_prefix_counterexample :
    ['-', 'u'] ∈ abbreviations "usage".toList ∧
    classify ['-', 'u'] = ArgKind.upper ∧
    classify ['/', 'U'] = ArgKind.upper ∧
    regex_match ['-', 'u'] reHelp = none ∧
    parseArg MainState.init ['-', 'u'] = Except.ok { MainState.init with is_lower := false } ∧
    ({ MainState.init with is_lower := false } : MainState).is_help = false := by
  refine ⟨by decide, by decide, by decide, by decide, by decide, by decide⟩

set_option maxRecDepth 100000 in
/-- C13 as amended: for every prefix of the keyword `usage` of at least two letters (us, usa,
usag, usage), in any mix of letter cases and with either introducer, the token is recognized
as the help option and the round of the argument loop sets the help flag; the one-letter
prefix (`-u`, `-U`, `/u`, `/U`) is the upper-case option instead. -/
theorem usage_prefixes (st : MainState) :
    (∀ tok ∈ abbreviations "usage".toList, 3 ≤ tok.length →
      recognized tok = true ∧ parseArg st tok = Except.ok { st with is_help := true }) ∧
    (∀ tok ∈ abbreviations "usage".toList, tok.length = 2 →
      parseArg st tok = Except.ok { st with is_lower := false }) ∧
    (abbreviations "usage".toList).filter (fun tok => tok.length = 2) =
      ["-u".toList, "-U".toList, "/u".toList, "/U".toList] ∧
    ((abbreviations "usage".toList).filter (fun tok => 3 ≤ tok.length)).length = 120 := by
  refine ⟨?_, ?_, by decide, by decide⟩
  · intro tok h h3
    have hk := (abbreviations_usage tok h).1 h3
    exact ⟨recognized_of_classify tok _ hk (by decide), by rw [parseArg_eq, hk]; rfl⟩
  · intro tok h h2
    have hk := (abbreviations_usage tok h).2 h2
    rw [parseArg_eq, hk]
    rfl

/-! ## Membership in a match attempt -/

/-- Folding to lower case leaves a character below `A` alone, and only that character folds
to it. -/
theorem toLower_eq_iff (c t : Char) (ht : t.toNat < 65) : c.toLower = t ↔ c = t := by
  unfold Char.toLower
  by_cases h : c.toNat ≥ 65 ∧ c.toNat ≤ 90
  · simp only [h, and_self, if_true]
    constructor
    · intro e
      exfalso
      have e1 : (Char.ofNat (c.toNat + 32)).toNat = t.toNat := by rw [e]
      obtain ⟨h1, h2⟩ := h
      generalize c.toNat = n at h1 h2 e1
      interval_cases n <;> revert e1 <;> intro e1 <;>
        (have e2 : t.toNat ≥ 97 := by rw [← e1]; decide) <;> omega
    · intro e
      subst e
      omega
  · simp only [h, if_false]

theorem sameChar_icase (p c : Char) : sameChar true p c = true ↔ c.toLower = p.toLower := by
  simp only [sameChar, if_true, beq_iff_eq]
  exact eq_comm

theorem sameChar_case (p c : Char) : sameChar false p c = true ↔ c = p := by
  simp only [sameChar, Bool.false_eq_true, if_false, beq_iff_eq]
  exact eq_comm

theorem run_eps_iff (icase : Bool) (input : List Char) (st r : List Char × smatch) :
    r ∈ Regex.run icase input Regex.eps st ↔ r = st := by
  simp [Regex.run]

theorem run_eol_iff (icase : Bool) (input : List Char) (st r : List Char × smatch) :
    r ∈ Regex.run icase input Regex.eol st ↔ r = st ∧ st.1 = [] := by
  simp only [Regex.run]
  split_ifs with h
  · simp only [List.mem_singleton, List.isEmpty_iff] at h ⊢
    exact ⟨fun e => ⟨e, h⟩, fun e => e.1⟩
  · simp only [List.isEmpty_iff] at h
    simp [h]

theorem run_bol_iff (icase : Bool) (input : List Char) (st r : List Char × smatch) :
    r ∈ Regex.run icase input Regex.bol st ↔ r = st ∧ st.1.length = input.length := by
  simp only [Regex.run]
  split_ifs with h
  · simp [h]
  · simp [h]

theorem run_chr_iff (icase : Bool) (input : List Char) (p : Char)
    (st r : List Char × smatch) :
    r ∈ Regex.run icase input (Regex.chr p) st ↔
      ∃ c, st.1 = c :: r.1 ∧ sameChar icase p c = true ∧ r.2 = st.2 := by
  obtain ⟨s, caps⟩ := st
  obtain ⟨r1, r2⟩ := r
  cases s with
  | nil => simp [Regex.run]
  | cons c cs =>
    simp only [Regex.run]
    split_ifs with hs
    · simp only [List.mem_singleton, Prod.mk.injEq, List.cons.injEq]
      constructor
      · rintro ⟨rfl, rfl⟩
        exact ⟨c, ⟨rfl, rfl⟩, hs, rfl⟩
      · rintro ⟨c1, ⟨rfl, rfl⟩, -, rfl⟩
        exact ⟨rfl, rfl⟩
    · simp only [List.not_mem_nil, List.cons.injEq, false_iff, not_exists, not_and]
      rintro c1 ⟨rfl, -⟩ h2
      exact absurd h2 hs

theorem run_alt_iff (icase : Bool) (input : List Char) (a b : Regex)
    (st r : List Char × smatch) :
    r ∈ Regex.run icase input (Regex.alt a b) st ↔
      r ∈ Regex.run icase input a st ∨ r ∈ Regex.run icase input b st := by
  simp only [Regex.run, List.mem_append]

theorem run_opt_iff (icase : Bool) (input : List Char) (a : Regex)
    (st r : List Char × smatch) :
    r ∈ Regex.run icase input (Regex.opt a) st ↔
      r ∈ Regex.run icase input a st ∨ r = st := by
  simp only [Regex.run, List.mem_append, List.mem_singleton]

theorem run_group_iff (icase : Bool) (input : List Char) (a : Regex)
    (st r : List Char × smatch) :
    r ∈ Regex.run icase input (Regex.group a) st ↔
      ∃ m, m ∈ Regex.run icase input a st ∧
        r = (m.1, m.2 ++ [st.1.take (st.1.length - m.1.length)]) := by
  simp only [Regex.run, List.mem_map]
  constructor
  · rintro ⟨m, hm, rfl⟩
    exact ⟨m, hm, rfl⟩
  · rintro ⟨m, hm, rfl⟩
    exact ⟨m, hm, rfl⟩

/-- The ways `.*` matches: any prefix free of line terminators is consumed. -/
theorem dotStarFrom_iff (caps : smatch) (s : List Char) (r : List Char × smatch) :
    r ∈ dotStarFrom caps s ↔
      r.2 = caps ∧ ∃ taken, s = taken ++ r.1 ∧ ∀ c ∈ taken, isLineTerminator c = false := by
  obtain ⟨r1, r2⟩ := r
  induction s with
  | nil =>
    simp only [dotStarFrom, List.mem_singleton, Prod.mk.injEq]
    constructor
    · rintro ⟨rfl, rfl⟩
      exact ⟨rfl, [], rfl, by simp⟩
    · rintro ⟨rfl, taken, h, -⟩
      have := List.append_eq_nil.1 h.symm
      exact ⟨this.2, rfl⟩
  | cons c cs ih =>
    simp only [dotStarFrom]
    by_cases hc : isLineTerminator c = true
    · simp only [hc, if_true, List.mem_singleton, Prod.mk.injEq]
      constructor
      · rintro ⟨rfl, rfl⟩
        exact ⟨rfl, [], rfl, by simp⟩
      · rintro ⟨rfl, taken, h, hfree⟩
        cases taken with
        | nil => exact ⟨h.symm, rfl⟩
        | cons t ts =>
          simp only [List.cons_append, List.cons.injEq] at h
          have := hfree t (List.mem_cons_self _ _)
          rw [← h.1, hc] at this
          exact absurd this (by decide)
    · rw [if_neg hc, List.mem_append, List.mem_singleton, ih, Prod.mk.injEq]
      have hc' : isLineTerminator c = false := by simpa using hc
      constructor
      · rintro (⟨rfl, taken, h, hfree⟩ | ⟨rfl, rfl⟩)
        · refine ⟨rfl, c :: taken, by rw [h]; rfl, ?_⟩
          intro x hx
          rcases List.mem_cons.1 hx with rfl | hx
          · exact hc'
          · exact hfree x hx
        · exact ⟨rfl, [], rfl, by simp⟩
      · rintro ⟨rfl, taken, h, hfree⟩
        cases taken with
        | nil => exact Or.inr ⟨h.symm, rfl⟩
        | cons t ts =>
          simp only [List.cons_append, List.cons.injEq] at h
          exact Or.inl ⟨rfl, ts, h.2, fun x hx => hfree x (List.mem_cons_of_mem _ hx)⟩

/-- A pattern matches the whole subject exactly when some way of matching it leaves nothing
unread. -/
theorem regex_match_isSome (str : List Char) (r : regex) :
    (regex_match str r).isSome = true ↔
      ∃ st, st ∈ Regex.run r.icase str r.re (str, []) ∧ st.1 = [] := by
  simp only [regex_match, Option.isSome_map', List.find?_isSome, List.isEmpty_iff]

theorem regex_match_some (str : List Char) (r : regex) (sm : smatch)
    (h : regex_match str r = some sm) :
    ∃ st, st ∈ Regex.run r.icase str r.re (str, []) ∧ st.1 = [] ∧ st.2 = sm := by
  simp only [regex_match, Option.map_eq_some'] at h
  obtain ⟨st, hf, rfl⟩ := h
  exact ⟨st, List.mem_of_find?_eq_some hf, by simpa using List.find?_some hf, rfl⟩

/-- When every complete way of matching records the same sub-matches, those are the
result. -/
theorem regex_match_unique (str : List Char) (r : regex) (sm : smatch)
    (hex : ∃ st, st ∈ Regex.run r.icase str r.re (str, []) ∧ st.1 = [])
    (hall : ∀ st, st ∈ Regex.run r.icase str r.re (str, []) → st.1 = [] → st.2 = sm) :
    regex_match str r = some sm := by
  have hs := (regex_match_isSome str r).2 hex
  obtain ⟨sm1, h1⟩ := Option.isSome_iff_exists.1 hs
  obtain ⟨st, hm, he, h2⟩ := regex_match_some str r sm1 h1
  rw [h1, ← h2, hall st hm he]

/-! ## The keyword patterns -/

theorem run_opts_iff (input : List Char) (letters : List Char) (T : List Regex) :
    ∀ st r : List Char × smatch,
      r ∈ Regex.run true input (Regex.cat (optLetters letters ++ T)) st ↔
        ∃ w rest, st.1 = w ++ rest ∧
          List.Sublist (w.map Char.toLower) (letters.map Char.toLower) ∧
          r ∈ Regex.run true input (Regex.cat T) (rest, st.2) := by
  induction letters with
  | nil =>
    intro st r
    simp only [optLetters, List.map_nil, List.nil_append, List.sublist_nil, List.map_eq_nil_iff]
    constructor
    · intro h
      exact ⟨[], st.1, rfl, rfl, h⟩
    · rintro ⟨w, rest, h1, rfl, h2⟩
      simp only [List.nil_append] at h1
      rw [← h1] at h2
      exact h2
  | cons L Ls ih =>
    intro st r
    have hcat : Regex.cat (optLetters (L :: Ls) ++ T) =
        Regex.seq (Regex.opt (Regex.chr L)) (Regex.cat (optLetters Ls ++ T)) := rfl
    rw [hcat, run_seq_mem]
    constructor
    · rintro ⟨m, hm, hr⟩
      obtain ⟨w, rest, h1, h2, h3⟩ := (ih m r).1 hr
      rcases (run_opt_iff _ _ _ _ _).1 hm with hm | rfl
      · obtain ⟨c, e1, e2, e3⟩ := (run_chr_iff _ _ _ _ _).1 hm
        refine ⟨c :: w, rest, by rw [e1, h1]; rfl, ?_, by rw [← e3]; exact h3⟩
        rw [List.map_cons, List.map_cons, (sameChar_icase L c).1 e2]
        exact List.cons_sublist_cons.2 h2
      · exact ⟨w, rest, h1, List.Sublist.cons _ h2, h3⟩
    · rintro ⟨w, rest, h1, h2, h3⟩
      rw [List.map_cons, List.sublist_cons_iff] at h2
      rcases h2 with h2 | ⟨s, e, h2⟩
      · exact ⟨st, (run_opt_iff _ _ _ _ _).2 (Or.inr rfl), (ih st r).2 ⟨w, rest, h1, h2, h3⟩⟩
      · cases w with
        | nil => simp at e
        | cons c w1 =>
          simp only [List.map_cons, List.cons.injEq] at e
          refine ⟨(w1 ++ rest, st.2), (run_opt_iff _ _ _ _ _).2 (Or.inl ?_), ?_⟩
          · exact (run_chr_iff _ _ _ _ _).2 ⟨c, by rw [h1]; rfl, (sameChar_icase L c).2 e.1, rfl⟩
          · exact (ih _ r).2 ⟨w1, rest, rfl, by rw [e.2]; exact h2, h3⟩

theorem run_keyword_iff (input : List Char) (H : Char) (letters : List Char) (T : List Regex)
    (st r : List Char × smatch) :
    r ∈ Regex.run true input (Regex.cat (Regex.chr H :: optLetters letters ++ T)) st ↔
      ∃ w rest, st.1 = w ++ rest ∧
        (∃ s, w.map Char.toLower = H.toLower :: s ∧
          List.Sublist s (letters.map Char.toLower)) ∧
        r ∈ Regex.run true input (Regex.cat T) (rest, st.2) := by
  have hcat : Regex.cat (Regex.chr H :: optLetters letters ++ T) =
      Regex.seq (Regex.chr H) (Regex.cat (optLetters letters ++ T)) := rfl
  rw [hcat, run_seq_mem]
  constructor
  · rintro ⟨m, hm, hr⟩
    obtain ⟨c, e1, e2, e3⟩ := (run_chr_iff _ _ _ _ _).1 hm
    obtain ⟨w, rest, h1, h2, h3⟩ := (run_opts_iff input letters T m r).1 hr
    refine ⟨c :: w, rest, by rw [e1, h1]; rfl, ⟨w.map Char.toLower, ?_, h2⟩, by rw [← e3]; exact h3⟩
    rw [List.map_cons, (sameChar_icase H c).1 e2]
  · rintro ⟨w, rest, h1, ⟨s, e, h2⟩, h3⟩
    cases w with
    | nil => simp at e
    | cons c w1 =>
      simp only [List.map_cons, List.cons.injEq] at e
      refine ⟨(w1 ++ rest, st.2), ?_, ?_⟩
      · exact (run_chr_iff _ _ _ _ _).2 ⟨c, by rw [h1]; rfl, (sameChar_icase H c).2 e.1, rfl⟩
      · exact (run_opts_iff input letters T _ r).2 ⟨w1, rest, rfl, by rw [e.2]; exact h2, h3⟩

theorem run_introducer_iff (input : List Char) (st r : List Char × smatch) :
    r ∈ Regex.run true input introducer st ↔
      ∃ c, st.1 = c :: r.1 ∧ (c = '-' ∨ c = '/') ∧ r.2 = st.2 := by
  have h1 : ∀ c : Char, sameChar true '-' c = true ↔ c = '-' := fun c => by
    rw [sameChar_icase, show ('-' : Char).toLower = '-' by decide]
    exact toLower_eq_iff c '-' (by decide)
  have h2 : ∀ c : Char, sameChar true '/' c = true ↔ c = '/' := fun c => by
    rw [sameChar_icase, show ('/' : Char).toLower = '/' by decide]
    exact toLower_eq_iff c '/' (by decide)
  simp only [introducer, run_alt_iff, run_chr_iff, h1, h2]
  constructor
  · rintro (⟨c, e1, e2, e3⟩ | ⟨c, e1, e2, e3⟩)
    · exact ⟨c, e1, Or.inl e2, e3⟩
    · exact ⟨c, e1, Or.inr e2, e3⟩
  · rintro ⟨c, e1, e2 | e2, e3⟩
    · exact Or.inl ⟨c, e1, e2, e3⟩
    · exact Or.inr ⟨c, e1, e2, e3⟩

theorem run_separator_iff (input : List Char) (st r : List Char × smatch) :
    r ∈ Regex.run true input separator st ↔
      ∃ c, st.1 = c :: r.1 ∧ (c = '=' ∨ c = ':') ∧ r.2 = st.2 := by
  have h1 : ∀ c : Char, sameChar true '=' c = true ↔ c = '=' := fun c => by
    rw [sameChar_icase, show ('=' : Char).toLower = '=' by decide]
    exact toLower_eq_iff c '=' (by decide)
  have h2 : ∀ c : Char, sameChar true ':' c = true ↔ c = ':' := fun c => by
    rw [sameChar_icase, show (':' : Char).toLower = ':' by decide]
    exact toLower_eq_iff c ':' (by decide)
  simp only [separator, run_alt_iff, run_chr_iff, h1, h2]
  constructor
  · rintro (⟨c, e1, e2, e3⟩ | ⟨c, e1, e2, e3⟩)
    · exact ⟨c, e1, Or.inl e2, e3⟩
    · exact ⟨c, e1, Or.inr e2, e3⟩
  · rintro ⟨c, e1, e2 | e2, e3⟩
    · exact Or.inl ⟨c, e1, e2, e3⟩
    · exact Or.inr ⟨c, e1, e2, e3⟩

/-- The patterns `^(-|\/)K...$` with every letter after the first optional: the complete
matches. -/
theorem keyword_pattern_iff (H : Char) (letters str : List Char) :
    (∃ st, st ∈ Regex.run true str
        (Regex.cat (Regex.bol :: Regex.group introducer :: Regex.chr H ::
          optLetters letters ++ [Regex.eol])) (str, []) ∧ st.1 = []) ↔
      ∃ i w, str = i :: w ∧ (i = '-' ∨ i = '/') ∧
        ∃ s, w.map Char.toLower = H.toLower :: s ∧
          List.Sublist s (letters.map Char.toLower) := by
  have hcat : Regex.cat (Regex.bol :: Regex.group introducer :: Regex.chr H ::
      optLetters letters ++ [Regex.eol]) =
      Regex.seq Regex.bol (Regex.seq (Regex.group introducer)
        (Regex.cat (Regex.chr H :: optLetters letters ++ [Regex.eol]))) := rfl
  have hend : Regex.cat [Regex.eol] = Regex.seq Regex.eol Regex.eps := rfl
  rw [hcat]
  constructor
  · rintro ⟨st, hst, hempty⟩
    obtain ⟨m1, hm1, hst⟩ := (run_seq_mem _ _ _ _ _ _).1 hst
    obtain ⟨m2, hm2, hst⟩ := (run_seq_mem _ _ _ _ _ _).1 hst
    obtain ⟨rfl, -⟩ := (run_bol_iff _ _ _ _).1 hm1
    obtain ⟨m, hm, rfl⟩ := (run_group_iff _ _ _ _ _).1 hm2
    obtain ⟨i, e1, e2, -⟩ := (run_introducer_iff _ _ _).1 hm
    obtain ⟨w, rest, h1, h2, h3⟩ := (run_keyword_iff _ _ _ _ _ _).1 hst
    rw [hend, run_seq_mem] at h3
    obtain ⟨m3, hm3, -⟩ := h3
    obtain ⟨-, h4⟩ := (run_eol_iff _ _ _ _).1 hm3
    simp only at h1 h4 e1
    refine ⟨i, w, ?_, e2, h2⟩
    rw [e1, h1, h4, List.append_nil]
  · rintro ⟨i, w, rfl, hi, hs⟩
    refine ⟨([], [] ++ [[i]]), ?_, rfl⟩
    refine (run_seq_mem _ _ _ _ _ _).2 ⟨(i :: w, []), (run_bol_iff _ _ _ _).2 ⟨rfl, rfl⟩, ?_⟩
    refine (run_seq_mem _ _ _ _ _ _).2 ⟨(w, [] ++ [[i]]), ?_, ?_⟩
    · refine (run_group_iff _ _ _ _ _).2 ⟨(w, []), ?_, ?_⟩
      · exact (run_introducer_iff _ _ _).2 ⟨i, rfl, hi, rfl⟩
      · simp
    · refine (run_keyword_iff _ _ _ _ _ _).2 ⟨w, [], by simp, hs, ?_⟩
      rw [hend, run_seq_mem]
      exact ⟨([], [] ++ [[i]]), (run_eol_iff _ _ _ _).2 ⟨rfl, rfl⟩,
        (run_eps_iff _ _ _ _).2 rfl⟩

/-- The patterns `^(?:-|\/)K...(?:=|\:)(.*)$`: the complete matches and what they record. -/
theorem valued_pattern_iff (H : Char) (letters str : List Char) (st : List Char × smatch) :
    (st ∈ Regex.run true str
        (Regex.cat (Regex.bol :: introducer :: Regex.chr H ::
          optLetters letters ++ [separator, Regex.group Regex.dotStar, Regex.eol])) (str, []) ∧
      st.1 = []) ↔
      ∃ i w sep v, str = i :: (w ++ sep :: v) ∧ (i = '-' ∨ i = '/') ∧ (sep = '=' ∨ sep = ':') ∧
        (∃ s, w.map Char.toLower = H.toLower :: s ∧
          List.Sublist s (letters.map Char.toLower)) ∧
        (∀ c ∈ v, isLineTerminator c = false) ∧ st = ([], [v]) := by
  have hcat : Regex.cat (Regex.bol :: introducer :: Regex.chr H ::
      optLetters letters ++ [separator, Regex.group Regex.dotStar, Regex.eol]) =
      Regex.seq Regex.bol (Regex.seq introducer
        (Regex.cat (Regex.chr H :: optLetters letters ++
          [separator, Regex.group Regex.dotStar, Regex.eol]))) := rfl
  have hend : Regex.cat [separator, Regex.group Regex.dotStar, Regex.eol] =
      Regex.seq separator (Regex.seq (Regex.group Regex.dotStar)
        (Regex.seq Regex.eol Regex.eps)) := rfl
  have hdot : ∀ (s : List Char × smatch) (r : List Char × smatch),
      r ∈ Regex.run true str Regex.dotStar s ↔ r ∈ dotStarFrom s.2 s.1 := fun s r => by
    simp only [Regex.run]
  rw [hcat]
  constructor
  · rintro ⟨hst, hempty⟩
    obtain ⟨m1, hm1, hst1⟩ := (run_seq_mem _ _ _ _ _ _).1 hst
    obtain ⟨rfl, -⟩ := (run_bol_iff _ _ _ _).1 hm1
    obtain ⟨m2, hm2, hst2⟩ := (run_seq_mem _ _ _ _ _ _).1 hst1
    obtain ⟨i, e1, e2, e3⟩ := (run_introducer_iff _ _ _).1 hm2
    obtain ⟨w, rest, h1, h2, h3⟩ := (run_keyword_iff _ _ _ _ _ _).1 hst2
    rw [hend] at h3
    obtain ⟨m3, hm3, h3⟩ := (run_seq_mem _ _ _ _ _ _).1 h3
    obtain ⟨m4, hm4, h3⟩ := (run_seq_mem _ _ _ _ _ _).1 h3
    obtain ⟨m5, hm5, h3⟩ := (run_seq_mem _ _ _ _ _ _).1 h3
    obtain ⟨sep, s1, s2, s3⟩ := (run_separator_iff _ _ _).1 hm3
    obtain ⟨m, hm, rfl⟩ := (run_group_iff _ _ _ _ _).1 hm4
    obtain ⟨d1, taken, d2, d3⟩ := (dotStarFrom_iff _ _ _).1 ((hdot _ _).1 hm)
    obtain ⟨rfl, h4⟩ := (run_eol_iff _ _ _ _).1 hm5
    have h5 := (run_eps_iff _ _ _ _).1 h3
    simp only at h1 h4 e1 e3 s1 s3 d1 d2
    rw [h4, List.append_nil] at d2
    refine ⟨i, w, sep, m3.1, ?_, e2, s2, h2, ?_, ?_⟩
    · rw [e1, h1, s1]
    · rw [d2]
      exact d3
    · rw [h5, h4, d1, s3, e3]
      simp
  · rintro ⟨i, w, sep, v, rfl, hi, hsep, hs, hv, rfl⟩
    refine ⟨?_, rfl⟩
    refine (run_seq_mem _ _ _ _ _ _).2
      ⟨(i :: (w ++ sep :: v), []), (run_bol_iff _ _ _ _).2 ⟨rfl, rfl⟩, ?_⟩
    refine (run_seq_mem _ _ _ _ _ _).2
      ⟨(w ++ sep :: v, []), (run_introducer_iff _ _ _).2 ⟨i, rfl, hi, rfl⟩, ?_⟩
    refine (run_keyword_iff _ _ _ _ _ _).2 ⟨w, sep :: v, rfl, hs, ?_⟩
    rw [hend]
    refine (run_seq_mem _ _ _ _ _ _).2
      ⟨(v, []), (run_separator_iff _ _ _).2 ⟨sep, rfl, hsep, rfl⟩, ?_⟩
    refine (run_seq_mem _ _ _ _ _ _).2 ⟨([], [v]), ?_, ?_⟩
    · refine (run_group_iff _ _ _ _ _).2 ⟨([], []), ?_, by simp⟩
      exact (hdot _ _).2 ((dotStarFrom_iff _ _ _).2 ⟨rfl, v, by simp, hv⟩)
    · exact (run_seq_mem _ _ _ _ _ _).2
        ⟨([], [v]), (run_eol_iff _ _ _ _).2 ⟨rfl, rfl⟩, (run_eps_iff _ _ _ _).2 rfl⟩

/-- Where a word without separators ends and the value begins is determined by the text. -/
theorem value_unique (w w1 : List Char) :
    ∀ (sep sep1 : Char) (v v1 : List Char),
      (∀ c ∈ w, c ≠ '=' ∧ c ≠ ':') → (∀ c ∈ w1, c ≠ '=' ∧ c ≠ ':') →
      (sep = '=' ∨ sep = ':') → (sep1 = '=' ∨ sep1 = ':') →
      w ++ sep :: v = w1 ++ sep1 :: v1 → v = v1 := by
  induction w generalizing w1 with
  | nil =>
    intro sep sep1 v v1 _ hw1 hs _ h
    cases w1 with
    | nil =>
      simp only [List.nil_append, List.cons.injEq] at h
      exact h.2
    | cons b w2 =>
      simp only [List.nil_append, List.cons_append, List.cons.injEq] at h
      have := hw1 b (List.mem_cons_self _ _)
      rw [← h.1] at this
      rcases hs with rfl | rfl
      · exact absurd rfl this.1
      · exact absurd rfl this.2
  | cons a w2 ih =>
    intro sep sep1 v v1 hw hw1 hs hs1 h
    cases w1 with
    | nil =>
      simp only [List.nil_append, List.cons_append, List.cons.injEq] at h
      have := hw a (List.mem_cons_self _ _)
      rw [h.1] at this
      rcases hs1 with rfl | rfl
      · exact absurd rfl this.1
      · exact absurd rfl this.2
    | cons b w3 =>
      simp only [List.cons_append, List.cons.injEq] at h
      exact ih w3 sep sep1 v v1 (fun c hc => hw c (List.mem_cons_of_mem _ hc))
        (fun c hc => hw1 c (List.mem_cons_of_mem _ hc)) hs hs1 h.2

/-- A spelled word holds no separator when the keyword holds none. -/
theorem spelled_no_separator (w : List Char) (h : Char) (ls : List Char)
    (hs : ∃ s, w.map Char.toLower = h :: s ∧ List.Sublist s ls)
    (hk : ∀ x ∈ h :: ls, x ≠ '=' ∧ x ≠ ':') : ∀ c ∈ w, c ≠ '=' ∧ c ≠ ':' := by
  obtain ⟨s, e, hsub⟩ := hs
  intro c hc
  have hmem : c.toLower ∈ h :: ls := by
    have h1 : c.toLower ∈ w.map Char.toLower := List.mem_map_of_mem _ hc
    rw [e] at h1
    rcases List.mem_cons.1 h1 with h2 | h2
    · rw [h2]
      exact List.mem_cons_self _ _
    · exact List.mem_cons_of_mem _ (hsub.subset h2)
  constructor
  · rintro rfl
    exact (hk _ hmem).1 (by decide)
  · rintro rfl
    exact (hk _ hmem).2 (by decide)


/-! ## What each pattern matches -/

/-- A pattern `^(-|\/)K...$` matches exactly the options spelled after its keyword. -/
theorem option_match (r : regex) (keyword : List Char) (H : Char) (letters : List Char)
    (hre : r.re = Regex.cat (Regex.bol :: Regex.group introducer :: Regex.chr H ::
      optLetters letters ++ [Regex.eol]))
    (hic : r.icase = true) (hH : H.toLower = keyword.headD (Char.ofNat 32))
    (hL : letters.map Char.toLower = keyword.tail) (str : List Char) :
    (regex_match str r).isSome = true ↔ isOption keyword str := by
  rw [regex_match_isSome, hre, hic, keyword_pattern_iff, hH, hL]
  rfl

/-- A pattern `^(?:-|\/)K...(?:=|\:)(.*)$` matches exactly the valued options spelled after
its keyword, and records the value. -/
theorem valued_match (r : regex) (keyword : List Char) (H : Char) (letters : List Char)
    (hre : r.re = Regex.cat (Regex.bol :: introducer :: Regex.chr H ::
      optLetters letters ++ [separator, Regex.group Regex.dotStar, Regex.eol]))
    (hic : r.icase = true) (hH : H.toLower = keyword.headD (Char.ofNat 32))
    (hL : letters.map Char.toLower = keyword.tail)
    (hk : ∀ x ∈ keyword.headD (Char.ofNat 32) :: keyword.tail, x ≠ '=' ∧ x ≠ ':')
    (str : List Char) (sm : smatch) :
    regex_match str r = some sm ↔ ∃ v, isValued keyword str v ∧ sm = [v] := by
  constructor
  · intro h
    obtain ⟨st, hm, he, h2⟩ := regex_match_some str r sm h
    rw [hre, hic] at hm
    obtain ⟨i, w, sep, v, e, hi, hsep, hs, hv, rfl⟩ :=
      (valued_pattern_iff H letters str st).1 ⟨hm, he⟩
    rw [hH, hL] at hs
    exact ⟨v, ⟨i, w, sep, e, hi, hsep, hs, hv⟩, h2.symm⟩
  · rintro ⟨v, ⟨i, w, sep, e, hi, hsep, hs, hv⟩, rfl⟩
    apply regex_match_unique
    · rw [hre, hic]
      exact ⟨([], [v]), ((valued_pattern_iff H letters str _).2
        ⟨i, w, sep, v, e, hi, hsep, by rw [hH, hL]; exact hs, hv, rfl⟩).1, rfl⟩
    · intro st hm he
      rw [hre, hic] at hm
      obtain ⟨i1, w1, sep1, v1, e1, hi1, hsep1, hs1, hv1, rfl⟩ :=
        (valued_pattern_iff H letters str st).1 ⟨hm, he⟩
      rw [hH, hL] at hs1
      have hv1 : v = v1 := by
        rw [e] at e1
        injection e1 with _ e2
        exact value_unique w w1 sep sep1 v v1 (spelled_no_separator w _ _ hs hk)
          (spelled_no_separator w1 _ _ hs1 hk) hsep hsep1 e2
      rw [hv1]

theorem reClip_iff (str : List Char) :
    (regex_match str reClip).isSome = true ↔ isOption "clip".toList str :=
  option_match reClip "clip".toList 'C' ['L', 'I', 'P'] rfl rfl (by decide) (by decide) str

theorem reQuiet_iff (str : List Char) :
    (regex_match str reQuiet).isSome = true ↔ isOption "quiet".toList str :=
  option_match reQuiet "quiet".toList 'Q' ['U', 'I', 'E', 'T'] rfl rfl (by decide) (by decide) str

theorem reGUID_iff (str : List Char) :
    (regex_match str reGUID).isSome = true ↔ isOption "guid".toList str :=
  option_match reGUID "guid".toList 'G' ['U', 'I', 'D'] rfl rfl (by decide) (by decide) str

theorem reDelim2_iff (str : List Char) :
    (regex_match str reDelim2).isSome = true ↔ isOption "delim".toList str :=
  option_match reDelim2 "delim".toList 'D' ['E', 'L', 'I', 'M'] rfl rfl (by decide) (by decide) str

theorem reDelim1_iff (str : List Char) (sm : smatch) :
    regex_match str reDelim1 = some sm ↔ ∃ v, isValued "delim".toList str v ∧ sm = [v] :=
  valued_match reDelim1 "delim".toList 'D' ['E', 'L', 'I', 'M'] rfl rfl (by decide) (by decide)
    (by decide) str sm

theorem reGenNumber_iff (str : List Char) (sm : smatch) :
    regex_match str reGenNumber = some sm ↔ ∃ v, isValued "number".toList str v ∧ sm = [v] :=
  valued_match reGenNumber "number".toList 'N' ['U', 'M', 'B', 'E', 'R'] rfl rfl (by decide)
    (by decide) (by decide) str sm

/-! ## The pattern a token can match -/

theorem letterAt_spelled (i : Char) (w rest : List Char) (h : Char) (s : List Char)
    (e : w.map Char.toLower = h :: s) : letterAt (i :: (w ++ rest)) 1 = some h := by
  cases w with
  | nil => simp at e
  | cons c w1 =>
    simp only [List.map_cons, List.cons.injEq] at e
    simp [letterAt, e.1]

theorem letterAt_option (keyword str : List Char) (h : isOption keyword str) :
    letterAt str 1 = some (keyword.headD (Char.ofNat 32)) := by
  obtain ⟨i, w, rfl, -, s, e, -⟩ := h
  have := letterAt_spelled i w [] _ s e
  rwa [List.append_nil] at this

theorem letterAt_valued (keyword str value : List Char) (h : isValued keyword str value) :
    letterAt str 1 = some (keyword.headD (Char.ofNat 32)) := by
  obtain ⟨i, w, sep, rfl, -, -, ⟨s, e, -⟩, -⟩ := h
  exact letterAt_spelled i w _ _ s e

theorem hasSeparator_valued (keyword str value : List Char) (h : isValued keyword str value) :
    hasSeparator str = true := by
  obtain ⟨i, w, sep, rfl, -, hsep, -, -⟩ := h
  simp only [hasSeparator, List.any_cons, List.any_append, Bool.or_eq_true, beq_iff_eq]
  rcases hsep with rfl | rfl
  · exact Or.inr (Or.inr (Or.inl (Or.inl rfl)))
  · exact Or.inr (Or.inr (Or.inl (Or.inr rfl)))

theorem hasSeparator_option (keyword str : List Char) (h : isOption keyword str)
    (hk : ∀ x ∈ keyword.headD (Char.ofNat 32) :: keyword.tail, x ≠ '=' ∧ x ≠ ':') :
    hasSeparator str = false := by
  obtain ⟨i, w, rfl, hi, hs⟩ := h
  have hw := spelled_no_separator w _ _ hs hk
  simp only [hasSeparator, List.any_cons, Bool.or_eq_false_iff, beq_eq_false_iff_ne, ne_eq,
    List.any_eq_false, Bool.or_eq_true, beq_iff_eq, not_or]
  refine ⟨?_, fun c hc => hw c hc⟩
  rcases hi with rfl | rfl <;> exact ⟨by decide, by decide⟩

theorem slot_clip (str : List Char) (h : (regex_match str reClip).isSome = true) :
    slot str = 0 := by
  have h1 := letterAt_option _ _ ((reClip_iff str).1 h)
  have h2 : letterAt str 1 = some 'c' := h1
  simp [slot, h2]

theorem slot_quiet (str : List Char) (h : (regex_match str reQuiet).isSome = true) :
    slot str = 1 := by
  have h1 := letterAt_option _ _ ((reQuiet_iff str).1 h)
  have h2 : letterAt str 1 = some 'q' := h1
  simp [slot, h2]

theorem slot_guid (str : List Char) (h : (regex_match str reGUID).isSome = true) :
    slot str = 4 := by
  have h1 := letterAt_option _ _ ((reGUID_iff str).1 h)
  have h2 : letterAt str 1 = some 'g' := h1
  simp [slot, h2]

theorem slot_bareDelim (str : List Char) (h : (regex_match str reDelim2).isSome = true) :
    slot str = 7 := by
  have h0 := (reDelim2_iff str).1 h
  have h1 := letterAt_option _ _ h0
  have h2 : letterAt str 1 = some 'd' := h1
  have h3 := hasSeparator_option _ _ h0 (by decide)
  simp [slot, h2, h3]

theorem slot_delim (str : List Char) (h : (regex_match str reDelim1).isSome = true) :
    slot str = 6 := by
  obtain ⟨sm, hsm⟩ := Option.isSome_iff_exists.1 h
  obtain ⟨v, h0, -⟩ := (reDelim1_iff str sm).1 hsm
  have h1 := letterAt_valued _ _ _ h0
  have h2 : letterAt str 1 = some 'd' := h1
  have h3 := hasSeparator_valued _ _ _ h0
  simp [slot, h2, h3]

theorem slot_number (str : List Char) (h : (regex_match str reGenNumber).isSome = true) :
    slot str = 8 := by
  obtain ⟨sm, hsm⟩ := Option.isSome_iff_exists.1 h
  obtain ⟨v, h0, -⟩ := (reGenNumber_iff str sm).1 hsm
  have h1 := letterAt_valued _ _ _ h0
  have h2 : letterAt str 1 = some 'n' := h1
  simp [slot, h2]

/-- The start of a pattern `^(-|\/)...`: the introducer is read and the rest goes on. -/
theorem run_start (input : List Char) (R : Regex) (st : List Char × smatch)
    (h : st ∈ Regex.run true input
      (Regex.seq Regex.bol (Regex.seq (Regex.group introducer) R)) (input, [])) :
    ∃ i rest caps, input = i :: rest ∧ (i = '-' ∨ i = '/') ∧
      st ∈ Regex.run true input R (rest, caps) := by
  obtain ⟨m1, hm1, h1⟩ := (run_seq_mem _ _ _ _ _ _).1 h
  obtain ⟨rfl, -⟩ := (run_bol_iff _ _ _ _).1 hm1
  obtain ⟨m2, hm2, h2⟩ := (run_seq_mem _ _ _ _ _ _).1 h1
  obtain ⟨m, hm, rfl⟩ := (run_group_iff _ _ _ _ _).1 hm2
  obtain ⟨i, e1, e2, -⟩ := (run_introducer_iff _ _ _).1 hm
  exact ⟨i, m.1, _, e1, e2, h2⟩

/-- A letter of a pattern: the next character is that letter in either case. -/
theorem run_letter (input : List Char) (H : Char) (R : Regex) (s : List Char) (caps : smatch)
    (st : List Char × smatch)
    (h : st ∈ Regex.run true input (Regex.seq (Regex.chr H) R) (s, caps)) :
    ∃ c rest, s = c :: rest ∧ c.toLower = H.toLower ∧
      st ∈ Regex.run true input R (rest, caps) := by
  obtain ⟨m, hm, h1⟩ := (run_seq_mem _ _ _ _ _ _).1 h
  obtain ⟨c, e1, e2, e3⟩ := (run_chr_iff _ _ _ _ _).1 hm
  refine ⟨c, m.1, e1, (sameChar_icase H c).1 e2, ?_⟩
  have e4 : m = (m.1, caps) := Prod.ext rfl e3
  rw [← e4]
  exact h1

theorem slot_lower (str : List Char) (h : (regex_match str reLower).isSome = true) :
    slot str = 2 := by
  obtain ⟨st, hst, -⟩ := (regex_match_isSome str reLower).1 h
  obtain ⟨i, rest, caps, rfl, -, h1⟩ := run_start _ _ _ hst
  obtain ⟨c, rest1, rfl, hc, -⟩ := run_letter _ _ _ _ _ _ h1
  have h2 : letterAt (i :: c :: rest1) 1 = some 'l' := by
    simp only [letterAt, List.get?_cons_succ, List.get?_cons_zero, Option.map_some', hc]
    rfl
  simp [slot, h2]

theorem slot_upper (str : List Char) (h : (regex_match str reUpper).isSome = true) :
    slot str = 3 := by
  obtain ⟨st, hst, -⟩ := (regex_match_isSome str reUpper).1 h
  obtain ⟨i, rest, caps, rfl, -, h1⟩ := run_start _ _ _ hst
  obtain ⟨c, rest1, rfl, hc, h3⟩ := run_letter _ _ _ _ _ _ h1
  have h2 : letterAt (i :: c :: rest1) 1 = some 'u' := by
    simp only [letterAt, List.get?_cons_succ, List.get?_cons_zero, Option.map_some', hc]
    rfl
  have h4 : letterAt (i :: c :: rest1) 2 ≠ some 's' := by
    obtain ⟨m, hm, h5⟩ := (run_seq_mem _ _ _ _ _ _).1 h3
    rcases (run_opt_iff _ _ _ _ _).1 hm with hm | rfl
    · obtain ⟨m1, hm1, -⟩ := (run_group_iff _ _ _ _ _).1 hm
      rcases (run_alt_iff _ _ _ _ _ _).1 hm1 with hm1 | hm1
      · obtain ⟨d, e1, e2, -⟩ := (run_chr_iff _ _ _ _ _).1 hm1
        simp only at e1
        rw [e1]
        simp only [letterAt, List.get?_cons_succ, List.get?_cons_zero, Option.map_some',
          (sameChar_icase _ _).1 e2]
        decide
      · obtain ⟨d, rest2, e1, e2, -⟩ := run_letter _ _ _ _ _ _ hm1
        rw [e1]
        simp only [letterAt, List.get?_cons_succ, List.get?_cons_zero, Option.map_some', e2]
        decide
    · obtain ⟨m2, hm2, -⟩ := (run_seq_mem _ _ _ _ _ _).1 h5
      obtain ⟨-, e⟩ := (run_eol_iff _ _ _ _).1 hm2
      simp only at e
      rw [e]
      simp [letterAt]
  simp [slot, h2, h4]

theorem slot_help (str : List Char) (h : (regex_match str reHelp).isSome = true) :
    slot str = 5 := by
  obtain ⟨st, hst, -⟩ := (regex_match_isSome str reHelp).1 h
  obtain ⟨i, rest, caps, rfl, -, h1⟩ := run_start _ _ _ hst
  obtain ⟨m, hm, -⟩ := (run_seq_mem _ _ _ _ _ _).1 h1
  obtain ⟨m1, hm1, -⟩ := (run_group_iff _ _ _ _ _).1 hm
  rcases (run_alt_iff _ _ _ _ _ _).1 hm1 with hm1 | hm1
  · obtain ⟨c, e1, e2, -⟩ := (run_chr_iff _ _ _ _ _).1 hm1
    simp only at e1
    have h2 : letterAt (i :: rest) 1 = some '?' := by
      rw [e1]
      simp only [letterAt, List.get?_cons_succ, List.get?_cons_zero, Option.map_some',
        (sameChar_icase _ _).1 e2]
      rfl
    simp [slot, h2]
  · rcases (run_alt_iff _ _ _ _ _ _).1 hm1 with hm1 | hm1
    · obtain ⟨c, rest1, rfl, hc, -⟩ := run_letter _ _ _ _ _ _ hm1
      have h2 : letterAt (i :: c :: rest1) 1 = some 'h' := by
        simp only [letterAt, List.get?_cons_succ, List.get?_cons_zero, Option.map_some', hc]
        rfl
      simp [slot, h2]
    · obtain ⟨c, rest1, rfl, hc, h3⟩ := run_letter _ _ _ _ _ _ hm1
      obtain ⟨d, rest2, rfl, hd, -⟩ := run_letter _ _ _ _ _ _ h3
      have h2 : letterAt (i :: c :: d :: rest2) 1 = some 'u' := by
        simp only [letterAt, List.get?_cons_succ, List.get?_cons_zero, Option.map_some', hc]
        rfl
      have h4 : letterAt (i :: c :: d :: rest2) 2 = some 's' := by
        simp only [letterAt, List.get?_cons_succ, List.get?_cons_zero, Option.map_some', hd]
        rfl
      simp [slot, h2, h4]

/-! ## At most one pattern matches -/

/-- A token that matches the pattern at position `i` of the table has `slot` equal to `i`. -/
theorem slot_of_branch (str : List Char) (i : Nat) (h : i < branches.length)
    (hm : (regex_match str (branches.get ⟨i, h⟩).1).isSome = true) : slot str = i := by
  have h9 : i < 9 := h
  interval_cases i
  · exact slot_clip str hm
  · exact slot_quiet str hm
  · exact slot_lower str hm
  · exact slot_upper str hm
  · exact slot_guid str hm
  · exact slot_help str hm
  · exact slot_delim str hm
  · exact slot_bareDelim str hm
  · exact slot_number str hm

/-- Two branches whose patterns both match a token are the same branch. -/
theorem branch_unique (str : List Char) (a b : regex × (smatch → ArgKind))
    (ha : a ∈ branches) (hb : b ∈ branches)
    (hma : (regex_match str a.1).isSome = true) (hmb : (regex_match str b.1).isSome = true) :
    a = b := by
  obtain ⟨i, ea⟩ := List.mem_iff_get.1 ha
  obtain ⟨j, eb⟩ := List.mem_iff_get.1 hb
  obtain ⟨i, hi⟩ := i
  obtain ⟨j, hj⟩ := j
  rw [← ea] at hma
  rw [← eb] at hmb
  have h1 := slot_of_branch str i hi hma
  have h2 := slot_of_branch str j hj hmb
  have h3 : i = j := by rw [← h1, ← h2]
  subst h3
  rw [← ea, ← eb]

theorem branch_results (str : List Char) (a b : regex × (smatch → ArgKind))
    (ha : a ∈ branches) (hb : b ∈ branches) (x y : ArgKind)
    (hx : (regex_match str a.1).map a.2 = some x) (hy : (regex_match str b.1).map b.2 = some y) :
    x = y := by
  have hma : (regex_match str a.1).isSome = true := by
    cases h : regex_match str a.1 with
    | none => rw [h] at hx; cases hx
    | some sm => rfl
  have hmb : (regex_match str b.1).isSome = true := by
    cases h : regex_match str b.1 with
    | none => rw [h] at hy; cases hy
    | some sm => rfl
  have e := branch_unique str a b ha hb hma hmb
  subst e
  rw [hx] at hy
  exact Option.some.inj hy

/-- When all successes agree, the first success is any success. -/
theorem findSome_unique {α β : Type} (f : α → Option β) (l : List α)
    (hu : ∀ a ∈ l, ∀ b ∈ l, ∀ x y, f a = some x → f b = some y → x = y)
    (a : α) (ha : a ∈ l) (x : β) (hfa : f a = some x) : l.findSome? f = some x := by
  cases h : l.findSome? f with
  | none =>
    rw [List.findSome?_eq_none_iff] at h
    rw [h a ha] at hfa
    cases hfa
  | some y =>
    obtain ⟨b, hb, hfb⟩ := List.exists_of_findSome?_eq_some h
    rw [hu b hb a ha y x hfb hfa]

/-- When all successes agree, the first success does not depend on the order. -/
theorem findSome_perm {α β : Type} (f : α → Option β) (l1 l2 : List α) (hp : l2.Perm l1)
    (hu : ∀ a ∈ l1, ∀ b ∈ l1, ∀ x y, f a = some x → f b = some y → x = y) :
    l2.findSome? f = l1.findSome? f := by
  cases h1 : l1.findSome? f with
  | none =>
    rw [List.findSome?_eq_none_iff] at h1 ⊢
    intro x hx
    exact h1 x (hp.mem_iff.1 hx)
  | some x =>
    obtain ⟨a, ha, hfa⟩ := List.exists_of_findSome?_eq_some h1
    refine findSome_unique f l2 ?_ a (hp.mem_iff.2 ha) x hfa
    intro a1 ha1 b1 hb1
    exact hu a1 (hp.mem_iff.1 ha1) b1 (hp.mem_iff.1 hb1)

/-- The chain of the argument loop tries the branches of the table in order. -/
theorem classifyIn_branches (str : List Char) : classifyIn branches str = classify str := by
  simp only [classify, classifyIn, branches, List.findSome?]
  cases regex_match str reClip with
  | some a => rfl
  | none =>
  cases regex_match str reQuiet with
  | some a => rfl
  | none =>
  cases regex_match str reLower with
  | some a => rfl
  | none =>
  cases regex_match str reUpper with
  | some a => rfl
  | none =>
  cases regex_match str reGUID with
  | some a => rfl
  | none =>
  cases regex_match str reHelp with
  | some a => rfl
  | none =>
  cases regex_match str reDelim1 with
  | some a => rfl
  | none =>
  cases regex_match str reDelim2 with
  | some a => rfl
  | none =>
  cases regex_match str reGenNumber with
  | some a => rfl
  | none => rfl

/-- C19: the nine option patterns, in the order of the source, are pairwise disjoint: no
token is matched by two of them. Hence trying the branches of the argument loop in any order
(any permutation of the table) classifies every token as the chain of the source does. -/
theorem patterns_disjoint (str : List Char) :
    patterns = [reClip, reQuiet, reLower, reUpper, reGUID, reHelp, reDelim1, reDelim2,
      reGenNumber] ∧
    List.Pairwise (fun a b =>
      ¬((regex_match str a).isSome = true ∧ (regex_match str b).isSome = true)) patterns ∧
    classifyIn branches str = classify str ∧
    ∀ order : List (regex × (smatch → ArgKind)), List.Perm order branches →
      classifyIn order str = classify str := by
  refine ⟨rfl, ?_, classifyIn_branches str, ?_⟩
  · rw [List.pairwise_iff_get]
    rintro ⟨i, hi⟩ ⟨j, hj⟩ hij ⟨ha, hb⟩
    have hi1 : i < branches.length := by simpa [patterns] using hi
    have hj1 : j < branches.length := by simpa [patterns] using hj
    have ea : patterns.get ⟨i, hi⟩ = (branches.get ⟨i, hi1⟩).1 := by simp [patterns]
    have eb : patterns.get ⟨j, hj⟩ = (branches.get ⟨j, hj1⟩).1 := by simp [patterns]
    rw [ea] at ha
    rw [eb] at hb
    have h1 := slot_of_branch str i hi1 ha
    have h2 := slot_of_branch str j hj1 hb
    have h3 : i < j := hij
    omega
  · intro order hp
    rw [← classifyIn_branches str]
    unfold classifyIn
    rw [findSome_perm _ branches order hp
      (fun a ha b hb x y hx hy => branch_results str a b ha hb x y hx hy)]

/-! ## Accepted spellings -/

/-- A token whose pattern is found in the table takes the branch of that pattern. -/
theorem classify_of_branch (str : List Char) (b : regex × (smatch → ArgKind))
    (hb : b ∈ branches) (sm : smatch) (h : regex_match str b.1 = some sm) :
    classify str = b.2 sm := by
  rw [← classifyIn_branches]
  unfold classifyIn
  rw [findSome_unique _ branches
    (fun a ha b hb x y hx hy => branch_results str a b ha hb x y hx hy) b hb (b.2 sm)
    (by rw [h]; rfl)]
  rfl

/-- A token that is not invalid took the branch of some pattern of the table. -/
theorem branch_of_classify (str : List Char) (k : ArgKind) (hk : classify str = k)
    (hne : k ≠ ArgKind.invalid) :
    ∃ b ∈ branches, ∃ sm, regex_match str b.1 = some sm ∧ b.2 sm = k := by
  rw [← classifyIn_branches] at hk
  unfold classifyIn at hk
  cases h : branches.findSome? (fun b => (regex_match str b.1).map b.2) with
  | none =>
    rw [h] at hk
    exact absurd hk.symm hne
  | some x =>
    rw [h] at hk
    obtain ⟨b, hb, hf⟩ := List.exists_of_findSome?_eq_some h
    obtain ⟨sm, hsm, e⟩ := Option.map_eq_some'.1 hf
    exact ⟨b, hb, sm, hsm, e.trans hk⟩

theorem classify_clip_iff (str : List Char) :
    classify str = ArgKind.clip ↔ isOption "clip".toList str := by
  constructor
  · intro hc
    obtain ⟨b, hb, sm, hm, hk⟩ := branch_of_classify str _ hc (by decide)
    simp only [branches, List.mem_cons, List.mem_singleton, List.not_mem_nil, or_false] at hb
    rcases hb with rfl | rfl | rfl | rfl | rfl | rfl | rfl | rfl | rfl <;>
      first
      | exact ArgKind.noConfusion hk
      | exact (reClip_iff str).1 (Option.isSome_iff_exists.2 ⟨sm, hm⟩)
  · intro h
    obtain ⟨sm, hsm⟩ := Option.isSome_iff_exists.1 ((reClip_iff str).2 h)
    exact classify_of_branch str (reClip, fun _ => ArgKind.clip) (by simp [branches]) sm hsm

theorem classify_quiet_iff (str : List Char) :
    classify str = ArgKind.quiet ↔ isOption "quiet".toList str := by
  constructor
  · intro hc
    obtain ⟨b, hb, sm, hm, hk⟩ := branch_of_classify str _ hc (by decide)
    simp only [branches, List.mem_cons, List.mem_singleton, List.not_mem_nil, or_false] at hb
    rcases hb with rfl | rfl | rfl | rfl | rfl | rfl | rfl | rfl | rfl <;>
      first
      | exact ArgKind.noConfusion hk
      | exact (reQuiet_iff str).1 (Option.isSome_iff_exists.2 ⟨sm, hm⟩)
  · intro h
    obtain ⟨sm, hsm⟩ := Option.isSome_iff_exists.1 ((reQuiet_iff str).2 h)
    exact classify_of_branch str (reQuiet, fun _ => ArgKind.quiet) (by simp [branches]) sm hsm

theorem classify_guid_iff (str : List Char) :
    classify str = ArgKind.guid ↔ isOption "guid".toList str := by
  constructor
  · intro hc
    obtain ⟨b, hb, sm, hm, hk⟩ := branch_of_classify str _ hc (by decide)
    simp only [branches, List.mem_cons, List.mem_singleton, List.not_mem_nil, or_false] at hb
    rcases hb with rfl | rfl | rfl | rfl | rfl | rfl | rfl | rfl | rfl <;>
      first
      | exact ArgKind.noConfusion hk
      | exact (reGUID_iff str).1 (Option.isSome_iff_exists.2 ⟨sm, hm⟩)
  · intro h
    obtain ⟨sm, hsm⟩ := Option.isSome_iff_exists.1 ((reGUID_iff str).2 h)
    exact classify_of_branch str (reGUID, fun _ => ArgKind.guid) (by simp [branches]) sm hsm

theorem classify_bareDelim_iff (str : List Char) :
    classify str = ArgKind.bareDelim ↔ isOption "delim".toList str := by
  constructor
  · intro hc
    obtain ⟨b, hb, sm, hm, hk⟩ := branch_of_classify str _ hc (by decide)
    simp only [branches, List.mem_cons, List.mem_singleton, List.not_mem_nil, or_false] at hb
    rcases hb with rfl | rfl | rfl | rfl | rfl | rfl | rfl | rfl | rfl <;>
      first
      | exact ArgKind.noConfusion hk
      | exact (reDelim2_iff str).1 (Option.isSome_iff_exists.2 ⟨sm, hm⟩)
  · intro h
    obtain ⟨sm, hsm⟩ := Option.isSome_iff_exists.1 ((reDelim2_iff str).2 h)
    exact classify_of_branch str (reDelim2, fun _ => ArgKind.bareDelim) (by simp [branches])
      sm hsm

theorem classify_delim_iff (str value : List Char) :
    classify str = ArgKind.delim value ↔ isValued "delim".toList str value := by
  constructor
  · intro hc
    obtain ⟨b, hb, sm, hm, hk⟩ := branch_of_classify str _ hc (by simp)
    simp only [branches, List.mem_cons, List.mem_singleton, List.not_mem_nil, or_false] at hb
    rcases hb with rfl | rfl | rfl | rfl | rfl | rfl | rfl | rfl | rfl <;>
      first
      | exact ArgKind.noConfusion hk
      | (obtain ⟨v, hv, rfl⟩ := (reDelim1_iff str sm).1 hm
         have e : v = value := ArgKind.delim.inj hk
         rw [← e]
         exact hv)
  · intro h
    have hsm := (reDelim1_iff str [value]).2 ⟨value, h, rfl⟩
    exact classify_of_branch str (reDelim1, fun smMatch => ArgKind.delim (smMatch.sub 1))
      (by simp [branches]) [value] hsm

theorem classify_number_iff (str value : List Char) :
    classify str = ArgKind.number value ↔ isValued "number".toList str value := by
  constructor
  · intro hc
    obtain ⟨b, hb, sm, hm, hk⟩ := branch_of_classify str _ hc (by simp)
    simp only [branches, List.mem_cons, List.mem_singleton, List.not_mem_nil, or_false] at hb
    rcases hb with rfl | rfl | rfl | rfl | rfl | rfl | rfl | rfl | rfl <;>
      first
      | exact ArgKind.noConfusion hk
      | (obtain ⟨v, hv, rfl⟩ := (reGenNumber_iff str sm).1 hm
         have e : v = value := ArgKind.number.inj hk
         rw [← e]
         exact hv)
  · intro h
    have hsm := (reGenNumber_iff str [value]).2 ⟨value, h, rfl⟩
    exact classify_of_branch str (reGenNumber, fun smMatch => ArgKind.number (smMatch.sub 1))
      (by simp [branches]) [value] hsm

/-- The spellings of `clip` are eight. -/
theorem spells_clip_iff (word : List Char) :
    spells "clip".toList word ↔ word.map Char.toLower ∈ clipSpellings := by
  have hsub : ∀ s : List Char, List.Sublist s ['l', 'i', 'p'] ↔
      s ∈ [[], ['p'], ['i'], ['i', 'p'], ['l'], ['l', 'p'], ['l', 'i'], ['l', 'i', 'p']] := by
    intro s
    rw [← List.mem_sublists]
    have e : List.sublists ['l', 'i', 'p'] =
        [[], ['l'], ['i'], ['l', 'i'], ['p'], ['l', 'p'], ['i', 'p'], ['l', 'i', 'p']] := by
      decide
    rw [e]
    simp only [List.mem_cons, List.mem_singleton, List.not_mem_nil, or_false]
    tauto
  constructor
  · rintro ⟨s, e, hs⟩
    have hs1 := (hsub s).1 hs
    rw [e]
    simp only [List.mem_cons, List.mem_singleton, List.not_mem_nil, or_false] at hs1
    rcases hs1 with rfl | rfl | rfl | rfl | rfl | rfl | rfl | rfl <;> decide
  · intro h
    have h1 : word.map Char.toLower ∈
        [['c'], ['c', 'l'], ['c', 'i'], ['c', 'p'], ['c', 'l', 'i'], ['c', 'l', 'p'],
          ['c', 'i', 'p'], ['c', 'l', 'i', 'p']] := h
    simp only [List.mem_cons, List.mem_singleton, List.not_mem_nil, or_false] at h1
    rcases h1 with h1 | h1 | h1 | h1 | h1 | h1 | h1 | h1
    · exact ⟨[], h1, (hsub _).2 (by simp)⟩
    · exact ⟨['l'], h1, (hsub _).2 (by simp)⟩
    · exact ⟨['i'], h1, (hsub _).2 (by simp)⟩
    · exact ⟨['p'], h1, (hsub _).2 (by simp)⟩
    · exact ⟨['l', 'i'], h1, (hsub _).2 (by simp)⟩
    · exact ⟨['l', 'p'], h1, (hsub _).2 (by simp)⟩
    · exact ⟨['i', 'p'], h1, (hsub _).2 (by simp)⟩
    · exact ⟨['l', 'i', 'p'], h1, (hsub _).2 (by simp)⟩

/-- C20, the claim as stated fails: `n` is the first letter of `number` followed by an (empty)
subsequence of the remaining letters, yet the token `-n` matches no pattern, for the count
pattern demands a separator; it is reported as an invalid argument. Likewise `c` spells
`clip`, yet `-c=x` is not the clipboard option. -/
theorem bare_count_counterexample :
    spells "number".toList "n".toList ∧
    classify "-n".toList = ArgKind.invalid ∧
    parseArgs MainState.init ["-n".toList] =
      Except.ok { MainState.init with cerr := invalidMessage "-n".toList, is_error := true } ∧
    spells "clip".toList "c".toList ∧
    classify "-c=x".toList = ArgKind.invalid := by
  refine ⟨⟨[], rfl, List.nil_sublist _⟩, by decide, by decide, ⟨[], rfl, List.nil_sublist _⟩,
    by decide⟩

/-- C20 as amended: a token takes the branch of clip, quiet, guid or the bare delimiter
exactly when it is an introducer followed, in any letter case, by the keyword's first letter
and an in-order subsequence of its remaining letters, and nothing else; it takes the branch
of the delimiter with a value, or of the count, exactly when such a spelling of `delim`, or
of `number`, is followed by a separator `=` or `:` and the value, free of line terminators.
The spellings of `clip` are the eight of `clipSpellings`; the tokens `-cp`, `-qt` and `-gd`
are taken as clip, quiet and guid and parsing them raises no error, whereas `-n` (no
separator) and `-c=x` (a value after a flag) are invalid. -/
theorem keyword_spellings (str value word : List Char) :
    (classify str = ArgKind.clip ↔ isOption "clip".toList str) ∧
    (classify str = ArgKind.quiet ↔ isOption "quiet".toList str) ∧
    (classify str = ArgKind.guid ↔ isOption "guid".toList str) ∧
    (classify str = ArgKind.bareDelim ↔ isOption "delim".toList str) ∧
    (classify str = ArgKind.delim value ↔ isValued "delim".toList str value) ∧
    (classify str = ArgKind.number value ↔ isValued "number".toList str value) ∧
    (spells "clip".toList word ↔ word.map Char.toLower ∈ clipSpellings) ∧
    clipSpellings.length = 8 ∧
    classify "-cp".toList = ArgKind.clip ∧
    classify "-qt".toList = ArgKind.quiet ∧
    classify "-gd".toList = ArgKind.guid ∧
    parseArgs MainState.init ["-cp".toList, "-qt".toList, "-gd".toList] =
      Except.ok { MainState.init with is_clipboard := true, is_quiet := true,
                                      is_guid := true } ∧
    classify "-n".toList = ArgKind.invalid ∧
    classify "-c=x".toList = ArgKind.invalid :=
  ⟨classify_clip_iff str, classify_quiet_iff str, classify_guid_iff str,
    classify_bareDelim_iff str, classify_delim_iff str value, classify_number_iff str value,
    spells_clip_iff word, by decide, by decide, by decide, by decide, by decide, by decide,
    by decide⟩

/-! ## Splitting a delimiter value at a comma -/

theorem run_seq_eq (icase : Bool) (input : List Char) (a b : Regex) (st : List Char × smatch) :
    Regex.run icase input (Regex.seq a b) st =
      (Regex.run icase input a st).flatMap (fun st1 => Regex.run icase input b st1) := by
  simp only [Regex.run]

theorem run_group_eq (icase : Bool) (input : List Char) (a : Regex) (st : List Char × smatch) :
    Regex.run icase input (Regex.group a) st =
      (Regex.run icase input a st).map
        (fun st1 => (st1.1, st1.2 ++ [st.1.take (st.1.length - st1.1.length)])) := by
  simp only [Regex.run]

theorem run_dotPlus_cons (icase : Bool) (input : List Char) (c : Char) (cs : List Char)
    (caps : smatch) (hc : isLineTerminator c = false) :
    Regex.run icase input Regex.dotPlus (c :: cs, caps) = dotStarFrom caps cs := by
  simp [Regex.run, hc]

/-- The ways `.+` matches: a non-empty prefix free of line terminators is consumed. -/
theorem run_dotPlus_iff (icase : Bool) (input : List Char) (st r : List Char × smatch)
    (h : r ∈ Regex.run icase input Regex.dotPlus st) :
    ∃ c taken, st.1 = c :: taken ++ r.1 := by
  obtain ⟨s, caps⟩ := st
  cases s with
  | nil => simp [Regex.run] at h
  | cons c cs =>
    simp only [Regex.run] at h
    split_ifs at h
    · simp at h
    · obtain ⟨-, taken, e, -⟩ := (dotStarFrom_iff caps cs r).1 h
      exact ⟨c, taken, by rw [e]; rfl⟩

/-- The part `,(.+)...` of the comma pattern goes on only from a comma that is followed by
something. -/
theorem run_comma_plus (input : List Char) (R : Regex) (y z : List Char × smatch)
    (hz : z ∈ Regex.run false input
      (Regex.seq (Regex.chr ',') (Regex.seq (Regex.group Regex.dotPlus) R)) y) :
    ∃ b, y.1 = ',' :: b ∧ b ≠ [] := by
  obtain ⟨m1, hm1, h1⟩ := (run_seq_mem _ _ _ _ _ _).1 hz
  obtain ⟨c, e1, e2, -⟩ := (run_chr_iff _ _ _ _ _).1 hm1
  obtain ⟨m2, hm2, -⟩ := (run_seq_mem _ _ _ _ _ _).1 h1
  obtain ⟨m, hm, -⟩ := (run_group_iff _ _ _ _ _).1 hm2
  obtain ⟨d, taken, e3⟩ := run_dotPlus_iff _ _ _ _ hm
  have hc : c = ',' := (sameChar_case _ _).1 e2
  refine ⟨m1.1, by rw [e1, hc], ?_⟩
  rw [e3]
  simp

theorem dotStarFrom_append (caps : smatch) (a b : List Char)
    (ha : ∀ c ∈ a, isLineTerminator c = false) :
    ∃ L, dotStarFrom caps (a ++ b) = dotStarFrom caps b ++ L := by
  induction a with
  | nil => exact ⟨[], by simp⟩
  | cons x a1 ih =>
    obtain ⟨L, hL⟩ := ih (fun c hc => ha c (List.mem_cons_of_mem _ hc))
    refine ⟨L ++ [(x :: (a1 ++ b), caps)], ?_⟩
    have e : x :: a1 ++ b = x :: (a1 ++ b) := rfl
    have hx : ¬ isLineTerminator x = true := by simp [ha x (List.mem_cons_self _ _)]
    rw [e, dotStarFrom, if_neg hx, hL, List.append_assoc]

/-- The first success among attempts made in order: the attempts before it yield nothing
that passes. -/
theorem find_flatMap_first {α β : Type} (f : α → List β) (p : β → Bool) (l1 l2 : List α)
    (x : α) (z : β) (h1 : ∀ y ∈ l1, ∀ w ∈ f y, p w = false)
    (hz : (f x).find? p = some z) :
    ((l1 ++ x :: l2).flatMap f).find? p = some z := by
  have hnone : (l1.flatMap f).find? p = none := by
    rw [List.find?_eq_none]
    intro w hw
    obtain ⟨y, hy, hwy⟩ := List.mem_flatMap.1 hw
    simp [h1 y hy w hwy]
  rw [List.flatMap_append, List.find?_append, hnone, List.flatMap_cons, List.find?_append, hz]
  rfl

/-- The comma pattern splits a value at its last comma that has something after it. -/
theorem reDelimCS_split (lead tail : List Char)
    (hfree : ∀ c ∈ lead ++ ',' :: tail, isLineTerminator c = false)
    (hl : lead ≠ []) (ht : tail ≠ [])
    (hlast : ∀ a b, tail = a ++ ',' :: b → b = []) :
    regex_match (lead ++ ',' :: tail) reDelimCS = some [lead, tail] := by
  obtain ⟨c, p, rfl⟩ := List.exists_cons_of_ne_nil hl
  obtain ⟨t0, ts, rfl⟩ := List.exists_cons_of_ne_nil ht
  have hc : isLineTerminator c = false := hfree c (by simp)
  have hp : ∀ x ∈ p, isLineTerminator x = false := fun x hx => hfree x (by simp [hx])
  have ht0 : isLineTerminator t0 = false := hfree t0 (by simp)
  have hts : ∀ x ∈ ts, isLineTerminator x = false := fun x hx => hfree x (by simp [hx])
  obtain ⟨L, hL⟩ := dotStarFrom_append [] p (',' :: t0 :: ts) hp
  have hcomma : dotStarFrom [] (',' :: t0 :: ts) =
      dotStarFrom [] (t0 :: ts) ++ [(',' :: t0 :: ts, [])] := by
    have : isLineTerminator ',' = false := by decide
    simp only [dotStarFrom, this, ht0, Bool.false_eq_true, if_false]
  obtain ⟨R, hR⟩ := dotStarFrom_head [c :: p] ts hts
  have hv : c :: p ++ ',' :: t0 :: ts = c :: (p ++ ',' :: t0 :: ts) := rfl
  rw [hv]
  have hfind : (Regex.run false (c :: (p ++ ',' :: t0 :: ts)) reDelimCS.re
      (c :: (p ++ ',' :: t0 :: ts), [])).find? (fun st => st.1.isEmpty) =
      some ([], [c :: p, t0 :: ts]) := by
    have hre : reDelimCS.re = Regex.seq Regex.bol (Regex.seq (Regex.group Regex.dotPlus)
        (Regex.seq (Regex.chr ',') (Regex.seq (Regex.group Regex.dotPlus)
          (Regex.seq Regex.eol Regex.eps)))) := rfl
    have hbol : Regex.run false (c :: (p ++ ',' :: t0 :: ts)) Regex.bol
        (c :: (p ++ ',' :: t0 :: ts), []) = [] ++ (c :: (p ++ ',' :: t0 :: ts), []) :: [] := by
      simp [Regex.run]
    rw [hre, run_seq_eq, hbol]
    refine find_flatMap_first _ _ _ _ _ _ (fun y hy => absurd hy (List.not_mem_nil _)) ?_
    have hgroup : Regex.run false (c :: (p ++ ',' :: t0 :: ts)) (Regex.group Regex.dotPlus)
        (c :: (p ++ ',' :: t0 :: ts), []) =
        (dotStarFrom [] (t0 :: ts)).map (fun st1 => (st1.1, st1.2 ++
          [(c :: (p ++ ',' :: t0 :: ts)).take
            ((c :: (p ++ ',' :: t0 :: ts)).length - st1.1.length)])) ++
        (',' :: t0 :: ts, [c :: p]) ::
          L.map (fun st1 => (st1.1, st1.2 ++
          [(c :: (p ++ ',' :: t0 :: ts)).take
            ((c :: (p ++ ',' :: t0 :: ts)).length - st1.1.length)])) := by
      have htake : (c :: (p ++ ',' :: t0 :: ts)).take
          ((c :: (p ++ ',' :: t0 :: ts)).length - (',' :: t0 :: ts).length) = c :: p := by
        have e : (c :: (p ++ ',' :: t0 :: ts)).length - (',' :: t0 :: ts).length =
            (c :: p).length := by
          simp only [List.length_append, List.length_cons]
          omega
        rw [e]
        exact List.take_left (c :: p) (',' :: t0 :: ts)
      rw [run_group_eq]
      rw [run_dotPlus_cons _ _ _ _ _ hc, hL, hcomma]
      simp only [List.map_append, List.map_cons, List.map_nil, List.append_assoc,
        List.singleton_append, List.nil_append]
      rw [htake]
    rw [run_seq_eq, hgroup]
    refine find_flatMap_first _ _ _ _ _ _ ?_ ?_
    · intro y hy w hw
      exfalso
      obtain ⟨m, hm, rfl⟩ := List.mem_map.1 hy
      obtain ⟨b, hb1, hb2⟩ := run_comma_plus _ _ _ _ hw
      obtain ⟨-, taken, e, -⟩ := (dotStarFrom_iff _ _ _).1 hm
      simp only at hb1
      rw [hb1] at e
      exact hb2 (hlast taken b e)
    · simp [Regex.run, sameChar, ht0, hR]
  show ((Regex.run false (c :: (p ++ ',' :: t0 :: ts)) reDelimCS.re
    (c :: (p ++ ',' :: t0 :: ts), [])).find? (fun st => st.1.isEmpty)).map (fun st => st.2) = _
  rw [hfind]
  rfl

/-- The comma pattern matches only a value with a comma between two non-empty parts. -/
theorem reDelimCS_some (value : List Char) (sm : smatch)
    (h : regex_match value reDelimCS = some sm) :
    ∃ l t, value = l ++ ',' :: t ∧ l ≠ [] ∧ t ≠ [] := by
  obtain ⟨st, hst, -, -⟩ := regex_match_some value reDelimCS sm h
  have hre : reDelimCS.re = Regex.seq Regex.bol (Regex.seq (Regex.group Regex.dotPlus)
      (Regex.seq (Regex.chr ',') (Regex.seq (Regex.group Regex.dotPlus)
        (Regex.seq Regex.eol Regex.eps)))) := rfl
  rw [hre] at hst
  obtain ⟨m1, hm1, h1⟩ := (run_seq_mem _ _ _ _ _ _).1 hst
  obtain ⟨rfl, -⟩ := (run_bol_iff _ _ _ _).1 hm1
  obtain ⟨m2, hm2, h2⟩ := (run_seq_mem _ _ _ _ _ _).1 h1
  obtain ⟨m, hm, rfl⟩ := (run_group_iff _ _ _ _ _).1 hm2
  obtain ⟨c, taken, e⟩ := run_dotPlus_iff _ _ _ _ hm
  obtain ⟨b, hb1, hb2⟩ := run_comma_plus _ _ _ _ h2
  simp only at e hb1
  exact ⟨c :: taken, b, by rw [e, hb1], by simp, hb2⟩

/-- Among the commas with something on both sides there is a last one. -/
theorem rightmost_comma (value : List Char) :
    ∀ (n : Nat) (l t : List Char), t.length = n → value = l ++ ',' :: t → l ≠ [] → t ≠ [] →
      ∃ l1 t1, value = l1 ++ ',' :: t1 ∧ l1 ≠ [] ∧ t1 ≠ [] ∧
        ∀ a b, t1 = a ++ ',' :: b → b = [] := by
  intro n
  induction n using Nat.strong_induction_on with
  | _ n ih =>
    intro l t hn hv hl ht
    by_cases hlast : ∀ a b, t = a ++ ',' :: b → b = []
    · exact ⟨l, t, hv, hl, ht, hlast⟩
    · push_neg at hlast
      obtain ⟨a, b, e, hb⟩ := hlast
      refine ih b.length ?_ (l ++ ',' :: a) b rfl ?_ (by simp) hb
      · rw [← hn, e]
        simp only [List.length_append, List.length_cons]
        omega
      · rw [hv, e]
        simp

/-- The last such comma leaves the longest lead. -/
theorem rightmost_longest (l t l1 t1 : List Char) (h : l ++ ',' :: t = l1 ++ ',' :: t1)
    (ht1 : t1 ≠ []) (hlast : ∀ a b, t = a ++ ',' :: b → b = []) : l1.length ≤ l.length := by
  rcases List.append_eq_append_iff.1 h with ⟨a, e1, e2⟩ | ⟨a, e1, e2⟩
  · cases a with
    | nil =>
      rw [e1]
      simp
    | cons x a1 =>
      simp only [List.cons_append, List.cons.injEq] at e2
      exact absurd (hlast a1 t1 e2.2) ht1
  · rw [e1]
    simp

/-- The delimiters computed from a value with a comma between two non-empty parts. -/
theorem splitDelim_comma (lead tail : List Char)
    (hfree : ∀ c ∈ lead ++ ',' :: tail, isLineTerminator c = false)
    (hl : lead ≠ []) (ht : tail ≠ [])
    (hlast : ∀ a b, tail = a ++ ',' :: b → b = []) :
    splitDelim (lead ++ ',' :: tail) = (lead, tail) := by
  obtain ⟨c, p, e1⟩ := List.exists_cons_of_ne_nil hl
  have h0 : ¬ (lead ++ ',' :: tail).length = 0 := by simp
  have h1 : ¬ (lead ++ ',' :: tail).length = 1 := by
    rw [e1]
    simp
  simp only [splitDelim, h0, h1, if_false, reDelimCS_split lead tail hfree hl ht hlast]
  rfl

/-- The delimiters computed from a value of two characters or more without such a comma. -/
theorem splitDelim_half (value : List Char) (h2 : 2 ≤ value.length)
    (hno : ¬ ∃ l t, value = l ++ ',' :: t ∧ l ≠ [] ∧ t ≠ []) :
    splitDelim value = (value.take (value.length / 2), value.drop (value.length / 2)) := by
  have h0 : ¬ value.length = 0 := by omega
  have h1 : ¬ value.length = 1 := by omega
  have hnone : regex_match value reDelimCS = none := by
    cases h : regex_match value reDelimCS with
    | none => rfl
    | some sm => exact absurd (reDelimCS_some value sm h) hno
  simp only [splitDelim, h0, h1, if_false, hnone]

/-- C11: for every value the delimiter-with-value pattern captures: when it holds a comma
with at least one character before it and at least one after it, the round of the argument
loop sets the lead to the text before such a comma and the tail to the text after it, both
non-empty, with `lead ++ "," ++ tail = value`, and the comma taken is the rightmost one that
leaves both parts non-empty (no comma with something on both sides leaves a longer lead or a
shorter tail); when no comma qualifies and the value has two characters or more, the lead is
the first half by length and the tail the rest. -/
theorem delimiter_with_comma (st : MainState) (str value : List Char)
    (hk : classify str = ArgKind.delim value) :
    ∃ st1, parseArg st str = Except.ok st1 ∧
      st1 = { st with is_delim := true, strLead := st1.strLead, strTail := st1.strTail } ∧
      ((∃ l t, value = l ++ ',' :: t ∧ l ≠ [] ∧ t ≠ []) →
        2 ≤ value.length ∧ st1.strLead ≠ [] ∧ st1.strTail ≠ [] ∧
        st1.strLead ++ ',' :: st1.strTail = value ∧
        ∀ l t, value = l ++ ',' :: t → l ≠ [] → t ≠ [] →
          l.length ≤ st1.strLead.length ∧ st1.strTail.length ≤ t.length) ∧
      ((¬ ∃ l t, value = l ++ ',' :: t ∧ l ≠ [] ∧ t ≠ []) → 2 ≤ value.length →
        st1.strLead = value.take (value.length / 2) ∧
        st1.strTail = value.drop (value.length / 2)) := by
  have hfree : ∀ c ∈ value, isLineTerminator c = false := by
    obtain ⟨i, w, sep, -, -, -, -, hv⟩ := (classify_delim_iff str value).1 hk
    exact hv
  refine ⟨_, by rw [parseArg_eq, hk]; rfl, rfl, ?_, ?_⟩
  · rintro ⟨l, t, hv, hl, ht⟩
    obtain ⟨l1, t1, hv1, hl1, ht1, hlast⟩ := rightmost_comma value t.length l t rfl hv hl ht
    subst hv1
    have hs := splitDelim_comma l1 t1 hfree hl1 ht1 hlast
    refine ⟨?_, ?_, ?_, ?_, ?_⟩
    · obtain ⟨c, p, rfl⟩ := List.exists_cons_of_ne_nil hl1
      simp only [List.length_append, List.length_cons]
      omega
    · show (splitDelim (l1 ++ ',' :: t1)).1 ≠ []
      rw [hs]
      exact hl1
    · show (splitDelim (l1 ++ ',' :: t1)).2 ≠ []
      rw [hs]
      exact ht1
    · show (splitDelim (l1 ++ ',' :: t1)).1 ++ ',' :: (splitDelim (l1 ++ ',' :: t1)).2 = _
      rw [hs]
    · intro l2 t2 h2 _ ht2
      show l2.length ≤ (splitDelim (l1 ++ ',' :: t1)).1.length ∧
        (splitDelim (l1 ++ ',' :: t1)).2.length ≤ t2.length
      rw [hs]
      have hle := rightmost_longest l1 t1 l2 t2 h2 ht2 hlast
      have hlen := congrArg List.length h2
      simp only [List.length_append, List.length_cons] at hlen
      refine ⟨hle, ?_⟩
      show t1.length ≤ t2.length
      omega
  · intro hno h2
    have hs := splitDelim_half value h2 hno
    show (splitDelim value).1 = _ ∧ (splitDelim value).2 = _
    rw [hs]
    exact ⟨rfl, rfl⟩

set_option maxRecDepth 100000 in
theorem delimiter_with_comma_witness :
    classify "-d=a,b,c".toList = ArgKind.delim "a,b,c".toList ∧
    parseArg MainState.init "-d=abc,de".toList =
      Except.ok { MainState.init with is_delim := true, strLead := "abc".toList,
                                      strTail := "de".toList } ∧
    parseArg MainState.init "-d=a,b,c".toList =
      Except.ok { MainState.init with is_delim := true, strLead := "a,b".toList,
                                      strTail := "c".toList } ∧
    parseArg MainState.init "-d=,a".toList =
      Except.ok { MainState.init with is_delim := true, strLead := ",".toList,
                                      strTail := "a".toList } ∧
    parseArg MainState.init "-d=a,".toList =
      Except.ok { MainState.init with is_delim := true, strLead := "a".toList,
                                      strTail := ",".toList } ∧
    ∃ st1, parseArg MainState.init "-d=a,b,c".toList = Except.ok st1 ∧
      st1.strLead ++ ',' :: st1.strTail = "a,b,c".toList ∧ st1.strTail.length ≤ 1 := by
  refine ⟨by decide, by decide, by decide, by decide, by decide, ?_⟩
  obtain ⟨st1, h1, -, h2, -⟩ :=
    delimiter_with_comma MainState.init "-d=a,b,c".toList "a,b,c".toList (by decide)
  have h3 := h2 ⟨"a".toList, "b,c".toList, by decide, by decide, by decide⟩
  exact ⟨st1, h1, h3.2.2.2.1,
    (h3.2.2.2.2 "a,b".toList "c".toList (by decide) (by decide) (by decide)).2⟩
end UUIDGen
